import Mathlib

/-!
# MIDIVisualizer: the frame export pipeline (`src/helpers/Recorder.cpp`)

A shallow embedding of the pixel post-processing (`convertImageInPlace`) and of the
`Recorder` bookkeeping, followed by the properties proved about them.

Conventions of the embedding.

* A `GLubyte` is a `Fin 256`; an image buffer (`std::vector<GLubyte>`) is a list of bytes.
  Reads and writes go through `List.getD` / `List.set`; every theorem about a buffer assumes
  that it holds exactly `width * height * 4` bytes, so no access leaves the buffer.
* The `int` loop counters and byte offsets of `convertImageInPlace` are natural numbers (the
  properties concern `width, height ≥ 0`); offsets are taken not to overflow `int`.
* A `float` is the rational number it denotes. Every arithmetic operation on floats is the
  exact operation followed by `fl`, rounding to the nearest binary32 value, ties to even
  (IEEE 754 single precision, expression evaluation in `float`). Infinities and NaN are not
  modelled.
-/

namespace MIDIVisualizer

/-! ## Bytes and buffers -/

/-- An OpenGL unsigned byte. -/
abbrev GLubyte := Fin 256

/-- The contents of a `std::vector<GLubyte>`. -/
abbrev Buffer := List GLubyte

/-- The effect of `std::swap(buffer[i], buffer[j])`. -/
def swap (buffer : Buffer) (i j : Nat) : Buffer :=
  (buffer.set i (buffer.getD j 0)).set j (buffer.getD i 0)

/-- The effect of `std::swap_ranges(begin + first1, begin + last1, begin + first2)`: the
elements of the first range are exchanged one by one with those of the second. -/
def swap_ranges (buffer : Buffer) (first1 last1 first2 : Nat) : Buffer :=
  (List.range (last1 - first1)).foldl (fun b k => swap b (first1 + k) (first2 + k)) buffer

/-! ## Single precision arithmetic -/

/-- The power `2 ^ e` for an integer exponent. -/
def pow2 (e : ℤ) : ℚ :=
  if 0 ≤ e then ((2 ^ e.toNat : ℕ) : ℚ) else 1 / ((2 ^ (-e).toNat : ℕ) : ℚ)

/-- Rounding of a rational to the nearest integer, ties to the even neighbour. -/
def roundHalfEven (x : ℚ) : ℤ :=
  if x - ⌊x⌋ < 1 / 2 then ⌊x⌋
  else if 1 / 2 < x - ⌊x⌋ then ⌊x⌋ + 1
  else if ⌊x⌋ % 2 = 0 then ⌊x⌋ else ⌊x⌋ + 1

/-- Repeated halving: `log2Aux fuel n` is `⌊log₂ n⌋` as soon as `n ≤ fuel`. -/
def log2Aux : Nat → Nat → Nat
  | 0, _ => 0
  | fuel + 1, n => if 2 ≤ n then log2Aux fuel (n / 2) + 1 else 0

/-- The binary logarithm `⌊log₂ n⌋` of a natural number (`0` for `n = 0`). -/
def nlog2 (n : Nat) : Nat := log2Aux n n

/-- The binary exponent `⌊log₂ |x|⌋` of a nonzero rational. -/
def ilog2 (x : ℚ) : ℤ :=
  if pow2 ((nlog2 x.num.natAbs : ℤ) - (nlog2 x.den : ℤ)) ≤ |x| then
    (nlog2 x.num.natAbs : ℤ) - (nlog2 x.den : ℤ)
  else (nlog2 x.num.natAbs : ℤ) - (nlog2 x.den : ℤ) - 1

/-- Rounding to binary32: 24 significant bits, least exponent `-126` (so the spacing of the
subnormal numbers is `2 ^ (-149)`), round to nearest, ties to even. The exponent is not
bounded above here: a result whose rounded magnitude exceeds `FLT_MAX` is an infinity, which
`F32.round` adds. -/
def fl (x : ℚ) : ℚ :=
  if x = 0 then 0
  else (roundHalfEven (x / pow2 (max (ilog2 x) (-126) - 23)) : ℚ) * pow2 (max (ilog2 x) (-126) - 23)

/-- The `float` sum `x + y`, when it is finite. -/
def f32add (x y : ℚ) : ℚ := fl (x + y)

/-- The `float` product `x * y`, when it is finite. -/
def f32mul (x y : ℚ) : ℚ := fl (x * y)

/-- The `float` quotient `x / y` by a nonzero `y`, when it is finite. -/
def f32div (x y : ℚ) : ℚ := fl (x / y)

/-- The conversion `float(n)` of an integer, when it is finite (as it is for every `int` and
every `size_t`). -/
def f32ofInt (n : ℤ) : ℚ := fl (n : ℚ)

/-- The largest finite binary32 value, `FLT_MAX = (2 ^ 24 - 1) * 2 ^ 104`. -/
def FLT_MAX : ℚ := (2 ^ 24 - 1) * 2 ^ 104

/-- A `float` with its special values: a finite number, an infinity with its sign, or a NaN.
Zero carries no sign. -/
inductive F32 where
  | finite (value : ℚ)
  | infinite (negative : Bool)
  | nan

/-- The `float` an exact finite result is stored as: rounded by `fl`, and an infinity when
the rounded magnitude is above `FLT_MAX`. -/
def F32.round (x : ℚ) : F32 :=
  if FLT_MAX < |fl x| then F32.infinite (decide (x < 0)) else F32.finite (fl x)

/-- The `float` sum, special values included. -/
def F32.add : F32 → F32 → F32
  | F32.finite x, F32.finite y => F32.round (x + y)
  | F32.finite _, F32.infinite s => F32.infinite s
  | F32.infinite s, F32.finite _ => F32.infinite s
  | F32.infinite s, F32.infinite t => if s = t then F32.infinite s else F32.nan
  | _, _ => F32.nan

/-- The `float` product, special values included. -/
def F32.mul : F32 → F32 → F32
  | F32.finite x, F32.finite y => F32.round (x * y)
  | F32.finite x, F32.infinite s =>
    if x = 0 then F32.nan else F32.infinite (xor s (decide (x < 0)))
  | F32.infinite s, F32.finite y =>
    if y = 0 then F32.nan else F32.infinite (xor s (decide (y < 0)))
  | F32.infinite s, F32.infinite t => F32.infinite (xor s t)
  | _, _ => F32.nan

/-- The `float` quotient, special values included. A zero divisor is taken as `+0`: with
`-0` the infinity has the other sign. -/
def F32.div : F32 → F32 → F32
  | F32.finite x, F32.finite y =>
    if y = 0 then (if x = 0 then F32.nan else F32.infinite (decide (x < 0)))
    else F32.round (x / y)
  | F32.finite _, F32.infinite _ => F32.finite 0
  | F32.infinite s, F32.finite y => F32.infinite (xor s (decide (y < 0)))
  | _, _ => F32.nan

/-- The conversion `float(n)` of an `int`. -/
def F32.ofInt (n : ℤ) : F32 := F32.round (n : ℚ)

/-- The function `std::ceil` on a `float`. -/
def F32.ceil : F32 → F32
  | F32.finite x => F32.finite (⌈x⌉ : ℤ)
  | x => x

/-- The conversion `int(x)` of a `float`: truncation toward zero. When the truncated value is
not an `int`, and for an infinity or a NaN, the C++ standard leaves the result undefined; the
value is then the one the conversion instruction of x86-64 gives, `INT_MIN`. -/
def F32.toInt : F32 → Int
  | F32.finite x =>
    if -2 ^ 31 ≤ (if 0 ≤ x then ⌊x⌋ else ⌈x⌉) ∧ (if 0 ≤ x then ⌊x⌋ else ⌈x⌉) < 2 ^ 31 then
      (if 0 ≤ x then ⌊x⌋ else ⌈x⌉)
    else -2 ^ 31
  | _ => -2 ^ 31

/-- The function `glm::clamp(x, minVal, maxVal) = min(max(x, minVal), maxVal)`. -/
def clamp (x minVal maxVal : ℚ) : ℚ := min (max x minVal) maxVal

/-- The conversion `GLubyte(x)` of a `float`: truncation toward zero. -/
def toGLubyte (x : ℚ) : GLubyte := Fin.ofNat (Int.toNat ⌊x⌋)

/-! ## `convertImageInPlace` -/

/-- The row flip loop `for (int y = 0; y < height/2; ++y)`: row `y` is exchanged with row
`height - y - 1`. -/
def flipRows (buffer : Buffer) (width height : Nat) : Buffer :=
  (List.range (height / 2)).foldl
    (fun b y => swap_ranges b (y * width * 4) ((y + 1) * width * 4) ((height - y - 1) * width * 4))
    buffer

/-- The loop nest `for (int y = 0; y < height; ++y) for (int x = 0; x < width; ++x)` shared by
the last two passes, running `body` on `baseInd = (y * width + x) * 4`. -/
def forEachPixel (width height : Nat) (body : Nat → Buffer → Buffer) (buffer : Buffer) : Buffer :=
  (List.range height).foldl
    (fun b y => (List.range width).foldl (fun b x => body ((y * width + x) * 4) b) b) buffer

/-- One colour channel of the un-premultiplication: `c` is `float(buffer[baseInd + k]) / 255.0f`
divided by `a`, clamped to `[0, 1]` and scaled back by `255.0f`. -/
def cancelChannel (c : GLubyte) (a : ℚ) : GLubyte :=
  toGLubyte (f32mul 255 (clamp (f32div (f32div (f32ofInt c.val) 255) a) 0 1))

/-- The body of the un-premultiplication loop at `baseInd`; a pixel whose alpha is zero is
skipped (`continue`). -/
def cancelPremultiplyAt (baseInd : Nat) (buffer : Buffer) : Buffer :=
  if f32div (f32ofInt (buffer.getD (baseInd + 3) 0).val) 255 = 0 then buffer
  else
    ((buffer.set (baseInd + 0)
        (cancelChannel (buffer.getD (baseInd + 0) 0)
          (f32div (f32ofInt (buffer.getD (baseInd + 3) 0).val) 255))).set (baseInd + 1)
        (cancelChannel (buffer.getD (baseInd + 1) 0)
          (f32div (f32ofInt (buffer.getD (baseInd + 3) 0).val) 255))).set (baseInd + 2)
        (cancelChannel (buffer.getD (baseInd + 2) 0)
          (f32div (f32ofInt (buffer.getD (baseInd + 3) 0).val) 255))

/-- The body of the alpha erasing loop at `baseInd`. -/
def eraseAlphaAt (baseInd : Nat) (buffer : Buffer) : Buffer :=
  buffer.set (baseInd + 3) 255

/-- The function `convertImageInPlace(buffer, size, exportNoBackground, cancelPremultiply)`,
returning the final contents of `buffer`. -/
def convertImageInPlace (buffer : Buffer) (size : Nat × Nat)
    (exportNoBackground cancelPremultiply : Bool) : Buffer :=
  let width := size.1
  let height := size.2
  let flipped := flipRows buffer width height
  let cancelled :=
    if exportNoBackground && cancelPremultiply then
      forEachPixel width height cancelPremultiplyAt flipped
    else flipped
  if !exportNoBackground then forEachPixel width height eraseAlphaAt cancelled else cancelled

/-! ## The recorder: data -/

/-- A `std::string`. -/
abbrev CppString := List Char

/-- Modelled from the spec: the enumeration `Recorder::Format` is declared in `Recorder.h`,
which is not among the sources. Its values are those of the `_formats` table, in the order of
the table, which `drawGUI` and `setParameters` index by `int(_outFormat)`. -/
inductive Format where
  | PNG
  | MPEG2
  | MPEG4
  | PRORES
deriving DecidableEq

/-- The conversion `int(format)`. -/
def Format.toInt : Format → Int
  | Format.PNG => 0
  | Format.MPEG2 => 1
  | Format.MPEG4 => 2
  | Format.PRORES => 3

/-- One entry `{name, ext, format}` of the `_formats` table. -/
structure CodecOpts where
  name : CppString
  ext : CppString
  format : Format
deriving DecidableEq

/-- The compile-time switches `MIDIVIZ_SUPPORT_VIDEO` and `FFMPEG_USE_THREADS`. -/
structure Build where
  supportVideo : Bool
  ffmpegUseThreads : Bool
deriving DecidableEq

/-- The work handed to a slot: the arguments of `writePNGToPath` or of `writeFrameToVideo`
(`slot` stands for the pointers to the slot's buffer, scratch frame and scaling context,
`pts` for the timestamp the scratch frame carries). -/
inductive Task where
  | writePNGToPath (slot : Nat) (size : Int × Int) (exportNoBackground cancelPremultiply : Bool)
      (outputFilePath : CppString)
  | writeFrameToVideo (slot : Nat) (size : Int × Int) (exportNoBackground cancelPremultiply : Bool)
      (pts : Nat)
deriving DecidableEq

/-- What the recorder does to the outside, in order: joining the worker of a slot, reading
the frame back into the buffer of a slot, starting a worker on a slot, running a task on the
calling thread, opening (with its result) and closing the video session. -/
inductive Event where
  | join (slot : Nat)
  | readPixels (slot : Nat)
  | spawn (slot : Nat) (task : Task)
  | inline (task : Task)
  | initVideo (ok : Bool)
  | endVideo
deriving DecidableEq

/-- An `AVFrame`, of which only the presentation timestamp is followed. -/
structure AVFrame where
  pts : Nat
deriving DecidableEq

/-- The frame handed to `record`: its dimensions and the pixels `glReadPixels` returns. -/
structure Framebuffer where
  width : Int
  height : Int
  pixels : Buffer

/-- The outcome of each libav call of `initVideo` (`true`: the call succeeds); `noFile` is the
flag `AVFMT_NOFILE` of the container chosen for the path. -/
structure AVCalls where
  allocOutputContext : Bool
  noFile : Bool
  findEncoder : Bool
  allocContext : Bool
  open2 : Bool
  newStream : Bool
  parametersFromContext : Bool
  frameAlloc : Nat → Bool
  frameGetBuffer : Nat → Bool
  avioOpen : Bool
  writeHeader : Bool
  swsGetContext : Nat → Bool

/-- The members of `Recorder` that `initVideo` sets up and `endVideo` releases: `_frames`,
`_swsContexts`, `_formatCtx`, `_codec`, `_codecCtx` and `_stream`. A pointer is `true` when
it is not null; a scratch frame is `none` when its pointer is null. -/
structure VideoState where
  frames : List (Option AVFrame)
  swsContexts : List Bool
  formatCtx : Bool
  codec : Bool
  codecCtx : Bool
  stream : Bool
deriving DecidableEq

/-- Modelled from the spec: the class `Recorder` is declared in `Recorder.h`, which is not
among the sources; these are the members `Recorder.cpp` reads and writes, those of the video
session gathered in `video`. A thread is the task it runs (`none`: not joinable). The member
`trace` is not in the class: it collects the events of the calls made so far. -/
structure Recorder where
  formats : List CodecOpts
  savingBuffers : List Buffer
  savingThreads : List (Option Task)
  video : VideoState
  exportPath : CppString
  outFormat : Format
  exportFramerate : Int
  bitRate : Int
  postroll : ℚ
  exportNoBackground : Bool
  cancelPremultiply : Bool
  size : Int × Int
  currentFrame : Nat
  framesCount : Nat
  currentTime : F32
  sceneDuration : ℚ
  trace : List Event

/-! ## The recorder: operations -/

/-- The effect of `vector.resize(n, value)`. -/
def resize {α : Type} (v : List α) (n : Nat) (value : α) : List α :=
  v.take n ++ List.replicate (n - v.length) value

/-- The function `glm::clamp` on `int`. -/
def clampInt (x minVal maxVal : Int) : Int := min (max x minVal) maxVal

/-- The constructor `Recorder::Recorder()`, run on an object whose other members hold the
values of `members`; `numThreads` is `std::thread::hardware_concurrency()`. -/
def Recorder.construct (build : Build) (numThreads : Int) (members : Recorder) : Recorder :=
  { members with
    formats :=
      [{ name := "PNG".toList, ext := "png".toList, format := Format.PNG }] ++
      (if build.supportVideo then
        [{ name := "MPEG2".toList, ext := "mp4".toList, format := Format.MPEG2 },
         { name := "MPEG4".toList, ext := "mp4".toList, format := Format.MPEG4 },
         { name := "PRORES".toList, ext := "mov".toList, format := Format.PRORES }]
      else [])
    savingBuffers := resize members.savingBuffers (clampInt (numThreads - 1) 2 8).toNat []
    savingThreads := resize members.savingThreads (clampInt (numThreads - 1) 2 8).toNat none
    video :=
      { members.video with
        frames := resize members.video.frames (clampInt (numThreads - 1) 2 8).toNat none
        swsContexts :=
          resize members.video.swsContexts (clampInt (numThreads - 1) 2 8).toNat false } }

/-- The arithmetic of `int`: the result of an operation wrapped to 32 bits. -/
def wrapInt (x : Int) : Int := (x + 2 ^ 31) % 2 ^ 32 - 2 ^ 31

/-- The method `Recorder::setSize`; `%` on `int` truncates toward zero. -/
def Recorder.setSize (r : Recorder) (size : Int × Int) : Recorder :=
  { r with size := (wrapInt (size.1 + size.1.tmod 2), wrapInt (size.2 + size.2.tmod 2)) }

/-- The method `Recorder::isRecording`. -/
def Recorder.isRecording (r : Recorder) : Bool := decide (r.currentFrame < r.framesCount)

/-- The conversion of an `int` to a `size_t`. -/
def toSizeT (x : Int) : Nat := (x % 2 ^ 64).toNat

/-- The method `Recorder::setParameters`: the updated recorder and the returned flag. -/
def Recorder.setParameters (r : Recorder) (path : CppString) (format : Format)
    (framerate bitrate : Int) (postroll : ℚ) (skipBackground fixPremultiply : Bool) :
    Recorder × Bool :=
  if toSizeT format.toInt ≥ r.formats.length then (r, false)
  else
    let r1 : Recorder :=
      { r with
        exportPath := path
        outFormat := format
        exportFramerate := framerate
        bitRate := bitrate
        exportNoBackground := skipBackground
        cancelPremultiply := fixPremultiply
        postroll := postroll }
    if r1.outFormat ≠ Format.PNG then
      let ext := match r1.formats.get? r1.outFormat.toInt.toNat with
        | some infos => infos.ext
        | none => []
      let fullExt := '.' :: ext
      if r1.exportPath.length < 5 ∨ r1.exportPath.drop (r1.exportPath.length - 4) ≠ fullExt then
        ({ r1 with exportPath := r1.exportPath ++ fullExt }, true)
      else (r1, true)
    else (r1, true)

/-- The method `Recorder::prepare`, on finite `float` arguments, `_postroll` being finite too:
the frame count is the `int` obtained from the ceiling of the `float` expression
`(duration + _postroll + preroll) * _exportFramerate / speed`, stored in a `size_t`. Each
operation of the expression is rounded to binary32, as SSE arithmetic does
(`FLT_EVAL_METHOD` 0); the `int` `_exportFramerate` is converted to `float` for the
product. -/
def Recorder.prepare (r : Recorder) (preroll duration speed : ℚ) : Recorder :=
  { r with
    currentTime := F32.finite (-preroll)
    framesCount :=
      toSizeT (F32.toInt (F32.ceil (F32.div
        (F32.mul (F32.add (F32.add (F32.finite duration) (F32.finite r.postroll))
          (F32.finite preroll)) (F32.ofInt r.exportFramerate)) (F32.finite speed))))
    currentFrame :=
      toSizeT (F32.toInt (F32.ceil (F32.div
        (F32.mul (F32.add (F32.add (F32.finite duration) (F32.finite r.postroll))
          (F32.finite preroll)) (F32.ofInt r.exportFramerate)) (F32.finite speed))))
    sceneDuration := duration
    savingBuffers :=
      r.savingBuffers.map (fun b => resize b (toSizeT (r.size.1 * r.size.2 * 4)) 0) }

/-- The allocation loop of `initVideo` over the scratch frames, from index `i` on: the frames
after the loop and whether it ran to its end. -/
def allocFrames (av : AVCalls) : Nat → Nat → List (Option AVFrame) → List (Option AVFrame) × Bool
  | 0, _, frames => (frames, true)
  | n + 1, i, frames =>
    if !av.frameAlloc i then (frames, false)
    else if !av.frameGetBuffer i then (frames, false)
    else allocFrames av n (i + 1) (frames.set i (some { pts := 0 }))

/-- The loop of `initVideo` creating the scaling contexts, from index `i` on. -/
def allocContexts (av : AVCalls) : Nat → Nat → List Bool → List Bool × Bool
  | 0, _, ctxs => (ctxs, true)
  | n + 1, i, ctxs =>
    if !av.swsGetContext i then (ctxs.set i false, false)
    else allocContexts av n (i + 1) (ctxs.set i true)

/-- The method `Recorder::initVideo`, as far as the handles go: those obtained up to the
first failing call, and the returned flag. -/
def VideoState.init (build : Build) (av : AVCalls) (v : VideoState) (format : Format) :
    VideoState × Bool :=
  if !build.supportVideo then (v, false)
  else if format = Format.PNG then (v, false)
  else if !av.allocOutputContext then ({ v with formatCtx := false }, false)
  else
    let v1 := { v with formatCtx := true }
    if av.noFile then (v1, false)
    else if !av.findEncoder then ({ v1 with codec := false }, false)
    else
      let v2 := { v1 with codec := true }
      if !av.allocContext then ({ v2 with codecCtx := false }, false)
      else
        let v3 := { v2 with codecCtx := true }
        if !av.open2 then (v3, false)
        else if !av.newStream then ({ v3 with stream := false }, false)
        else
          let v4 := { v3 with stream := true }
          if !av.parametersFromContext then (v4, false)
          else
            let v5 := { v4 with frames := (allocFrames av v4.frames.length 0 v4.frames).1 }
            if !(allocFrames av v4.frames.length 0 v4.frames).2 then (v5, false)
            else if !av.avioOpen then (v5, false)
            else if !av.writeHeader then (v5, false)
            else
              let v6 :=
                { v5 with
                  swsContexts :=
                    (allocContexts av v5.swsContexts.length 0 v5.swsContexts).1 }
              if !(allocContexts av v5.swsContexts.length 0 v5.swsContexts).2 then (v6, false)
              else (v6, true)

/-- The method `Recorder::initVideo`, its result recorded in the trace. -/
def Recorder.initVideo (build : Build) (av : AVCalls) (r : Recorder) (format : Format) :
    Recorder × Bool :=
  ({ r with
      video := (r.video.init build av format).1
      trace := r.trace ++ [Event.initVideo (r.video.init build av format).2] },
    (r.video.init build av format).2)

/-- The method `Recorder::endVideo`. -/
def Recorder.endVideo (build : Build) (r : Recorder) : Recorder :=
  if build.supportVideo then
    { r with
      video :=
        { frames := r.video.frames.map (fun _ => none)
          swsContexts := r.video.swsContexts.map (fun _ => false)
          formatCtx := false
          codec := false
          codecCtx := false
          stream := false }
      trace := r.trace ++ [Event.endVideo] }
  else { r with trace := r.trace ++ [Event.endVideo] }

/-- The method `Recorder::start`. Assigning `std::thread()` to a thread that is still
joinable ends the program (`std::terminate`): the result is then `none`. The value returned
by `initVideo` is not used. -/
def Recorder.start (build : Build) (av : AVCalls) (r : Recorder) : Option Recorder :=
  let r1 := { r with currentFrame := 0 }
  let r2 := if r1.outFormat ≠ Format.PNG then (r1.initVideo build av r1.outFormat).1 else r1
  if r2.savingThreads.all (fun t => t.isNone) then
    some { r2 with savingThreads := r2.savingThreads.map (fun _ => none) }
  else none

/-- The effect of `if (thread.joinable()) thread.join()` on the thread of `slot`. When the
worker is joined its task is over: the buffer of the slot holds the converted image (a video
task does nothing in a build without video support). -/
def Recorder.joinSlot (build : Build) (r : Recorder) (slot : Nat) : Recorder :=
  match r.savingThreads.getD slot none with
  | none => r
  | some (Task.writePNGToPath _ size exportNoBackground cancelPremultiply _) =>
    { r with
      savingThreads := r.savingThreads.set slot none
      savingBuffers := r.savingBuffers.set slot
        (convertImageInPlace (r.savingBuffers.getD slot []) (size.1.toNat, size.2.toNat)
          exportNoBackground cancelPremultiply)
      trace := r.trace ++ [Event.join slot] }
  | some (Task.writeFrameToVideo _ size exportNoBackground cancelPremultiply _) =>
    { r with
      savingThreads := r.savingThreads.set slot none
      savingBuffers :=
        if build.supportVideo then
          r.savingBuffers.set slot
            (convertImageInPlace (r.savingBuffers.getD slot []) (size.1.toNat, size.2.toNat)
              exportNoBackground cancelPremultiply)
        else r.savingBuffers
      trace := r.trace ++ [Event.join slot] }

/-- The decimal digits of `n`, least significant first (`fuel` bounds their number). -/
def decimalRev : Nat → Nat → List Char
  | 0, _ => []
  | fuel + 1, n => Nat.digitChar (n % 10) :: (if n / 10 = 0 then [] else decimalRev fuel (n / 10))

/-- The function `std::to_string` on an unsigned integer. -/
def to_string (n : Nat) : CppString := (decimalRev (n + 1) n).reverse

/-- Repeated division by ten: `log10Aux fuel n` is `⌊log₁₀ n⌋` as soon as `n ≤ fuel`. -/
def log10Aux : Nat → Nat → Nat
  | 0, _ => 0
  | fuel + 1, n => if 10 ≤ n then log10Aux fuel (n / 10) + 1 else 0

/-- The decimal exponent `⌊log₁₀ n⌋` of a natural number (`0` for `n = 0`). -/
def nlog10 (n : Nat) : Nat := log10Aux n n

/-- The value of `std::ceil(std::log10(x))` for a `float` `x` that is `0` or at least `1`, as
`float(_framesCount)` is, with `std::log10` returning the `float` nearest to the logarithm.
Let `k = ⌊log₁₀ x⌋`, so that `10 ^ k ≤ x < 10 ^ (k + 1)`. The logarithm lies in `[k, k + 1)`
and its nearest `float` in `[k, k + 1]`, so the ceiling is `k` when that `float` is `k` and
`k + 1` otherwise. It is `k` when `x = 10 ^ k`, and when `k ≥ 1` and the logarithm is below
the midpoint `k + 2 ^ (⌊log₂ k⌋ - 24)` of `k` and the next `float`, that is when
`x ^ (2 ^ m) < 10 ^ (k * 2 ^ m + 1)` for `m = 24 - ⌊log₂ k⌋` (the logarithm of a rational
that is not a power of ten is irrational, so it is never at the midpoint). For `k = 0` and
`x > 1` the logarithm is at least `log₁₀ (1 + 2 ^ (-23))`, far above the least positive
`float`, and the ceiling is `1`. For `x = 0` the logarithm is `-∞` and the loop that compares
a size with it does not run, as for the width `0`. -/
def ceilLog10f (x : ℚ) : Nat :=
  if x ≤ 10 ^ nlog10 ⌊x⌋.toNat then nlog10 ⌊x⌋.toNat
  else if nlog10 ⌊x⌋.toNat = 0 then 1
  else if x ^ 2 ^ (24 - nlog2 (nlog10 ⌊x⌋.toNat))
      < 10 ^ (nlog10 ⌊x⌋.toNat * 2 ^ (24 - nlog2 (nlog10 ⌊x⌋.toNat)) + 1) then
    nlog10 ⌊x⌋.toNat
  else nlog10 ⌊x⌋.toNat + 1

/-- The loop `while (intString.size() < width) intString = "0" + intString`, which runs
`width - intString.size()` times. -/
def padZeros : Nat → CppString → CppString
  | 0, intString => intString
  | n + 1, intString => padZeros n ('0' :: intString)

/-- The string `intString` that `record` builds for frame `currentFrame` of `framesCount`,
padded to `std::ceil(std::log10(float(_framesCount)))` characters. -/
def frameIndexString (framesCount currentFrame : Nat) : CppString :=
  padZeros (ceilLog10f (f32ofInt framesCount) - (to_string currentFrame).length)
    (to_string currentFrame)

/-- The path `outputFilePath` that `record` builds for a frame of a PNG export. -/
def outputFilePath (exportPath : CppString) (framesCount currentFrame : Nat) : CppString :=
  exportPath ++ "/output_".toList ++ frameIndexString framesCount currentFrame ++ ".png".toList

/-- The method `Recorder::record`. The result is `none` when the call dereferences a null
scratch frame. Without `FFMPEG_USE_THREADS` a video task runs on the calling thread; it is
then over when `record` goes on, and the buffer holds the converted image. -/
def Recorder.record (build : Build) (r : Recorder) (frame : Framebuffer) : Option Recorder :=
  if frame.width ≠ r.size.1 ∨ frame.height ≠ r.size.2 then
    some { r with currentFrame := r.framesCount }
  else
    let buffIndex := r.currentFrame % r.savingThreads.length
    let r1 := r.joinSlot build buffIndex
    let r2 : Recorder :=
      { r1 with
        savingBuffers := r1.savingBuffers.set buffIndex frame.pixels
        trace := r1.trace ++ [Event.readPixels buffIndex] }
    let dispatched : Option Recorder :=
      if r2.outFormat = Format.PNG then
        some { r2 with
          savingThreads := r2.savingThreads.set buffIndex
            (some (Task.writePNGToPath buffIndex r2.size r2.exportNoBackground
              r2.cancelPremultiply (outputFilePath r2.exportPath r2.framesCount r2.currentFrame)))
          trace := r2.trace ++ [Event.spawn buffIndex
            (Task.writePNGToPath buffIndex r2.size r2.exportNoBackground
              r2.cancelPremultiply (outputFilePath r2.exportPath r2.framesCount r2.currentFrame))] }
      else
        match r2.video.frames.getD buffIndex none with
        | none => none
        | some _ =>
          let r3 : Recorder :=
            { r2 with
              video :=
                { r2.video with
                  frames := r2.video.frames.set buffIndex (some { pts := r2.currentFrame }) } }
          if build.ffmpegUseThreads then
            some { r3 with
              savingThreads := r3.savingThreads.set buffIndex
                (some (Task.writeFrameToVideo buffIndex r3.size r3.exportNoBackground
                  r3.cancelPremultiply r3.currentFrame))
              trace := r3.trace ++ [Event.spawn buffIndex
                (Task.writeFrameToVideo buffIndex r3.size r3.exportNoBackground
                  r3.cancelPremultiply r3.currentFrame)] }
          else
            some { r3 with
              savingBuffers :=
                if build.supportVideo then
                  r3.savingBuffers.set buffIndex
                    (convertImageInPlace (r3.savingBuffers.getD buffIndex [])
                      (r3.size.1.toNat, r3.size.2.toNat) r3.exportNoBackground
                      r3.cancelPremultiply)
                else r3.savingBuffers
              trace := r3.trace ++ [Event.inline
                (Task.writeFrameToVideo buffIndex r3.size r3.exportNoBackground
                  r3.cancelPremultiply r3.currentFrame)] }
    match dispatched with
    | none => none
    | some r4 =>
      let r5 :=
        if r4.currentFrame + 1 = r4.framesCount then
          let joined :=
            (List.range r4.savingThreads.length).foldl (Recorder.joinSlot build) r4
          if joined.outFormat ≠ Format.PNG then joined.endVideo build else joined
        else r4
      some { r5 with
        currentTime :=
          F32.add r5.currentTime (F32.div (F32.finite 1) (F32.ofInt r5.exportFramerate))
        currentFrame := r5.currentFrame + 1 }

/-! ## The recorder: runs and what a trace tells -/

/-- The calls of `record` on the frames of a list, one after the other; `none` as soon as a
call fails. -/
def Recorder.recordAll (build : Build) (r : Recorder) : List Framebuffer → Option Recorder
  | [] => some r
  | frame :: frames => (r.record build frame).bind (fun r' => r'.recordAll build frames)

/-- The part of `record` that reads the frame back into the buffer of `slot`. -/
def Recorder.readback (r : Recorder) (slot : Nat) (frame : Framebuffer) : Recorder :=
  { r with
    savingBuffers := r.savingBuffers.set slot frame.pixels
    trace := r.trace ++ [Event.readPixels slot] }

/-- The part of `record` that hands the buffer of `slot` over: to a worker writing a PNG
file, or to `writeFrameToVideo` after the scratch frame of the slot has been stamped with the
frame index (`none` when the scratch frame is null). -/
def Recorder.dispatch (build : Build) (r : Recorder) (slot : Nat) : Option Recorder :=
  if r.outFormat = Format.PNG then
    some { r with
      savingThreads := r.savingThreads.set slot
        (some (Task.writePNGToPath slot r.size r.exportNoBackground
          r.cancelPremultiply (outputFilePath r.exportPath r.framesCount r.currentFrame)))
      trace := r.trace ++ [Event.spawn slot
        (Task.writePNGToPath slot r.size r.exportNoBackground
          r.cancelPremultiply (outputFilePath r.exportPath r.framesCount r.currentFrame))] }
  else
    match r.video.frames.getD slot none with
    | none => none
    | some _ =>
      if build.ffmpegUseThreads then
        some { r with
          video :=
            { r.video with frames := r.video.frames.set slot (some { pts := r.currentFrame }) }
          savingThreads := r.savingThreads.set slot
            (some (Task.writeFrameToVideo slot r.size r.exportNoBackground
              r.cancelPremultiply r.currentFrame))
          trace := r.trace ++ [Event.spawn slot
            (Task.writeFrameToVideo slot r.size r.exportNoBackground
              r.cancelPremultiply r.currentFrame)] }
      else
        some { r with
          video :=
            { r.video with frames := r.video.frames.set slot (some { pts := r.currentFrame }) }
          savingBuffers :=
            if build.supportVideo then
              r.savingBuffers.set slot
                (convertImageInPlace (r.savingBuffers.getD slot [])
                  (r.size.1.toNat, r.size.2.toNat) r.exportNoBackground r.cancelPremultiply)
            else r.savingBuffers
          trace := r.trace ++ [Event.inline
            (Task.writeFrameToVideo slot r.size r.exportNoBackground
              r.cancelPremultiply r.currentFrame)] }

/-- The end of `record`: on the last frame every worker is joined and the video session is
closed; then the playback time and the frame counter advance. -/
def Recorder.finish (build : Build) (r : Recorder) : Recorder :=
  { (if r.currentFrame + 1 = r.framesCount then
      if ((List.range r.savingThreads.length).foldl (Recorder.joinSlot build) r).outFormat
          ≠ Format.PNG then
        ((List.range r.savingThreads.length).foldl (Recorder.joinSlot build) r).endVideo build
      else (List.range r.savingThreads.length).foldl (Recorder.joinSlot build) r
    else r) with
    currentTime :=
      F32.add
        (if r.currentFrame + 1 = r.framesCount then
          if ((List.range r.savingThreads.length).foldl (Recorder.joinSlot build) r).outFormat
              ≠ Format.PNG then
            ((List.range r.savingThreads.length).foldl (Recorder.joinSlot build) r).endVideo build
          else (List.range r.savingThreads.length).foldl (Recorder.joinSlot build) r
        else r).currentTime
        (F32.div (F32.finite 1) (F32.ofInt (if r.currentFrame + 1 = r.framesCount then
          if ((List.range r.savingThreads.length).foldl (Recorder.joinSlot build) r).outFormat
              ≠ Format.PNG then
            ((List.range r.savingThreads.length).foldl (Recorder.joinSlot build) r).endVideo build
          else (List.range r.savingThreads.length).foldl (Recorder.joinSlot build) r
        else r).exportFramerate))
    currentFrame :=
      (if r.currentFrame + 1 = r.framesCount then
        if ((List.range r.savingThreads.length).foldl (Recorder.joinSlot build) r).outFormat
            ≠ Format.PNG then
          ((List.range r.savingThreads.length).foldl (Recorder.joinSlot build) r).endVideo build
        else (List.range r.savingThreads.length).foldl (Recorder.joinSlot build) r
      else r).currentFrame + 1 }

/-- The slot and the timestamp of the scratch frame that an event hands to
`writeFrameToVideo`, on a worker or on the calling thread. -/
def Event.submitted : Event → Option (Nat × Nat)
  | Event.spawn _ (Task.writeFrameToVideo slot _ _ _ pts) => some (slot, pts)
  | Event.inline (Task.writeFrameToVideo slot _ _ _ pts) => some (slot, pts)
  | _ => none

/-- Whether an event starts a worker. -/
def Event.isSpawn : Event → Bool
  | Event.spawn _ _ => true
  | _ => false

/-- The orders in which the encoder can receive the frames of a trace, in a build with video
support. `Submissions events running order`: while `events` happen, the workers `running`
(each the slot and the stamp of its frame) having been started and not yet having called
`avcodec_send_frame`, the encoder receives the frames `order`, one after the other. A task
run on the calling thread submits its frame when its event happens. A worker submits its
frame at any moment after its start, whatever the other workers do (`writeFrameToVideo`
holds no lock around `avcodec_send_frame`), and before `join` returns on its slot. -/
inductive Submissions : List Event → List (Nat × Nat) → List (Nat × Nat) → Prop where
  | done : Submissions [] [] []
  | worker (events : List Event) (before after order : List (Nat × Nat)) (t : Nat × Nat) :
      Submissions events (before ++ after) order →
      Submissions events (before ++ t :: after) (t :: order)
  | join (slot : Nat) (events : List Event) (running order : List (Nat × Nat)) :
      (∀ t ∈ running, t.1 ≠ slot) → Submissions events running order →
      Submissions (Event.join slot :: events) running order
  | spawn (slot : Nat) (task : Task) (events : List Event) (running order : List (Nat × Nat)) :
      Submissions events (running ++ (Event.spawn slot task).submitted.toList) order →
      Submissions (Event.spawn slot task :: events) running order
  | inline (task : Task) (events : List Event) (running order : List (Nat × Nat)) :
      Submissions events running order →
      Submissions (Event.inline task :: events) running
        ((Event.inline task).submitted.toList ++ order)
  | readPixels (slot : Nat) (events : List Event) (running order : List (Nat × Nat)) :
      Submissions events running order →
      Submissions (Event.readPixels slot :: events) running order
  | initVideo (ok : Bool) (events : List Event) (running order : List (Nat × Nat)) :
      Submissions events running order →
      Submissions (Event.initVideo ok :: events) running order
  | endVideo (events : List Event) (running order : List (Nat × Nat)) :
      Submissions events running order →
      Submissions (Event.endVideo :: events) running order

/-- One step of the check of a trace for slot reuse. The state is the list of the slots
whose worker has been started and not joined since, and whether the check has held so far:
a readback into a slot and the start of a worker on a slot need the slot not to be in the
list, and the list never holds more than `poolSize` slots. A worker is over once it has been
joined (`std::thread::join` returns when the thread has finished). -/
def slotStep (poolSize : Nat) (state : List Nat × Bool) : Event → List Nat × Bool
  | Event.join slot => (state.1.filter (fun s => s ≠ slot), state.2)
  | Event.readPixels slot => (state.1, state.2 && !state.1.contains slot)
  | Event.spawn slot _ =>
    (slot :: state.1,
      state.2 && !state.1.contains slot && decide ((slot :: state.1).length ≤ poolSize))
  | _ => state

/-- The check of a trace for slot reuse, from a state in which no worker runs. -/
def reuseSafe (poolSize : Nat) (events : List Event) : Bool :=
  (events.foldl (slotStep poolSize) ([], true)).2

/-- The link between the checked part of a trace and the workers: the check has held, and
the slots listed as busy, each once, are those whose thread is joinable. -/
def SlotInv (r : Recorder) (state : List Nat × Bool) : Prop :=
  state.2 = true ∧ state.1.Nodup ∧
    ∀ j, j ∈ state.1 ↔ (r.savingThreads.getD j none).isSome = true

/-- The recorder `q` comes from `r` by steps that add `events` to the trace, keep the number
of threads and keep the link between trace and workers. -/
def Extends (poolSize : Nat) (r q : Recorder) (events : List Event) : Prop :=
  q.trace = r.trace ++ events ∧ q.savingThreads.length = r.savingThreads.length ∧
    ∀ state, SlotInv r state → SlotInv q (events.foldl (slotStep poolSize) state)

/-! ## Reading decimal strings -/

/-- A recorder whose members are all empty or zero, before its constructor has run. -/
def Recorder.blank : Recorder :=
  { formats := []
    savingBuffers := []
    savingThreads := []
    video :=
      { frames := []
        swsContexts := []
        formatCtx := false
        codec := false
        codecCtx := false
        stream := false }
    exportPath := []
    outFormat := Format.PNG
    exportFramerate := 60
    bitRate := 40
    postroll := 0
    exportNoBackground := false
    cancelPremultiply := false
    size := (0, 0)
    currentFrame := 0
    framesCount := 0
    currentTime := F32.finite 0
    sceneDuration := 0
    trace := [] }

/-- A build with video support, video frames handled on the calling thread. -/
def Build.video : Build := { supportVideo := true, ffmpegUseThreads := false }

/-- A build with video support, video frames handled by the workers. -/
def Build.videoThreads : Build := { supportVideo := true, ffmpegUseThreads := true }

/-- A build without video support. -/
def Build.stills : Build := { supportVideo := false, ffmpegUseThreads := false }

/-- The libav calls all succeed, except that no encoder is found when `encoder` is `false`. -/
def AVCalls.sample (encoder : Bool) : AVCalls :=
  { allocOutputContext := true
    noFile := false
    findEncoder := encoder
    allocContext := true
    open2 := true
    newStream := true
    parametersFromContext := true
    frameAlloc := fun _ => true
    frameGetBuffer := fun _ => true
    avioOpen := true
    writeHeader := true
    swsGetContext := fun _ => true }

/-- A frame 2 pixels high of the given width, all bytes zero. -/
def Framebuffer.sample (width : Nat) : Framebuffer :=
  { width := width, height := 2, pixels := List.replicate (width * 2 * 4) 0 }

/-- A recorder with a pool of 3 slots, prepared for 100 frames of 2 x 2 pixels in the given
format. -/
def Recorder.sample (format : Format) : Recorder :=
  { Recorder.construct Build.video 4 Recorder.blank with
    outFormat := format, framesCount := 100, currentFrame := 100, size := (2, 2) }

/-! ## Buffers: element-wise descriptions of the loops -/

theorem length_swap (buffer : Buffer) (i j : Nat) : (swap buffer i j).length = buffer.length := by
  simp [swap]

theorem getD_swap (buffer : Buffer) (i j k : Nat) (hi : i < buffer.length)
    (hj : j < buffer.length) :
    (swap buffer i j).getD k 0
      = if k = j then buffer.getD i 0 else if k = i then buffer.getD j 0 else buffer.getD k 0 := by
  simp only [swap, List.getD_eq_getElem?_getD, List.getElem?_set, List.length_set]
  by_cases h1 : j = k
  · subst h1; simp [hj]
  · have h1' : ¬ k = j := fun h => h1 h.symm
    by_cases h2 : i = k
    · subst h2; simp [h1, h1', hi]
    · have h2' : ¬ k = i := fun h => h2 h.symm
      simp [h1, h1', h2, h2']

/-- Exchanging two disjoint ranges of `n` elements, element by element. -/
theorem swapLoop_spec (first1 first2 : Nat) (n : Nat) (buffer : Buffer)
    (h12 : first1 + n ≤ first2) (hlen : first2 + n ≤ buffer.length) :
    ((List.range n).foldl (fun b k => swap b (first1 + k) (first2 + k)) buffer).length
        = buffer.length ∧
    ∀ k, ((List.range n).foldl (fun b k => swap b (first1 + k) (first2 + k)) buffer).getD k 0
      = if first1 ≤ k ∧ k < first1 + n then buffer.getD (k - first1 + first2) 0
        else if first2 ≤ k ∧ k < first2 + n then buffer.getD (k - first2 + first1) 0
        else buffer.getD k 0 := by
  induction n with
  | zero =>
    refine ⟨rfl, fun k => ?_⟩
    simp only [List.range_zero, List.foldl_nil]
    split_ifs <;> first | rfl | omega
  | succ n ih =>
    obtain ⟨ihl, ihg⟩ := ih (by omega) (by omega)
    rw [List.range_succ, List.foldl_append]
    simp only [List.foldl_cons, List.foldl_nil]
    refine ⟨by rw [length_swap, ihl], fun k => ?_⟩
    rw [getD_swap _ _ _ _ (by rw [ihl]; omega) (by rw [ihl]; omega)]
    rw [ihg (first1 + n), ihg (first2 + n), ihg k]
    split_ifs <;> first | rfl | omega | (congr 1; omega)

theorem swap_ranges_spec (buffer : Buffer) (first1 last1 first2 : Nat) (h1 : first1 ≤ last1)
    (h12 : last1 ≤ first2) (hlen : first2 + (last1 - first1) ≤ buffer.length) :
    (swap_ranges buffer first1 last1 first2).length = buffer.length ∧
    ∀ k, (swap_ranges buffer first1 last1 first2).getD k 0
      = if first1 ≤ k ∧ k < last1 then buffer.getD (k - first1 + first2) 0
        else if first2 ≤ k ∧ k < first2 + (last1 - first1) then
          buffer.getD (k - first2 + first1) 0
        else buffer.getD k 0 := by
  obtain ⟨hl, hg⟩ := swapLoop_spec first1 first2 (last1 - first1) buffer (by omega) hlen
  refine ⟨hl, fun k => ?_⟩
  rw [swap_ranges, hg k]
  have c1 : (first1 ≤ k ∧ k < first1 + (last1 - first1)) ↔ (first1 ≤ k ∧ k < last1) := by omega
  simp only [c1]

theorem succ_mul_le_mul {a b : Nat} (W : Nat) (h : a < b) : a * W + W ≤ b * W := by
  have := Nat.mul_le_mul_right W (Nat.succ_le_of_lt h)
  rwa [Nat.succ_mul] at this

/-- After the first `m` iterations of the row flip loop (with row stride `W`) the rows
`0 .. m-1` and `h-m .. h-1` have been exchanged and the others are untouched. -/
theorem flipLoop_spec (W h : Nat) (buffer : Buffer) (hlen : buffer.length = h * W) (m : Nat)
    (hm : m ≤ h / 2) :
    ((List.range m).foldl
        (fun b y => swap_ranges b (y * W) ((y + 1) * W) ((h - y - 1) * W)) buffer).length
      = buffer.length ∧
    ∀ r c, r < h → c < W →
      ((List.range m).foldl
        (fun b y => swap_ranges b (y * W) ((y + 1) * W) ((h - y - 1) * W)) buffer).getD
          (r * W + c) 0
      = if r < m ∨ h - m ≤ r then buffer.getD ((h - 1 - r) * W + c) 0
        else buffer.getD (r * W + c) 0 := by
  induction m with
  | zero =>
    refine ⟨rfl, fun r c hr hc => ?_⟩
    simp only [List.range_zero, List.foldl_nil]
    split_ifs <;> first | rfl | omega
  | succ m ih =>
    obtain ⟨ihl, ihg⟩ := ih (by omega)
    rw [List.range_succ, List.foldl_append]
    simp only [List.foldl_cons, List.foldl_nil]
    have e1 : (m + 1) * W = m * W + W := Nat.succ_mul m W
    have e2 : m * W + W ≤ (h - m - 1) * W := succ_mul_le_mul W (by omega)
    have e3 : (h - m - 1) * W + W ≤ h * W := succ_mul_le_mul W (by omega)
    obtain ⟨sl, sg⟩ := swap_ranges_spec
      ((List.range m).foldl
        (fun b y => swap_ranges b (y * W) ((y + 1) * W) ((h - y - 1) * W)) buffer)
      (m * W) ((m + 1) * W) ((h - m - 1) * W) (by omega) (by omega) (by rw [ihl, hlen]; omega)
    refine ⟨by rw [sl, ihl], fun r c hr hc => ?_⟩
    rw [sg (r * W + c)]
    have f1 : r < m → r * W + W ≤ m * W := succ_mul_le_mul W
    have f2 : m < r → m * W + W ≤ r * W := succ_mul_le_mul W
    have f3 : r < h - m - 1 → r * W + W ≤ (h - m - 1) * W := succ_mul_le_mul W
    have f4 : h - m - 1 < r → (h - m - 1) * W + W ≤ r * W := succ_mul_le_mul W
    by_cases hrm : r = m
    · subst hrm
      have e : r * W + c - r * W + (h - r - 1) * W = (h - r - 1) * W + c := by omega
      have e' : h - 1 - r = h - r - 1 := by omega
      rw [if_pos (by omega), e, ihg (h - r - 1) c (by omega) hc, if_neg (by omega),
        if_pos (by omega), e']
    · by_cases hrm' : r = h - m - 1
      · subst hrm'
        have e : (h - m - 1) * W + c - (h - m - 1) * W + m * W = m * W + c := by omega
        have e' : h - 1 - (h - m - 1) = m := by omega
        rw [if_neg (by omega), if_pos (by omega), e, ihg m c (by omega) hc, if_neg (by omega),
          if_pos (by omega), e']
      · have c1 : ¬ (m * W ≤ r * W + c ∧ r * W + c < (m + 1) * W) := by
          rcases Nat.lt_or_gt_of_ne hrm with h1 | h1
          · have := f1 h1; omega
          · have := f2 h1; omega
        have c2 : ¬ ((h - m - 1) * W ≤ r * W + c ∧
            r * W + c < (h - m - 1) * W + ((m + 1) * W - m * W)) := by
          rcases Nat.lt_or_gt_of_ne hrm' with h1 | h1
          · have := f3 h1; omega
          · have := f4 h1; omega
        rw [if_neg c1, if_neg c2, ihg r c hr hc]
        split_ifs <;> first | rfl | omega

/-- Element-wise description of the row flip: row `r` of the result is row `height - 1 - r`
of the input. -/
theorem flipRows_spec (buffer : Buffer) (width height : Nat)
    (hlen : buffer.length = width * height * 4) :
    (flipRows buffer width height).length = buffer.length ∧
    ∀ r c, r < height → c < width * 4 →
      (flipRows buffer width height).getD (r * (width * 4) + c) 0
        = buffer.getD ((height - 1 - r) * (width * 4) + c) 0 := by
  have hlen' : buffer.length = height * (width * 4) := by rw [hlen]; ring
  obtain ⟨hl, hg⟩ := flipLoop_spec (width * 4) height buffer hlen' (height / 2) le_rfl
  simp only [flipRows, Nat.mul_assoc]
  refine ⟨hl, fun r c hr hc => ?_⟩
  rw [hg r c hr hc]
  split_ifs with h
  · rfl
  · have : height - 1 - r = r := by omega
    rw [this]

theorem ext_getD (a b : Buffer) (hl : a.length = b.length)
    (h : ∀ k, k < a.length → a.getD k 0 = b.getD k 0) : a = b := by
  apply List.ext_getElem hl
  intro n h1 h2
  have := h n h1
  simpa [List.getD_eq_getElem?_getD, List.getElem?_eq_getElem, h1, h2] using this

/-- Every offset into a `width * height * 4` byte image lies in a row `r < height` at a
column offset `c < width * 4`. -/
theorem offset_decompose (width height k : Nat) (hk : k < width * height * 4) :
    ∃ r c, r < height ∧ c < width * 4 ∧ r * (width * 4) + c = k := by
  refine ⟨k / (width * 4), k % (width * 4), ?_⟩
  have hW : 0 < width * 4 := by
    rcases Nat.eq_zero_or_pos width with h0 | h0
    · subst h0; simp at hk
    · omega
  refine ⟨?_, Nat.mod_lt _ hW, Nat.div_add_mod' k (width * 4)⟩
  rw [Nat.div_lt_iff_lt_mul hW]
  calc k < width * height * 4 := hk
    _ = height * (width * 4) := by ring

theorem flipRows_flipRows (buffer : Buffer) (width height : Nat)
    (hlen : buffer.length = width * height * 4) :
    flipRows (flipRows buffer width height) width height = buffer := by
  obtain ⟨l1, g1⟩ := flipRows_spec buffer width height hlen
  obtain ⟨l2, g2⟩ := flipRows_spec (flipRows buffer width height) width height (by rw [l1, hlen])
  apply ext_getD _ _ (by rw [l2, l1])
  intro k hk
  rw [l2, l1, hlen] at hk
  obtain ⟨r, c, hr, hc, e⟩ := offset_decompose width height k hk
  rw [← e, g2 _ _ hr hc, g1 _ _ (by omega) hc]
  have : height - 1 - (height - 1 - r) = r := by omega
  rw [this]

/-- A loop body acts pixel-wise through `g` when, run at the offset `base` of a whole pixel, it
keeps the length, leaves the other pixels alone and replaces byte `j` of the pixel by
`g r g b a j`, computed from the four bytes the pixel held before. -/
theorem forEachPixel_spec (body : Nat → Buffer → Buffer)
    (g : GLubyte → GLubyte → GLubyte → GLubyte → Nat → GLubyte)
    (hL : ∀ base b, base + 4 ≤ b.length → (body base b).length = b.length)
    (hF : ∀ base b k, base + 4 ≤ b.length → (k < base ∨ base + 4 ≤ k) →
      (body base b).getD k 0 = b.getD k 0)
    (hP : ∀ base b j, base + 4 ≤ b.length → j < 4 →
      (body base b).getD (base + j) 0
        = g (b.getD base 0) (b.getD (base + 1) 0) (b.getD (base + 2) 0) (b.getD (base + 3) 0) j)
    (width height : Nat) (buffer : Buffer) (hlen : buffer.length = width * height * 4) :
    (forEachPixel width height body buffer).length = buffer.length ∧
    ∀ p j, p < width * height → j < 4 →
      (forEachPixel width height body buffer).getD (p * 4 + j) 0
        = g (buffer.getD (p * 4) 0) (buffer.getD (p * 4 + 1) 0) (buffer.getD (p * 4 + 2) 0)
            (buffer.getD (p * 4 + 3) 0) j := by
  -- the state after the first `n` pixels
  let Inv : Nat → Buffer → Prop := fun n b =>
    b.length = buffer.length ∧ ∀ p j, p < width * height → j < 4 →
      b.getD (p * 4 + j) 0
        = if p < n then
            g (buffer.getD (p * 4) 0) (buffer.getD (p * 4 + 1) 0) (buffer.getD (p * 4 + 2) 0)
              (buffer.getD (p * 4 + 3) 0) j
          else buffer.getD (p * 4 + j) 0
  have step : ∀ n b, n < width * height → Inv n b → Inv (n + 1) (body (n * 4) b) := by
    intro n b hn ⟨bl, bg⟩
    have hb : n * 4 + 4 ≤ b.length := by rw [bl, hlen]; omega
    refine ⟨by rw [hL _ _ hb, bl], fun p j hp hj => ?_⟩
    by_cases hpn : p = n
    · subst hpn
      rw [hP _ _ _ hb hj, if_pos (by omega)]
      have h0 := bg p 0 hp (by omega)
      have h1 := bg p 1 hp (by omega)
      have h2 := bg p 2 hp (by omega)
      have h3 := bg p 3 hp (by omega)
      simp only [lt_irrefl, if_false, Nat.add_zero] at h0 h1 h2 h3
      rw [h0, h1, h2, h3]
    · rw [hF _ _ _ hb (by omega), bg p j hp hj]
      split_ifs <;> first | rfl | omega
  have inner : ∀ y, y < height → ∀ x, x ≤ width → ∀ b, Inv (y * width) b →
      Inv (y * width + x)
        ((List.range x).foldl (fun b x => body ((y * width + x) * 4) b) b) := by
    intro y hy x
    induction x with
    | zero => intro _ b hb; simpa using hb
    | succ x ih =>
      intro hx b hb
      rw [List.range_succ, List.foldl_append]
      simp only [List.foldl_cons, List.foldl_nil]
      have hlt : y * width + x < width * height := by
        have := succ_mul_le_mul width hy
        have e : height * width = width * height := Nat.mul_comm _ _
        omega
      exact step _ _ hlt (ih (by omega) b hb)
  have outer : ∀ y, y ≤ height →
      Inv (y * width)
        ((List.range y).foldl
          (fun b y => (List.range width).foldl (fun b x => body ((y * width + x) * 4) b) b)
          buffer) := by
    intro y
    induction y with
    | zero =>
      intro _
      refine ⟨rfl, fun p j _ _ => ?_⟩
      simp
    | succ y ih =>
      intro hy
      rw [List.range_succ, List.foldl_append]
      simp only [List.foldl_cons, List.foldl_nil]
      have := inner y (by omega) width le_rfl _ (ih (by omega))
      rwa [Nat.succ_mul]
  obtain ⟨rl, rg⟩ := outer height le_rfl
  refine ⟨rl, fun p j hp hj => ?_⟩
  have := rg p j hp hj
  rw [if_pos (by rw [Nat.mul_comm]; exact hp)] at this
  exact this

theorem getD_set (b : Buffer) (i k : Nat) (v : GLubyte) :
    (b.set i v).getD k 0 = if i = k ∧ i < b.length then v else b.getD k 0 := by
  simp only [List.getD_eq_getElem?_getD, List.getElem?_set]
  by_cases h : i = k
  · subst h
    by_cases h2 : i < b.length
    · simp [h2]
    · simp [h2, List.getElem?_eq_none (Nat.le_of_not_lt h2)]
  · simp [h]

/-- Every offset into a `width * height * 4` byte image is byte `j` of a pixel `(x, y)`. -/
theorem pixel_decompose (width height k : Nat) (hk : k < width * height * 4) :
    ∃ y x j, y < height ∧ x < width ∧ j < 4 ∧ (y * width + x) * 4 + j = k := by
  obtain ⟨r, c, hr, hc, e⟩ := offset_decompose width height k hk
  refine ⟨r, c / 4, c % 4, hr, by omega, by omega, ?_⟩
  have : (r * width + c / 4) * 4 = r * (width * 4) + c / 4 * 4 := by ring
  omega

theorem pixel_lt (width height x y : Nat) (hx : x < width) (hy : y < height) :
    y * width + x < width * height := by
  have := succ_mul_le_mul width hy
  have e : height * width = width * height := Nat.mul_comm _ _
  omega

/-- Element-wise description of the alpha erasing pass. -/
theorem eraseAlpha_spec (width height : Nat) (buffer : Buffer)
    (hlen : buffer.length = width * height * 4) :
    (forEachPixel width height eraseAlphaAt buffer).length = buffer.length ∧
    ∀ p j, p < width * height → j < 4 →
      (forEachPixel width height eraseAlphaAt buffer).getD (p * 4 + j) 0
        = if j = 3 then 255 else buffer.getD (p * 4 + j) 0 := by
  obtain ⟨hl, hg⟩ := forEachPixel_spec eraseAlphaAt
    (fun r g b _ j => if j = 3 then 255 else if j = 0 then r else if j = 1 then g else b)
    (fun base b _ => by simp [eraseAlphaAt])
    (fun base b k hb hk => by
      rw [eraseAlphaAt, getD_set, if_neg (by omega)])
    (fun base b j hb hj => by
      rw [eraseAlphaAt, getD_set]
      have : j = 0 ∨ j = 1 ∨ j = 2 ∨ j = 3 := by omega
      rcases this with h | h | h | h <;> subst h <;> simp
      omega)
    width height buffer hlen
  refine ⟨hl, fun p j hp hj => ?_⟩
  rw [hg p j hp hj]
  have : j = 0 ∨ j = 1 ∨ j = 2 ∨ j = 3 := by omega
  rcases this with h | h | h | h <;> subst h <;> simp

/-- Element-wise description of an opaque export: the alpha byte of every pixel is `255` and
the colour bytes are those of the input pixel of the mirrored row. -/
theorem convert_opaque_spec (buffer : Buffer) (width height : Nat) (cancelPremultiply : Bool)
    (hlen : buffer.length = width * height * 4) :
    (convertImageInPlace buffer (width, height) false cancelPremultiply).length = buffer.length ∧
    ∀ x y j, x < width → y < height → j < 4 →
      (convertImageInPlace buffer (width, height) false cancelPremultiply).getD
          ((y * width + x) * 4 + j) 0
        = if j = 3 then 255 else buffer.getD (((height - 1 - y) * width + x) * 4 + j) 0 := by
  obtain ⟨fl1, fg⟩ := flipRows_spec buffer width height hlen
  obtain ⟨el, eg⟩ := eraseAlpha_spec width height (flipRows buffer width height)
    (by rw [fl1, hlen])
  simp only [convertImageInPlace, Bool.false_and, Bool.false_eq_true, if_false, Bool.not_false,
    if_true]
  refine ⟨by rw [el, fl1], fun x y j hx hy hj => ?_⟩
  rw [eg _ j (pixel_lt width height x y hx hy) hj]
  have e1 : (y * width + x) * 4 + j = y * (width * 4) + (x * 4 + j) := by ring
  have e2 : ((height - 1 - y) * width + x) * 4 + j
      = (height - 1 - y) * (width * 4) + (x * 4 + j) := by ring
  rw [e1, e2, fg y (x * 4 + j) hy (by omega)]

/-- Two opaque exports in a row: the second one only flips the rows of the first result back,
which gives the input with every alpha byte set to `255`. -/
theorem convert_opaque_twice_spec (buffer : Buffer) (width height : Nat) (cp1 cp2 : Bool)
    (hlen : buffer.length = width * height * 4) :
    convertImageInPlace (convertImageInPlace buffer (width, height) false cp1)
        (width, height) false cp2
      = flipRows (convertImageInPlace buffer (width, height) false cp1) width height ∧
    convertImageInPlace (convertImageInPlace buffer (width, height) false cp1)
        (width, height) false cp2
      = forEachPixel width height eraseAlphaAt buffer := by
  obtain ⟨l1, g1⟩ := convert_opaque_spec buffer width height cp1 hlen
  obtain ⟨l2, g2⟩ := convert_opaque_spec
    (convertImageInPlace buffer (width, height) false cp1) width height cp2 (by rw [l1, hlen])
  obtain ⟨l3, g3⟩ := flipRows_spec
    (convertImageInPlace buffer (width, height) false cp1) width height (by rw [l1, hlen])
  obtain ⟨l4, g4⟩ := eraseAlpha_spec width height buffer hlen
  constructor
  · apply ext_getD _ _ (by rw [l2, l3])
    intro k hk
    rw [l2, l1, hlen] at hk
    obtain ⟨y, x, j, hy, hx, hj, e⟩ := pixel_decompose width height k hk
    rw [← e, g2 x y j hx hy hj]
    have e1 : (y * width + x) * 4 + j = y * (width * 4) + (x * 4 + j) := by ring
    have e2 : ((height - 1 - y) * width + x) * 4 + j
        = (height - 1 - y) * (width * 4) + (x * 4 + j) := by ring
    rw [e1, g3 y (x * 4 + j) hy (by omega), ← e2]
    split_ifs with h3
    · rw [g1 x (height - 1 - y) j hx (by omega) hj, if_pos h3]
    · rfl
  · apply ext_getD _ _ (by rw [l2, l1, l4])
    intro k hk
    rw [l2, l1, hlen] at hk
    obtain ⟨y, x, j, hy, hx, hj, e⟩ := pixel_decompose width height k hk
    rw [← e, g2 x y j hx hy hj, g4 _ j (pixel_lt width height x y hx hy) hj]
    split_ifs with h3
    · rfl
    · rw [g1 x (height - 1 - y) j hx (by omega) hj, if_neg h3]
      have : height - 1 - (height - 1 - y) = y := by omega
      rw [this]

/-! ## C1: the row flip is self-inverse -/

/-- C1. With `exportNoBackground = true` and `cancelPremultiply = false` only the row flip
runs, and running `convertImageInPlace` twice on a buffer of exactly `width * height * 4`
bytes gives back the original buffer, for every width and height (odd heights included). -/
theorem convertImageInPlace_flip_involutive (buffer : Buffer) (width height : Nat)
    (hlen : buffer.length = width * height * 4) :
    convertImageInPlace (convertImageInPlace buffer (width, height) true false)
      (width, height) true false = buffer := by
  simp only [convertImageInPlace, Bool.and_false, Bool.not_true, if_false, Bool.false_eq_true]
  exact flipRows_flipRows buffer width height hlen

/-- C1 at a 1 x 3 image (odd height, the middle row stays in place). -/
theorem convertImageInPlace_flip_involutive_witness :
    ([1, 2, 3, 4, 5, 6, 7, 8, 9, 10, 11, 12] : Buffer).length = 1 * 3 * 4 ∧
    convertImageInPlace
      (convertImageInPlace [1, 2, 3, 4, 5, 6, 7, 8, 9, 10, 11, 12] (1, 3) true false)
      (1, 3) true false = [1, 2, 3, 4, 5, 6, 7, 8, 9, 10, 11, 12] :=
  ⟨by decide, convertImageInPlace_flip_involutive _ 1 3 (by decide)⟩

/-! ## C2: two opaque exports in a row -/

/-- C2, as stated, fails: on a 2 x 2 image (even width and height) whose two rows differ, the
buffer after two opaque exports is not the buffer after the first one. -/
theorem convertImageInPlace_opaque_twice_ne_once :
    2 % 2 = 0 ∧
    ([1, 2, 3, 4, 5, 6, 7, 8, 9, 10, 11, 12, 13, 14, 15, 16] : Buffer).length = 2 * 2 * 4 ∧
    convertImageInPlace
        (convertImageInPlace [1, 2, 3, 4, 5, 6, 7, 8, 9, 10, 11, 12, 13, 14, 15, 16]
          (2, 2) false false) (2, 2) false false
      = [1, 2, 3, 255, 5, 6, 7, 255, 9, 10, 11, 255, 13, 14, 15, 255] ∧
    convertImageInPlace [1, 2, 3, 4, 5, 6, 7, 8, 9, 10, 11, 12, 13, 14, 15, 16]
        (2, 2) false false
      = [9, 10, 11, 255, 13, 14, 15, 255, 1, 2, 3, 255, 5, 6, 7, 255] ∧
    convertImageInPlace
        (convertImageInPlace [1, 2, 3, 4, 5, 6, 7, 8, 9, 10, 11, 12, 13, 14, 15, 16]
          (2, 2) false false) (2, 2) false false
      ≠ convertImageInPlace [1, 2, 3, 4, 5, 6, 7, 8, 9, 10, 11, 12, 13, 14, 15, 16]
          (2, 2) false false := by
  decide

/-- C2, amended. For every width and height, every buffer of `width * height * 4` bytes and
either value of the fix-premultiply flag, two opaque exports in a row give a buffer whose
alpha bytes are all `255`, which is the row flip of the buffer obtained after the first export
(not that buffer itself) and which equals the input with its alpha bytes erased. -/
theorem convertImageInPlace_opaque_twice (buffer : Buffer) (width height : Nat)
    (cp1 cp2 : Bool) (hlen : buffer.length = width * height * 4) :
    (∀ x y, x < width → y < height →
      (convertImageInPlace (convertImageInPlace buffer (width, height) false cp1)
        (width, height) false cp2).getD ((y * width + x) * 4 + 3) 0 = 255) ∧
    convertImageInPlace (convertImageInPlace buffer (width, height) false cp1)
        (width, height) false cp2
      = flipRows (convertImageInPlace buffer (width, height) false cp1) width height ∧
    convertImageInPlace (convertImageInPlace buffer (width, height) false cp1)
        (width, height) false cp2
      = forEachPixel width height eraseAlphaAt buffer := by
  obtain ⟨l1, _⟩ := convert_opaque_spec buffer width height cp1 hlen
  obtain ⟨_, g2⟩ := convert_opaque_spec
    (convertImageInPlace buffer (width, height) false cp1) width height cp2 (by rw [l1, hlen])
  refine ⟨fun x y hx hy => ?_, convert_opaque_twice_spec buffer width height cp1 cp2 hlen⟩
  rw [g2 x y 3 hx hy (by omega), if_pos rfl]

/-- C2, amended, at a 2 x 2 image. -/
theorem convertImageInPlace_opaque_twice_witness :
    ([1, 2, 3, 4, 5, 6, 7, 8, 9, 10, 11, 12, 13, 14, 15, 16] : Buffer).length = 2 * 2 * 4 ∧
    convertImageInPlace
        (convertImageInPlace [1, 2, 3, 4, 5, 6, 7, 8, 9, 10, 11, 12, 13, 14, 15, 16]
          (2, 2) false false) (2, 2) false false
      = flipRows (convertImageInPlace [1, 2, 3, 4, 5, 6, 7, 8, 9, 10, 11, 12, 13, 14, 15, 16]
          (2, 2) false false) 2 2 :=
  ⟨by decide,
    (convertImageInPlace_opaque_twice [1, 2, 3, 4, 5, 6, 7, 8, 9, 10, 11, 12, 13, 14, 15, 16]
      2 2 false false (by decide)).2.1⟩

/-! ## C3: the opaque export -/

/-- C3. With `exportNoBackground = false`, for every width and height, every buffer of
`width * height * 4` bytes and either value of `cancelPremultiply`, the result has the length
of the input, the alpha byte of every pixel `(x, y)` is `255` and its R, G, B bytes are those
of the input pixel `(x, height - 1 - y)`; the un-premultiplication is never applied, the
result does not depend on `cancelPremultiply`. -/
theorem convertImageInPlace_opaque_export (buffer : Buffer) (width height : Nat)
    (cancelPremultiply : Bool) (hlen : buffer.length = width * height * 4) :
    (convertImageInPlace buffer (width, height) false cancelPremultiply).length
      = buffer.length ∧
    (∀ x y, x < width → y < height →
      (convertImageInPlace buffer (width, height) false cancelPremultiply).getD
        ((y * width + x) * 4 + 3) 0 = 255 ∧
      ∀ j, j < 3 →
        (convertImageInPlace buffer (width, height) false cancelPremultiply).getD
          ((y * width + x) * 4 + j) 0
        = buffer.getD (((height - 1 - y) * width + x) * 4 + j) 0) ∧
    convertImageInPlace buffer (width, height) false cancelPremultiply
      = forEachPixel width height eraseAlphaAt (flipRows buffer width height) := by
  obtain ⟨l1, g1⟩ := convert_opaque_spec buffer width height cancelPremultiply hlen
  refine ⟨l1, fun x y hx hy => ⟨?_, fun j hj => ?_⟩, ?_⟩
  · rw [g1 x y 3 hx hy (by omega), if_pos rfl]
  · rw [g1 x y j hx hy (by omega), if_neg (by omega)]
  · simp [convertImageInPlace]

/-- C3 at a 1 x 3 image with the fix-premultiply flag set. -/
theorem convertImageInPlace_opaque_export_witness :
    ([64, 64, 64, 128, 5, 6, 7, 0, 200, 10, 11, 100] : Buffer).length = 1 * 3 * 4 ∧
    convertImageInPlace [64, 64, 64, 128, 5, 6, 7, 0, 200, 10, 11, 100] (1, 3) false true
      = forEachPixel 1 3 eraseAlphaAt
          (flipRows [64, 64, 64, 128, 5, 6, 7, 0, 200, 10, 11, 100] 1 3) :=
  ⟨by decide,
    (convertImageInPlace_opaque_export [64, 64, 64, 128, 5, 6, 7, 0, 200, 10, 11, 100] 1 3 true
      (by decide)).2.2⟩

/-! ## Single precision arithmetic: exact values and rounding errors -/
theorem log2Aux_le (fuel : Nat) : ∀ n, 0 < n → 2 ^ log2Aux fuel n ≤ n := by
  induction fuel with
  | zero => intro n hn; simpa [log2Aux] using hn
  | succ fuel ih =>
    intro n hn
    unfold log2Aux
    split_ifs with h
    · have := ih (n / 2) (by omega)
      rw [pow_succ]
      omega
    · simpa using hn

theorem lt_log2Aux (fuel : Nat) : ∀ n, n ≤ fuel → n < 2 ^ (log2Aux fuel n + 1) := by
  induction fuel with
  | zero => intro n hn; simp [log2Aux]; omega
  | succ fuel ih =>
    intro n hn
    unfold log2Aux
    split_ifs with h
    · have := ih (n / 2) (by omega)
      rw [pow_succ]
      omega
    · simp; omega

theorem pow2_eq (e : ℤ) : pow2 e = (2 : ℚ) ^ e := by
  unfold pow2
  split_ifs with h
  · obtain ⟨n, rfl⟩ := Int.eq_ofNat_of_zero_le h
    simp
  · obtain ⟨n, hn⟩ := Int.eq_ofNat_of_zero_le (show 0 ≤ -e by omega)
    have : e = -(n : ℤ) := by omega
    subst this
    simp

theorem pow2_pos (e : ℤ) : 0 < pow2 e := by
  rw [pow2_eq]; positivity

theorem pow2_ilog2_le (x : ℚ) (hx : 0 < x) : pow2 (ilog2 x) ≤ x := by
  unfold ilog2
  split_ifs with h
  · rwa [abs_of_pos hx] at h
  · have hnum : 0 < x.num := Rat.num_pos.mpr hx
    have hn : 0 < x.num.natAbs := Int.natAbs_pos.mpr hnum.ne'
    have h1 := log2Aux_le x.num.natAbs x.num.natAbs hn
    have h2 := lt_log2Aux x.den x.den le_rfl
    rw [pow2_eq]
    have hx' : x = (x.num.natAbs : ℚ) / (x.den : ℚ) := by
      conv_lhs => rw [← Rat.num_div_den x]
      congr 1
      rw [← Int.cast_natCast, Int.natAbs_of_nonneg hnum.le]
    have e1 : ((nlog2 x.num.natAbs : ℤ) - (nlog2 x.den : ℤ) - 1)
        = (nlog2 x.num.natAbs : ℤ) - ((nlog2 x.den + 1 : ℕ) : ℤ) := by push_cast; ring
    rw [e1, zpow_sub₀ (by norm_num), zpow_natCast, zpow_natCast]
    conv_rhs => rw [hx']
    have h1' : ((2:ℚ) ^ nlog2 x.num.natAbs) ≤ (x.num.natAbs : ℚ) := by
      exact_mod_cast h1
    have h2' : (x.den : ℚ) ≤ ((2:ℚ) ^ (nlog2 x.den + 1)) := by
      exact_mod_cast h2.le
    have hd : (0:ℚ) < x.den := by exact_mod_cast x.den_pos
    exact div_le_div₀ (by positivity) h1' hd h2'

theorem roundHalfEven_intCast (k : ℤ) : roundHalfEven (k : ℚ) = k := by
  simp [roundHalfEven]

theorem abs_roundHalfEven_sub_le (y : ℚ) : |(roundHalfEven y : ℚ) - y| ≤ 1 / 2 := by
  have h1 := Int.floor_le y
  have h2 := Int.lt_floor_add_one y
  unfold roundHalfEven
  rw [abs_le]
  split_ifs with a b c
  · constructor <;> linarith
  · push_cast; constructor <;> linarith
  · constructor <;> linarith
  · push_cast; constructor <;> linarith

theorem pow2_sub_23 (e : ℤ) : pow2 (e - 23) = pow2 e / 2 ^ 23 := by
  rw [pow2_eq, pow2_eq, zpow_sub₀ (by norm_num)]
  norm_num

/-- The exponent used by `fl` is at most the binary exponent of `x` when `x` is in the
normal range. -/
theorem pow2_exp_le (x : ℚ) (hx : 0 < x) (hmin : pow2 (-126) ≤ x) :
    pow2 (max (ilog2 x) (-126)) ≤ x := by
  rcases max_choice (ilog2 x) (-126) with h | h
  · rw [h]; exact pow2_ilog2_le x hx
  · rw [h]; exact hmin

/-- The relative error of rounding to binary32 is at most `2 ^ (-24)` in the normal range. -/
theorem abs_fl_sub_le (x : ℚ) (hx : 0 < x) (hmin : pow2 (-126) ≤ x) :
    |fl x - x| ≤ x / 2 ^ 24 := by
  have hE := pow2_exp_le x hx hmin
  have hq : 0 < pow2 (max (ilog2 x) (-126) - 23) := pow2_pos _
  have hr := abs_roundHalfEven_sub_le (x / pow2 (max (ilog2 x) (-126) - 23))
  unfold fl
  rw [if_neg hx.ne']
  have e : (roundHalfEven (x / pow2 (max (ilog2 x) (-126) - 23)) : ℚ)
        * pow2 (max (ilog2 x) (-126) - 23) - x
      = ((roundHalfEven (x / pow2 (max (ilog2 x) (-126) - 23)) : ℚ)
          - x / pow2 (max (ilog2 x) (-126) - 23)) * pow2 (max (ilog2 x) (-126) - 23) := by
    field_simp
  rw [e, abs_mul, abs_of_pos hq]
  calc |(roundHalfEven (x / pow2 (max (ilog2 x) (-126) - 23)) : ℚ)
          - x / pow2 (max (ilog2 x) (-126) - 23)| * pow2 (max (ilog2 x) (-126) - 23)
      ≤ 1 / 2 * pow2 (max (ilog2 x) (-126) - 23) := by
        exact mul_le_mul_of_nonneg_right hr hq.le
    _ = pow2 (max (ilog2 x) (-126)) / 2 ^ 24 := by rw [pow2_sub_23]; ring
    _ ≤ x / 2 ^ 24 := by
        exact div_le_div_of_nonneg_right hE (by positivity)

theorem ilog2_natCast (n : ℕ) (hn : 0 < n) : ilog2 (n : ℚ) = (nlog2 n : ℤ) := by
  have h1 : nlog2 1 = 0 := by decide
  have hle := log2Aux_le n n hn
  unfold ilog2
  simp only [Rat.num_natCast, Rat.den_natCast, Int.natAbs_ofNat, h1, Nat.cast_zero, sub_zero]
  rw [if_pos]
  rw [pow2_eq, zpow_natCast, abs_of_nonneg (by positivity)]
  exact_mod_cast hle

/-- Every natural number below `2 ^ 24` is a binary32 value. -/
theorem fl_natCast (n : ℕ) (hn : n < 2 ^ 24) : fl (n : ℚ) = n := by
  rcases Nat.eq_zero_or_pos n with h0 | h0
  · subst h0; simp [fl]
  have hle := log2Aux_le n n h0
  have ht : nlog2 n ≤ 23 := by
    by_contra hc
    have : 2 ^ 24 ≤ 2 ^ nlog2 n := Nat.pow_le_pow_right (by norm_num) (by omega)
    have : 2 ^ nlog2 n ≤ n := hle
    omega
  unfold fl
  rw [if_neg (by exact_mod_cast h0.ne'), ilog2_natCast n h0]
  have hmax : max (nlog2 n : ℤ) (-126) = (nlog2 n : ℤ) := max_eq_left (by omega)
  rw [hmax]
  have hq : pow2 ((nlog2 n : ℤ) - 23) = 1 / ((2 ^ (23 - nlog2 n) : ℕ) : ℚ) := by
    rw [pow2_eq]
    have : ((nlog2 n : ℤ) - 23) = -((23 - nlog2 n : ℕ) : ℤ) := by omega
    rw [this, zpow_neg, zpow_natCast]
    norm_num
  rw [hq]
  have e : (n : ℚ) / (1 / ((2 ^ (23 - nlog2 n) : ℕ) : ℚ))
      = (((n * 2 ^ (23 - nlog2 n) : ℕ) : ℤ) : ℚ) := by
    push_cast; field_simp
  rw [e, roundHalfEven_intCast]
  push_cast
  field_simp

theorem fl_zero : fl 0 = 0 := by simp [fl]

/-- Rounding a number of the normal range changes it by a factor in `[1 - 10⁻⁷, 1 + 10⁻⁷]`. -/
theorem fl_bounds (x : ℚ) (hx : 1 / 1024 ≤ x) :
    x * (1 - 1 / 10000000) ≤ fl x ∧ fl x ≤ x * (1 + 1 / 10000000) := by
  have hpos : 0 < x := by linarith
  have hmin : pow2 (-126) ≤ x := by
    have : pow2 (-126) ≤ 1 / 1024 := by
      rw [pow2_eq, zpow_neg]; norm_num
    linarith
  have h := abs_fl_sub_le x hpos hmin
  rw [abs_le] at h
  have h24 : x / 2 ^ 24 ≤ x * (1 / 10000000) := by
    rw [div_eq_mul_one_div]
    exact mul_le_mul_of_nonneg_left (by norm_num) hpos.le
  constructor <;> linarith [h.1, h.2]

/-- One rounding step in a chain of relative bounds around `t`. -/
theorem fl_rel_step (t lo hi x : ℚ) (hlo : t * lo ≤ x) (hhi : x ≤ t * hi)
    (hx : 1 / 1024 ≤ x) :
    t * (lo * (1 - 1 / 10000000)) ≤ fl x ∧ fl x ≤ t * (hi * (1 + 1 / 10000000)) := by
  obtain ⟨h1, h2⟩ := fl_bounds x hx
  constructor
  · calc t * (lo * (1 - 1 / 10000000)) = t * lo * (1 - 1 / 10000000) := by ring
      _ ≤ x * (1 - 1 / 10000000) := mul_le_mul_of_nonneg_right hlo (by norm_num)
      _ ≤ fl x := h1
  · calc fl x ≤ x * (1 + 1 / 10000000) := h2
      _ ≤ t * hi * (1 + 1 / 10000000) := mul_le_mul_of_nonneg_right hhi (by norm_num)
      _ = t * (hi * (1 + 1 / 10000000)) := by ring

/-- The floor of a number within `1/255` of `255 * c / a` is the floor of `255 * c / a` or one
less. -/
theorem floor_near (p : ℚ) (c a : ℕ) (ha : 0 < a) (ha' : a ≤ 255)
    (h1 : p < 255 * (c : ℚ) / a + 1 / 255) (h2 : 255 * (c : ℚ) / a - 1 / 255 < p) :
    ((⌊p⌋ : ℤ) : ℚ) ≤ 255 * (c : ℚ) / a ∧ 255 * (c : ℚ) / a ≤ (⌊p⌋ : ℤ) + 1 := by
  have haq : (0 : ℚ) < a := by exact_mod_cast ha
  have haq' : (a : ℚ) ≤ 255 := by exact_mod_cast ha'
  have hinv : (1 : ℚ) / 255 ≤ 1 / a := one_div_le_one_div_of_le haq haq'
  have hf1 := Int.floor_le p
  have hf2 := Int.lt_floor_add_one p
  constructor
  · by_contra hc
    push_neg at hc
    have hc' : 255 * (c : ℚ) < (⌊p⌋ : ℤ) * a := by
      rwa [div_lt_iff₀ haq] at hc
    have hz : (255 * (c : ℤ)) < ⌊p⌋ * (a : ℤ) := by exact_mod_cast hc'
    have hz' : (255 * (c : ℤ)) + 1 ≤ ⌊p⌋ * (a : ℤ) := hz
    have hq : 255 * (c : ℚ) + 1 ≤ (⌊p⌋ : ℤ) * a := by exact_mod_cast hz'
    have : 255 * (c : ℚ) / a + 1 / a ≤ (⌊p⌋ : ℤ) := by
      rw [← add_div, div_le_iff₀ haq]; exact hq
    linarith
  · by_contra hc
    push_neg at hc
    have hc' : ((⌊p⌋ : ℤ) + 1 : ℚ) * a < 255 * (c : ℚ) := by
      rwa [lt_div_iff₀ haq] at hc
    have hz : (⌊p⌋ + 1) * (a : ℤ) < 255 * (c : ℤ) := by exact_mod_cast hc'
    have hz' : (⌊p⌋ + 1) * (a : ℤ) + 1 ≤ 255 * (c : ℤ) := hz
    have hq : ((⌊p⌋ : ℤ) + 1 : ℚ) * a + 1 ≤ 255 * (c : ℚ) := by exact_mod_cast hz'
    have : ((⌊p⌋ : ℤ) + 1 : ℚ) + 1 / a ≤ 255 * (c : ℚ) / a := by
      rw [le_div_iff₀ haq, add_mul, one_div, inv_mul_cancel₀ haq.ne']; exact hq
    linarith

theorem f32ofInt_natCast (n : ℕ) (hn : n < 2 ^ 24) : f32ofInt (n : ℤ) = n := by
  unfold f32ofInt
  rw [Int.cast_natCast]
  exact fl_natCast n hn

theorem toGLubyte_val (p : ℚ) (h0 : 0 ≤ p) (h1 : p < 256) :
    (((toGLubyte p).val : ℕ) : ℚ) = ((⌊p⌋ : ℤ) : ℚ) := by
  have hf0 : 0 ≤ ⌊p⌋ := Int.floor_nonneg.mpr h0
  have hf1 : ⌊p⌋ < 256 := Int.floor_lt.mpr (by exact_mod_cast h1)
  have hlt : Int.toNat ⌊p⌋ < 256 := by omega
  unfold toGLubyte
  rw [Fin.ofNat, Fin.val_mk, Nat.mod_eq_of_lt hlt]
  rw [← Int.cast_natCast, Int.toNat_of_nonneg hf0]

/-- The stored alpha of a pixel, as a `float` in `[0, 1]`, is zero exactly for the byte `0`. -/
theorem alpha_bounds (a : ℕ) (ha : 0 < a) (ha' : a < 256) :
    (a : ℚ) / 255 * (1 - 1 / 10000000) ≤ f32div (f32ofInt (a : ℤ)) 255 ∧
    f32div (f32ofInt (a : ℤ)) 255 ≤ (a : ℚ) / 255 * (1 + 1 / 10000000) := by
  rw [f32ofInt_natCast a (by omega)]
  have h1 : (1 : ℚ) ≤ a := by exact_mod_cast ha
  exact fl_bounds _ (by
    rw [le_div_iff₀ (by norm_num)]
    linarith)

theorem cancelChannel_bound (c a : ℕ) (hc : c < 256) (ha : 0 < a) (ha' : a < 256) :
    (((cancelChannel (Fin.ofNat c) (f32div (f32ofInt (a : ℤ)) 255)).val : ℕ) : ℚ)
        ≤ 255 * clamp ((c : ℚ) / a) 0 1 ∧
      255 * clamp ((c : ℚ) / a) 0 1
        ≤ (((cancelChannel (Fin.ofNat c) (f32div (f32ofInt (a : ℤ)) 255)).val : ℕ) : ℚ) + 1 := by
  have hcv : ((Fin.ofNat c : GLubyte).val) = c := by
    rw [Fin.ofNat, Fin.val_mk, Nat.mod_eq_of_lt hc]
  obtain ⟨hA1, hA2⟩ := alpha_bounds a ha ha'
  rw [f32ofInt_natCast a (by omega)] at hA1 hA2 ⊢
  have haq : (1 : ℚ) ≤ a := by exact_mod_cast ha
  have haq' : (a : ℚ) ≤ 255 := by
    have : a ≤ 255 := by omega
    exact_mod_cast this
  have hcq' : (c : ℚ) ≤ 255 := by
    have : c ≤ 255 := by omega
    exact_mod_cast this
  have hApos : 0 < f32div (a : ℚ) 255 := by
    have : 0 < (a : ℚ) / 255 * (1 - 1 / 10000000) := by positivity
    linarith
  unfold cancelChannel
  rw [hcv, f32ofInt_natCast c (by omega)]
  generalize hA : f32div (a : ℚ) 255 = A at *
  rcases Nat.eq_zero_or_pos c with hc0 | hc0
  · -- a black channel stays black
    subst hc0
    simp [f32div, f32mul, fl_zero, clamp, toGLubyte, Fin.ofNat]
  have hcq : (1 : ℚ) ≤ c := by exact_mod_cast hc0
  obtain ⟨hr1, hr2⟩ : (c : ℚ) / 255 * (1 - 1 / 10000000) ≤ f32div (c : ℚ) 255 ∧
      f32div (c : ℚ) 255 ≤ (c : ℚ) / 255 * (1 + 1 / 10000000) :=
    fl_bounds _ (by rw [le_div_iff₀ (by norm_num)]; linarith)
  generalize hR : f32div (c : ℚ) 255 = r at *
  have h255 : fl 255 = 255 := by
    have := fl_natCast 255 (by norm_num)
    simpa using this
  have hfull : 1 ≤ f32div r A →
      ((toGLubyte (f32mul 255 (clamp (f32div r A) 0 1))).val : ℚ) = 255 := by
    intro hq
    have : clamp (f32div r A) 0 1 = 1 := by
      unfold clamp
      rw [max_eq_left (by linarith), min_eq_right hq]
    rw [this, f32mul, mul_one, h255, toGLubyte_val 255 (by norm_num) (by norm_num)]
    norm_num
  rcases Nat.lt_or_ge c a with hlt | hge
  · -- the channel is below alpha: the quotient is below one
    have hca : (c : ℚ) + 1 ≤ a := by exact_mod_cast hlt
    have ht0 : 0 < (c : ℚ) / a := by positivity
    have ht1 : (c : ℚ) / a ≤ 254 / 255 := by
      rw [div_le_iff₀ (by linarith)]
      linarith
    have ht2 : (1 : ℚ) / 255 ≤ (c : ℚ) / a := by
      rw [le_div_iff₀ (by linarith)]
      linarith
    have hdiv1 : (c : ℚ) / a * ((1 - 1 / 10000000) / (1 + 1 / 10000000)) ≤ r / A := by
      have : (c : ℚ) / a * ((1 - 1 / 10000000) / (1 + 1 / 10000000))
          = ((c : ℚ) / 255 * (1 - 1 / 10000000)) / ((a : ℚ) / 255 * (1 + 1 / 10000000)) := by
        field_simp
      rw [this]
      exact div_le_div₀ (by linarith) hr1 hApos hA2
    have hdiv2 : r / A ≤ (c : ℚ) / a * ((1 + 1 / 10000000) / (1 - 1 / 10000000)) := by
      have : (c : ℚ) / a * ((1 + 1 / 10000000) / (1 - 1 / 10000000))
          = ((c : ℚ) / 255 * (1 + 1 / 10000000)) / ((a : ℚ) / 255 * (1 - 1 / 10000000)) := by
        field_simp
      rw [this]
      exact div_le_div₀ (by positivity) hr2 (by positivity) hA1
    have hx1 : (1 : ℚ) / 1024 ≤ r / A := by
      have : (1 : ℚ) / 255 * ((1 - 1 / 10000000) / (1 + 1 / 10000000))
          ≤ (c : ℚ) / a * ((1 - 1 / 10000000) / (1 + 1 / 10000000)) :=
        mul_le_mul_of_nonneg_right ht2 (by norm_num)
      have h2 : (1 : ℚ) / 1024 ≤ 1 / 255 * ((1 - 1 / 10000000) / (1 + 1 / 10000000)) := by
        norm_num
      linarith
    obtain ⟨hq1, hq2⟩ := fl_rel_step _ _ _ _ hdiv1 hdiv2 hx1
    change _ ≤ f32div r A at hq1
    change f32div r A ≤ _ at hq2
    generalize hQ : f32div r A = q at *
    have hq0 : 0 ≤ q := by
      have : 0 ≤ (c : ℚ) / a * ((1 - 1 / 10000000) / (1 + 1 / 10000000) * (1 - 1 / 10000000)) :=
        by positivity
      linarith
    have hq1' : q ≤ 1 := by
      have : (c : ℚ) / a * ((1 + 1 / 10000000) / (1 - 1 / 10000000) * (1 + 1 / 10000000))
          ≤ 254 / 255 * ((1 + 1 / 10000000) / (1 - 1 / 10000000) * (1 + 1 / 10000000)) :=
        mul_le_mul_of_nonneg_right ht1 (by norm_num)
      have h2 : (254 : ℚ) / 255 * ((1 + 1 / 10000000) / (1 - 1 / 10000000) * (1 + 1 / 10000000))
          ≤ 1 := by norm_num
      linarith
    have hclamp : clamp q 0 1 = q := by
      unfold clamp
      rw [max_eq_left hq0, min_eq_left hq1']
    have hclampX : clamp ((c : ℚ) / a) 0 1 = (c : ℚ) / a := by
      unfold clamp
      rw [max_eq_left ht0.le, min_eq_left (by linarith)]
    rw [hclamp, hclampX]
    have hm1 : (c : ℚ) / a * (255 * ((1 - 1 / 10000000) / (1 + 1 / 10000000)
        * (1 - 1 / 10000000))) ≤ 255 * q := by
      have := mul_le_mul_of_nonneg_left hq1 (show (0 : ℚ) ≤ 255 by norm_num)
      linarith
    have hm2 : 255 * q ≤ (c : ℚ) / a * (255 * ((1 + 1 / 10000000) / (1 - 1 / 10000000)
        * (1 + 1 / 10000000))) := by
      have := mul_le_mul_of_nonneg_left hq2 (show (0 : ℚ) ≤ 255 by norm_num)
      linarith
    have hx2 : (1 : ℚ) / 1024 ≤ 255 * q := by
      have : (1 : ℚ) / 255 * (255 * ((1 - 1 / 10000000) / (1 + 1 / 10000000)
          * (1 - 1 / 10000000)))
          ≤ (c : ℚ) / a * (255 * ((1 - 1 / 10000000) / (1 + 1 / 10000000)
          * (1 - 1 / 10000000))) :=
        mul_le_mul_of_nonneg_right ht2 (by norm_num)
      have h2 : (1 : ℚ) / 1024 ≤ 1 / 255 * (255 * ((1 - 1 / 10000000) / (1 + 1 / 10000000)
          * (1 - 1 / 10000000))) := by norm_num
      linarith
    obtain ⟨hp1, hp2⟩ := fl_rel_step _ _ _ _ hm1 hm2 hx2
    change _ ≤ f32mul 255 q at hp1
    change f32mul 255 q ≤ _ at hp2
    generalize hP : f32mul 255 q = p at *
    have hlo : (c : ℚ) / a * (255 - 1 / 1000)
        ≤ (c : ℚ) / a * (255 * ((1 - 1 / 10000000) / (1 + 1 / 10000000)
          * (1 - 1 / 10000000)) * (1 - 1 / 10000000)) :=
      mul_le_mul_of_nonneg_left (by norm_num) ht0.le
    have hhi : (c : ℚ) / a * (255 * ((1 + 1 / 10000000) / (1 - 1 / 10000000)
          * (1 + 1 / 10000000)) * (1 + 1 / 10000000))
        ≤ (c : ℚ) / a * (255 + 1 / 1000) :=
      mul_le_mul_of_nonneg_left (by norm_num) ht0.le
    have hX : 255 * ((c : ℚ) / a) = 255 * (c : ℚ) / a := by ring
    have hpl : 255 * (c : ℚ) / a - 1 / 255 < p := by
      rw [← hX]; linarith
    have hpu : p < 255 * (c : ℚ) / a + 1 / 255 := by
      rw [← hX]; linarith
    have hp0 : 0 ≤ p := by
      have : 0 ≤ (c : ℚ) / a * (255 - 1 / 1000) := by positivity
      linarith
    have hp256 : p < 256 := by
      have : (c : ℚ) / a * (255 + 1 / 1000) ≤ 254 / 255 * (255 + 1 / 1000) :=
        mul_le_mul_of_nonneg_right ht1 (by norm_num)
      have h2 : (254 : ℚ) / 255 * (255 + 1 / 1000) < 256 := by norm_num
      linarith
    rw [toGLubyte_val p hp0 hp256, hX]
    exact floor_near p c a ha (by omega) hpu hpl
  · -- the channel reaches alpha: the quotient is clamped to one
    have hq : 1 ≤ f32div r A := by
      rcases Nat.eq_or_lt_of_le hge with heq | hgt
      · subst heq
        have : r = A := hR.symm.trans hA
        rw [this, f32div, div_self hApos.ne']
        have := fl_natCast 1 (by norm_num)
        simp at this
        rw [this]
      · have hca : (a : ℚ) + 1 ≤ c := by exact_mod_cast hgt
        have hrA : 1 + 1 / 1000 ≤ r / A := by
          rw [le_div_iff₀ hApos]
          linarith
        have := (fl_bounds (r / A) (by linarith)).1
        have h2 : (1 + 1 / 1000 : ℚ) * (1 - 1 / 10000000) ≤ r / A * (1 - 1 / 10000000) :=
          mul_le_mul_of_nonneg_right hrA (by norm_num)
        have h3 : (1 : ℚ) ≤ (1 + 1 / 1000) * (1 - 1 / 10000000) := by norm_num
        unfold f32div
        linarith
    rw [hfull hq]
    have : clamp ((c : ℚ) / a) 0 1 = 1 := by
      have h1 : (1 : ℚ) ≤ (c : ℚ) / a := by
        rw [le_div_iff₀ (by linarith)]
        have : (a : ℚ) ≤ c := by exact_mod_cast hge
        linarith
      unfold clamp
      rw [max_eq_left (by linarith), min_eq_right h1]
    rw [this]
    norm_num

theorem cancelChannel_byte_bound (c a : GLubyte) (ha : a ≠ 0) :
    (((cancelChannel c (f32div (f32ofInt (a.val : ℤ)) 255)).val : ℕ) : ℚ)
        ≤ 255 * clamp ((c.val : ℚ) / a.val) 0 1 ∧
      255 * clamp ((c.val : ℚ) / a.val) 0 1
        ≤ (((cancelChannel c (f32div (f32ofInt (a.val : ℤ)) 255)).val : ℕ) : ℚ) + 1 := by
  have hc : (Fin.ofNat c.val : GLubyte) = c := by
    apply Fin.ext
    rw [Fin.ofNat, Fin.val_mk, Nat.mod_eq_of_lt c.isLt]
  have ha0 : 0 < a.val := Nat.pos_of_ne_zero (fun h => ha (Fin.ext h))
  have := cancelChannel_bound c.val a.val c.isLt ha0 a.isLt
  rwa [hc] at this

theorem alpha_eq_zero_iff (a : GLubyte) : f32div (f32ofInt (a.val : ℤ)) 255 = 0 ↔ a = 0 := by
  constructor
  · intro h
    by_contra hne
    have ha0 : 0 < a.val := Nat.pos_of_ne_zero (fun h => hne (Fin.ext h))
    have h1 := (alpha_bounds a.val ha0 a.isLt).1
    have h2 : (1 : ℚ) ≤ a.val := by exact_mod_cast ha0
    have h3 : 0 < (a.val : ℚ) / 255 * (1 - 1 / 10000000) := by positivity
    linarith
  · intro h
    subst h
    simp [f32div, f32ofInt, fl_zero]

/-- Element-wise description of the un-premultiplication pass. -/
theorem cancelPremultiply_spec (width height : Nat) (buffer : Buffer)
    (hlen : buffer.length = width * height * 4) :
    (forEachPixel width height cancelPremultiplyAt buffer).length = buffer.length ∧
    ∀ p j, p < width * height → j < 4 →
      (forEachPixel width height cancelPremultiplyAt buffer).getD (p * 4 + j) 0
        = if buffer.getD (p * 4 + 3) 0 = 0 ∨ j = 3 then buffer.getD (p * 4 + j) 0
          else cancelChannel (buffer.getD (p * 4 + j) 0)
            (f32div (f32ofInt ((buffer.getD (p * 4 + 3) 0).val : ℤ)) 255) := by
  obtain ⟨hl, hg⟩ := forEachPixel_spec cancelPremultiplyAt
    (fun r g b a j =>
      if a = 0 then (if j = 0 then r else if j = 1 then g else if j = 2 then b else a)
      else if j = 0 then cancelChannel r (f32div (f32ofInt (a.val : ℤ)) 255)
      else if j = 1 then cancelChannel g (f32div (f32ofInt (a.val : ℤ)) 255)
      else if j = 2 then cancelChannel b (f32div (f32ofInt (a.val : ℤ)) 255)
      else a)
    (fun base b _ => by
      unfold cancelPremultiplyAt
      split_ifs <;> simp)
    (fun base b k hb hk => by
      unfold cancelPremultiplyAt
      split_ifs
      · rfl
      · rw [getD_set, if_neg (by omega), getD_set, if_neg (by omega), getD_set,
          if_neg (by omega)])
    (fun base b j hb hj => by
      unfold cancelPremultiplyAt
      simp only [alpha_eq_zero_iff]
      have : j = 0 ∨ j = 1 ∨ j = 2 ∨ j = 3 := by omega
      by_cases h0 : b.getD (base + 3) 0 = 0
      · simp only [h0, if_true]
        rcases this with h | h | h | h <;> subst h
        · simp
        · simp
        · simp
        · simpa using h0
      · simp only [h0, if_false]
        rcases this with h | h | h | h <;> subst h
        · rw [getD_set, if_neg (by omega), getD_set, if_neg (by omega), getD_set,
            if_pos ⟨rfl, by omega⟩]
          simp
        · rw [getD_set, if_neg (by omega), getD_set, if_pos ⟨rfl, by simp; omega⟩]
          simp
        · rw [getD_set, if_pos ⟨rfl, by simp; omega⟩]
          simp
        · rw [getD_set, if_neg (by omega), getD_set, if_neg (by omega), getD_set,
            if_neg (by omega)]
          simp)
    width height buffer hlen
  refine ⟨hl, fun p j hp hj => ?_⟩
  rw [hg p j hp hj]
  have : j = 0 ∨ j = 1 ∨ j = 2 ∨ j = 3 := by omega
  by_cases h0 : buffer.getD (p * 4 + 3) 0 = 0
  · rcases this with h | h | h | h <;> subst h <;> simp [h0]
  · rcases this with h | h | h | h <;> subst h <;> simp [h0]

theorem flipRows_pixel (buffer : Buffer) (width height : Nat)
    (hlen : buffer.length = width * height * 4) (x y j : Nat) (hx : x < width)
    (hy : y < height) (hj : j < 4) :
    (flipRows buffer width height).getD ((y * width + x) * 4 + j) 0
      = buffer.getD (((height - 1 - y) * width + x) * 4 + j) 0 := by
  have e1 : (y * width + x) * 4 + j = y * (width * 4) + (x * 4 + j) := by ring
  have e2 : ((height - 1 - y) * width + x) * 4 + j
      = (height - 1 - y) * (width * 4) + (x * 4 + j) := by ring
  rw [e1, e2, (flipRows_spec buffer width height hlen).2 y (x * 4 + j) hy (by omega)]

/-! ## C4: un-premultiplication -/

/-- C4. With `exportNoBackground = true` and `cancelPremultiply = true`, on a buffer of
`width * height * 4` bytes, the output pixel `(x, y)` comes from the input pixel
`(x, height - 1 - y)`: it has the same alpha byte; when that alpha is `0` all four bytes are
identical; when it is `a > 0` each colour byte `c` becomes a byte `v` with
`v ≤ 255 * clamp (c / a) 0 1 ≤ v + 1`, the exact quotient within integer rounding. The stored
pixel `(64, 64, 64, 128)` becomes `(127, 127, 127, 128)`, each colour within 1 of `128`. -/
theorem convertImageInPlace_cancelPremultiply (buffer : Buffer) (width height : Nat)
    (hlen : buffer.length = width * height * 4) :
    (convertImageInPlace buffer (width, height) true true).length = buffer.length ∧
    (∀ x y, x < width → y < height →
      (convertImageInPlace buffer (width, height) true true).getD ((y * width + x) * 4 + 3) 0
        = buffer.getD (((height - 1 - y) * width + x) * 4 + 3) 0 ∧
      (buffer.getD (((height - 1 - y) * width + x) * 4 + 3) 0 = 0 → ∀ j, j < 4 →
        (convertImageInPlace buffer (width, height) true true).getD ((y * width + x) * 4 + j) 0
          = buffer.getD (((height - 1 - y) * width + x) * 4 + j) 0) ∧
      (buffer.getD (((height - 1 - y) * width + x) * 4 + 3) 0 ≠ 0 → ∀ j, j < 3 →
        ((((convertImageInPlace buffer (width, height) true true).getD
            ((y * width + x) * 4 + j) 0).val : ℕ) : ℚ)
          ≤ 255 * clamp
              (((buffer.getD (((height - 1 - y) * width + x) * 4 + j) 0).val : ℚ)
                / (buffer.getD (((height - 1 - y) * width + x) * 4 + 3) 0).val) 0 1 ∧
        255 * clamp
              (((buffer.getD (((height - 1 - y) * width + x) * 4 + j) 0).val : ℚ)
                / (buffer.getD (((height - 1 - y) * width + x) * 4 + 3) 0).val) 0 1
          ≤ ((((convertImageInPlace buffer (width, height) true true).getD
            ((y * width + x) * 4 + j) 0).val : ℕ) : ℚ) + 1)) ∧
    convertImageInPlace [64, 64, 64, 128] (1, 1) true true = [127, 127, 127, 128] := by
  obtain ⟨fl1, _⟩ := flipRows_spec buffer width height hlen
  obtain ⟨cl, cg⟩ := cancelPremultiply_spec width height (flipRows buffer width height)
    (by rw [fl1, hlen])
  have hout : convertImageInPlace buffer (width, height) true true
      = forEachPixel width height cancelPremultiplyAt (flipRows buffer width height) := by
    simp [convertImageInPlace]
  rw [hout]
  refine ⟨by rw [cl, fl1], fun x y hx hy => ?_, by decide!⟩
  have hp := pixel_lt width height x y hx hy
  have hsrc : ∀ j, j < 4 → (flipRows buffer width height).getD ((y * width + x) * 4 + j) 0
      = buffer.getD (((height - 1 - y) * width + x) * 4 + j) 0 :=
    fun j hj => flipRows_pixel buffer width height hlen x y j hx hy hj
  refine ⟨?_, fun h0 j hj => ?_, fun h0 j hj => ?_⟩
  · rw [cg _ 3 hp (by omega), if_pos (Or.inr rfl), hsrc 3 (by omega)]
  · rw [cg _ j hp hj, if_pos (Or.inl (by rw [hsrc 3 (by omega)]; exact h0)), hsrc j hj]
  · rw [cg _ j hp (by omega), if_neg (by
      rw [hsrc 3 (by omega)]
      exact fun h => h.elim h0 (by omega)), hsrc 3 (by omega), hsrc j (by omega)]
    exact cancelChannel_byte_bound _ _ h0

/-- C4 at the single pixel `(64, 64, 64, 128)`. -/
theorem convertImageInPlace_cancelPremultiply_witness :
    ([64, 64, 64, 128] : Buffer).length = 1 * 1 * 4 ∧
    (convertImageInPlace [64, 64, 64, 128] (1, 1) true true).length
      = ([64, 64, 64, 128] : Buffer).length ∧
    convertImageInPlace [64, 64, 64, 128] (1, 1) true true = [127, 127, 127, 128] :=
  ⟨by decide, (convertImageInPlace_cancelPremultiply [64, 64, 64, 128] 1 1 (by decide)).1,
    (convertImageInPlace_cancelPremultiply [64, 64, 64, 128] 1 1 (by decide)).2.2⟩

/-! ## C5: the frame count -/

theorem toSizeT_of_nonneg (x : ℤ) (h0 : 0 ≤ x) (h1 : x < 2 ^ 64) : (toSizeT x : ℤ) = x := by
  unfold toSizeT
  rw [Int.toNat_of_nonneg (Int.emod_nonneg _ (by norm_num)), Int.emod_eq_of_lt h0 h1]

theorem roundHalfEven_nonneg (y : ℚ) (hy : 0 ≤ y) : 0 ≤ roundHalfEven y := by
  have h : 0 ≤ ⌊y⌋ := Int.floor_nonneg.mpr hy
  unfold roundHalfEven
  split_ifs <;> omega

theorem fl_nonneg (x : ℚ) (hx : 0 ≤ x) : 0 ≤ fl x := by
  unfold fl
  split_ifs with h0
  · exact le_refl _
  · have hq : 0 < pow2 (max (ilog2 x) (-126) - 23) := pow2_pos _
    have : 0 ≤ roundHalfEven (x / pow2 (max (ilog2 x) (-126) - 23)) :=
      roundHalfEven_nonneg _ (div_nonneg hx hq.le)
    exact mul_nonneg (by exact_mod_cast this) hq.le

/-- The error of rounding to binary32, subnormal range included. -/
theorem abs_fl_sub_le_add (x : ℚ) (hx : 0 ≤ x) : |fl x - x| ≤ (x + pow2 (-126)) / 2 ^ 24 := by
  rcases hx.eq_or_lt with h0 | hpos
  · subst h0
    rw [fl_zero]
    have := pow2_pos (-126)
    simp only [sub_zero, abs_zero, zero_add]
    positivity
  have hE : pow2 (max (ilog2 x) (-126)) ≤ x + pow2 (-126) := by
    have h1 := pow2_ilog2_le x hpos
    have h2 := pow2_pos (-126)
    rcases max_choice (ilog2 x) (-126) with h | h
    · rw [h]; linarith
    · rw [h]; linarith
  have hq : 0 < pow2 (max (ilog2 x) (-126) - 23) := pow2_pos _
  have hr := abs_roundHalfEven_sub_le (x / pow2 (max (ilog2 x) (-126) - 23))
  unfold fl
  rw [if_neg hpos.ne']
  have e : (roundHalfEven (x / pow2 (max (ilog2 x) (-126) - 23)) : ℚ)
        * pow2 (max (ilog2 x) (-126) - 23) - x
      = ((roundHalfEven (x / pow2 (max (ilog2 x) (-126) - 23)) : ℚ)
          - x / pow2 (max (ilog2 x) (-126) - 23)) * pow2 (max (ilog2 x) (-126) - 23) := by
    field_simp
  rw [e, abs_mul, abs_of_pos hq]
  calc |(roundHalfEven (x / pow2 (max (ilog2 x) (-126) - 23)) : ℚ)
          - x / pow2 (max (ilog2 x) (-126) - 23)| * pow2 (max (ilog2 x) (-126) - 23)
      ≤ 1 / 2 * pow2 (max (ilog2 x) (-126) - 23) := by
        exact mul_le_mul_of_nonneg_right hr hq.le
    _ = pow2 (max (ilog2 x) (-126)) / 2 ^ 24 := by rw [pow2_sub_23]; ring
    _ ≤ (x + pow2 (-126)) / 2 ^ 24 := by
        exact div_le_div_of_nonneg_right hE (by positivity)

theorem pow2_neg_126_le : pow2 (-126) ≤ 1 / 2 ^ 126 := by
  rw [pow2_eq, zpow_neg]
  norm_num

theorem fl_le_two_mul_add_one (x : ℚ) (hx : 0 ≤ x) : fl x ≤ 2 * x + 1 := by
  have h := abs_fl_sub_le_add x hx
  rw [abs_le] at h
  have h1 := pow2_neg_126_le
  have h2 : (x + pow2 (-126)) / 2 ^ 24 ≤ x + 1 := by
    rw [div_le_iff₀ (by positivity)]
    have : (1 : ℚ) / 2 ^ 126 ≤ 1 := by norm_num
    nlinarith
  linarith [h.2]

/-- One rounding step in a chain of relative bounds around `t`, each of relative error
`2 ^ (-24)`. -/
theorem fl_rel_step24 (t lo hi x : ℚ) (hlo : t * lo ≤ x) (hhi : x ≤ t * hi)
    (hx : 1 / 2 ^ 126 ≤ x) :
    t * (lo * (1 - 1 / 2 ^ 24)) ≤ fl x ∧ fl x ≤ t * (hi * (1 + 1 / 2 ^ 24)) := by
  have hpos : 0 < x := lt_of_lt_of_le (by positivity) hx
  have h := abs_fl_sub_le x hpos (le_trans pow2_neg_126_le hx)
  rw [abs_le] at h
  constructor
  · calc t * (lo * (1 - 1 / 2 ^ 24)) = t * lo * (1 - 1 / 2 ^ 24) := by ring
      _ ≤ x * (1 - 1 / 2 ^ 24) := mul_le_mul_of_nonneg_right hlo (by norm_num)
      _ ≤ fl x := by linarith [h.1]
  · calc fl x ≤ x * (1 + 1 / 2 ^ 24) := by linarith [h.2]
      _ ≤ t * hi * (1 + 1 / 2 ^ 24) := mul_le_mul_of_nonneg_right hhi (by norm_num)
      _ = t * (hi * (1 + 1 / 2 ^ 24)) := by ring

theorem F32.round_of_nonneg (x : ℚ) (hx : 0 ≤ x) (h : fl x ≤ FLT_MAX) :
    F32.round x = F32.finite (fl x) := by
  unfold F32.round
  rw [abs_of_nonneg (fl_nonneg x hx), if_neg (not_lt.mpr h)]

theorem two_pow_125_le_FLT_MAX : (2 : ℚ) ^ 125 ≤ FLT_MAX := by
  unfold FLT_MAX
  norm_num

/-- The conversion to `int` of the ceiling of a `float` in the range of `int`. -/
theorem toSizeT_toInt_ceil (x : ℚ) (h0 : 0 ≤ x) (h1 : x ≤ 2 ^ 31 - 1) :
    (toSizeT (F32.toInt (F32.ceil (F32.finite x))) : ℤ) = ⌈x⌉ := by
  have hc0 : 0 ≤ ⌈x⌉ := Int.ceil_nonneg h0
  have hc1 : ⌈x⌉ ≤ 2 ^ 31 - 1 := by
    rw [Int.ceil_le]
    exact_mod_cast h1
  have hq : (0 : ℚ) ≤ ((⌈x⌉ : ℤ) : ℚ) := by exact_mod_cast hc0
  have e : F32.toInt (F32.ceil (F32.finite x)) = ⌈x⌉ := by
    show (if -2 ^ 31 ≤ (if 0 ≤ ((⌈x⌉ : ℤ) : ℚ) then ⌊((⌈x⌉ : ℤ) : ℚ)⌋ else ⌈((⌈x⌉ : ℤ) : ℚ)⌉) ∧
        (if 0 ≤ ((⌈x⌉ : ℤ) : ℚ) then ⌊((⌈x⌉ : ℤ) : ℚ)⌋ else ⌈((⌈x⌉ : ℤ) : ℚ)⌉) < 2 ^ 31 then
        (if 0 ≤ ((⌈x⌉ : ℤ) : ℚ) then ⌊((⌈x⌉ : ℤ) : ℚ)⌋ else ⌈((⌈x⌉ : ℤ) : ℚ)⌉)
      else -2 ^ 31) = ⌈x⌉
    rw [if_pos hq, Int.floor_intCast, if_pos ⟨by omega, by omega⟩]
  rw [e]
  exact toSizeT_of_nonneg _ hc0 (by omega)

/-- The `float` expression of `prepare` on non-negative times: no operation overflows as long
as the exact product of the total time and the frame rate is at most `2 ^ 120` and the
quotient is finite. -/
theorem prepare_eval (postroll preroll duration speed : ℚ) (rate : ℤ)
    (hpre : 0 ≤ preroll) (hdur : 0 ≤ duration) (hpost : 0 ≤ postroll)
    (hrate : 0 < rate) (hrate' : rate < 2 ^ 31) (hspeed : 0 < speed)
    (hprod : (duration + postroll + preroll) * rate ≤ 2 ^ 120)
    (hquot : f32div (f32mul (f32add (f32add duration postroll) preroll) (f32ofInt rate)) speed
      ≤ FLT_MAX) :
    F32.div (F32.mul (F32.add (F32.add (F32.finite duration) (F32.finite postroll))
        (F32.finite preroll)) (F32.ofInt rate)) (F32.finite speed)
      = F32.finite
        (f32div (f32mul (f32add (f32add duration postroll) preroll) (f32ofInt rate)) speed) ∧
    0 ≤ f32div (f32mul (f32add (f32add duration postroll) preroll) (f32ofInt rate)) speed := by
  unfold f32div f32mul f32add f32ofInt at *
  have hr1 : (1 : ℚ) ≤ rate := by exact_mod_cast hrate
  have hr2 : (rate : ℚ) ≤ 2 ^ 31 := by exact_mod_cast hrate'.le
  have hS : 0 ≤ duration + postroll + preroll := by linarith
  have hSle : duration + postroll + preroll ≤ 2 ^ 120 := by nlinarith
  have hA : 0 ≤ duration + postroll := by linarith
  have h1 := fl_le_two_mul_add_one _ hA
  have h1' := fl_nonneg _ hA
  have hB : 0 ≤ fl (duration + postroll) + preroll := by linarith
  have h2 := fl_le_two_mul_add_one _ hB
  have h2' := fl_nonneg _ hB
  have hs2 : fl (fl (duration + postroll) + preroll)
      ≤ 4 * (duration + postroll + preroll) + 3 := by linarith
  have h3 := fl_le_two_mul_add_one (rate : ℚ) (by linarith)
  have h3' := fl_nonneg (rate : ℚ) (by linarith)
  have hf : fl (rate : ℚ) ≤ 3 * rate := by linarith
  have hC : 0 ≤ fl (fl (duration + postroll) + preroll) * fl (rate : ℚ) :=
    mul_nonneg h2' h3'
  have hCle : fl (fl (duration + postroll) + preroll) * fl (rate : ℚ)
      ≤ 12 * 2 ^ 120 + 9 * 2 ^ 31 := by
    calc fl (fl (duration + postroll) + preroll) * fl (rate : ℚ)
        ≤ (4 * (duration + postroll + preroll) + 3) * (3 * rate) :=
          mul_le_mul hs2 hf h3' (by linarith)
      _ = 12 * ((duration + postroll + preroll) * rate) + 9 * rate := by ring
      _ ≤ 12 * 2 ^ 120 + 9 * 2 ^ 31 := by linarith
  have h4 := fl_le_two_mul_add_one _ hC
  have h4' := fl_nonneg _ hC
  have hD : 0 ≤ fl (fl (fl (duration + postroll) + preroll) * fl (rate : ℚ)) / speed :=
    div_nonneg h4' hspeed.le
  have hmax := two_pow_125_le_FLT_MAX
  have e1 : F32.add (F32.finite duration) (F32.finite postroll)
      = F32.finite (fl (duration + postroll)) :=
    F32.round_of_nonneg _ hA (by linarith)
  have e2 : F32.add (F32.finite (fl (duration + postroll))) (F32.finite preroll)
      = F32.finite (fl (fl (duration + postroll) + preroll)) :=
    F32.round_of_nonneg _ hB (by linarith)
  have e3 : F32.ofInt rate = F32.finite (fl (rate : ℚ)) :=
    F32.round_of_nonneg _ (by linarith) (by linarith)
  have e4 : F32.mul (F32.finite (fl (fl (duration + postroll) + preroll)))
        (F32.finite (fl (rate : ℚ)))
      = F32.finite (fl (fl (fl (duration + postroll) + preroll) * fl (rate : ℚ))) :=
    F32.round_of_nonneg _ hC (by linarith)
  have e5 : F32.div (F32.finite (fl (fl (fl (duration + postroll) + preroll) * fl (rate : ℚ))))
        (F32.finite speed)
      = F32.finite (fl (fl (fl (fl (duration + postroll) + preroll) * fl (rate : ℚ)) / speed)) := by
    show (if speed = 0 then _ else F32.round _) = _
    rw [if_neg hspeed.ne']
    exact F32.round_of_nonneg _ hD hquot
  rw [e1, e2, e3, e4, e5]
  exact ⟨rfl, fl_nonneg _ hD⟩

/-- The `float` expression of `prepare` against the exact one: five roundings, each of
relative error at most `2 ^ (-24)`, when no intermediate result is subnormal. -/
theorem prepare_bracket (postroll preroll duration speed : ℚ) (rate : ℤ)
    (hpre : 0 ≤ preroll) (hpost : 0 ≤ postroll) (hrate : 0 < rate)
    (hspeed : 0 < speed) (hlow : 1 / 2 ^ 100 ≤ duration) (hfast : speed ≤ 2 ^ 20) :
    (duration + postroll + preroll) * rate / speed * (1 - 1 / 2 ^ 24) ^ 5
      ≤ f32div (f32mul (f32add (f32add duration postroll) preroll) (f32ofInt rate)) speed ∧
    f32div (f32mul (f32add (f32add duration postroll) preroll) (f32ofInt rate)) speed
      ≤ (duration + postroll + preroll) * rate / speed * (1 + 1 / 2 ^ 24) ^ 5 := by
  unfold f32div f32mul f32add f32ofInt
  have hr1 : (1 : ℚ) ≤ rate := by exact_mod_cast hrate
  have ha : (1 / 2 : ℚ) ≤ 1 - 1 / 2 ^ 24 := by norm_num
  have ha1 : (1 - 1 / 2 ^ 24 : ℚ) ≤ 1 := by norm_num
  have hb : (1 : ℚ) ≤ 1 + 1 / 2 ^ 24 := by norm_num
  have step := fl_rel_step24
  generalize (1 - 1 / 2 ^ 24 : ℚ) = a at step ha ha1 ⊢
  generalize (1 + 1 / 2 ^ 24 : ℚ) = b at step hb ⊢
  have ha0 : 0 ≤ a := by linarith
  have hb0 : 0 ≤ b := by linarith
  have hA : 1 / 2 ^ 100 ≤ duration + postroll := by linarith
  have hA0 : 0 ≤ duration + postroll := le_trans (by positivity) hA
  have hS : 1 / 2 ^ 100 ≤ duration + postroll + preroll := by linarith
  have hS0 : 0 ≤ duration + postroll + preroll := le_trans (by positivity) hS
  have hr0 : (0 : ℚ) ≤ rate := by linarith
  -- the first sum
  obtain ⟨l1, u1⟩ := step (duration + postroll) 1 1 (duration + postroll) (by linarith)
    (by linarith) (le_trans (by norm_num) hA)
  rw [one_mul] at l1 u1
  have n1 : 1 / 2 ^ 100 * (1 / 2) ≤ (duration + postroll) * a :=
    mul_le_mul hA ha (by norm_num) hA0
  -- the second sum
  have l2' : (duration + postroll + preroll) * a ≤ fl (duration + postroll) + preroll := by
    have : preroll * a ≤ preroll := mul_le_of_le_one_right hpre ha1
    linarith
  have u2' : fl (duration + postroll) + preroll ≤ (duration + postroll + preroll) * b := by
    have : preroll ≤ preroll * b := le_mul_of_one_le_right hpre hb
    linarith
  obtain ⟨l2, u2⟩ := step (duration + postroll + preroll) a b
    (fl (duration + postroll) + preroll) l2' u2'
    (by have : (1 : ℚ) / 2 ^ 126 ≤ 1 / 2 ^ 100 * (1 / 2) := by norm_num
        linarith)
  have hs20 : 0 ≤ fl (fl (duration + postroll) + preroll) :=
    le_trans (mul_nonneg hS0 (mul_nonneg ha0 ha0)) l2
  have n2 : 1 / 2 ^ 100 * (1 / 2 * (1 / 2)) ≤ (duration + postroll + preroll) * (a * a) :=
    mul_le_mul hS (mul_le_mul ha ha (by norm_num) ha0) (by norm_num) hS0
  -- the frame rate
  obtain ⟨l3, u3⟩ := step (rate : ℚ) 1 1 (rate : ℚ) (by linarith) (by linarith)
    (le_trans (by norm_num) hr1)
  rw [one_mul] at l3 u3
  have n3 : 1 * (1 / 2) ≤ (rate : ℚ) * a := mul_le_mul hr1 ha (by norm_num) hr0
  have hf0 : 0 ≤ fl (rate : ℚ) := le_trans (mul_nonneg hr0 ha0) l3
  -- the product
  have l4' : (duration + postroll + preroll) * rate * (a * a * a)
      ≤ fl (fl (duration + postroll) + preroll) * fl (rate : ℚ) := by
    calc (duration + postroll + preroll) * rate * (a * a * a)
        = (duration + postroll + preroll) * (a * a) * (rate * a) := by ring
      _ ≤ fl (fl (duration + postroll) + preroll) * fl (rate : ℚ) :=
        mul_le_mul l2 l3 (mul_nonneg hr0 ha0) hs20
  have u4' : fl (fl (duration + postroll) + preroll) * fl (rate : ℚ)
      ≤ (duration + postroll + preroll) * rate * (b * b * b) := by
    calc fl (fl (duration + postroll) + preroll) * fl (rate : ℚ)
        ≤ (duration + postroll + preroll) * (b * b) * (rate * b) :=
        mul_le_mul u2 u3 hf0 (mul_nonneg hS0 (mul_nonneg hb0 hb0))
      _ = (duration + postroll + preroll) * rate * (b * b * b) := by ring
  have n4 : 1 / 2 ^ 100 * (1 / 2 * (1 / 2)) * (1 * (1 / 2))
      ≤ (duration + postroll + preroll) * rate * (a * a * a) := by
    calc 1 / 2 ^ 100 * (1 / 2 * (1 / 2)) * (1 * (1 / 2))
        ≤ (duration + postroll + preroll) * (a * a) * (rate * a) :=
        mul_le_mul n2 n3 (by norm_num) (mul_nonneg hS0 (mul_nonneg ha0 ha0))
      _ = (duration + postroll + preroll) * rate * (a * a * a) := by ring
  obtain ⟨l4, u4⟩ := step ((duration + postroll + preroll) * rate) (a * a * a) (b * b * b)
    (fl (fl (duration + postroll) + preroll) * fl (rate : ℚ)) l4' u4'
    (by have : (1 : ℚ) / 2 ^ 126 ≤ 1 / 2 ^ 100 * (1 / 2 * (1 / 2)) * (1 * (1 / 2)) := by
          norm_num
        linarith)
  have n5 : 1 / 2 ^ 100 * (1 / 2 * (1 / 2)) * (1 * (1 / 2)) * (1 / 2)
      ≤ (duration + postroll + preroll) * rate * (a * a * a * a) := by
    calc 1 / 2 ^ 100 * (1 / 2 * (1 / 2)) * (1 * (1 / 2)) * (1 / 2)
        ≤ (duration + postroll + preroll) * rate * (a * a * a) * a :=
        mul_le_mul n4 ha (by norm_num)
          (mul_nonneg (mul_nonneg hS0 hr0) (mul_nonneg (mul_nonneg ha0 ha0) ha0))
      _ = (duration + postroll + preroll) * rate * (a * a * a * a) := by ring
  -- the quotient
  have l5' : (duration + postroll + preroll) * rate / speed * (a * a * a * a)
      ≤ fl (fl (fl (duration + postroll) + preroll) * fl (rate : ℚ)) / speed := by
    calc (duration + postroll + preroll) * rate / speed * (a * a * a * a)
        = (duration + postroll + preroll) * rate * (a * a * a * a) / speed := by ring
      _ ≤ fl (fl (fl (duration + postroll) + preroll) * fl (rate : ℚ)) / speed :=
        div_le_div_of_nonneg_right l4 hspeed.le
  have u5' : fl (fl (fl (duration + postroll) + preroll) * fl (rate : ℚ)) / speed
      ≤ (duration + postroll + preroll) * rate / speed * (b * b * b * b) := by
    calc fl (fl (fl (duration + postroll) + preroll) * fl (rate : ℚ)) / speed
        ≤ (duration + postroll + preroll) * rate * (b * b * b * b) / speed :=
        div_le_div_of_nonneg_right u4 hspeed.le
      _ = (duration + postroll + preroll) * rate / speed * (b * b * b * b) := by ring
  have n6 : (1 : ℚ) / 2 ^ 126
      ≤ fl (fl (fl (duration + postroll) + preroll) * fl (rate : ℚ)) / speed := by
    have h1 : 1 / 2 ^ 100 * (1 / 2 * (1 / 2)) * (1 * (1 / 2)) * (1 / 2)
        ≤ fl (fl (fl (duration + postroll) + preroll) * fl (rate : ℚ)) := le_trans n5 l4
    rw [le_div_iff₀ hspeed]
    calc (1 : ℚ) / 2 ^ 126 * speed ≤ 1 / 2 ^ 126 * 2 ^ 20 :=
        mul_le_mul_of_nonneg_left hfast (by norm_num)
      _ ≤ 1 / 2 ^ 100 * (1 / 2 * (1 / 2)) * (1 * (1 / 2)) * (1 / 2) := by norm_num
      _ ≤ _ := h1
  obtain ⟨l5, u5⟩ := step ((duration + postroll + preroll) * rate / speed) (a * a * a * a)
    (b * b * b * b) _ l5' u5' n6
  constructor
  · calc (duration + postroll + preroll) * rate / speed * a ^ 5
        = (duration + postroll + preroll) * rate / speed * (a * a * a * a * a) := by ring
      _ ≤ _ := l5
  · calc fl (fl (fl (fl (duration + postroll) + preroll) * fl (rate : ℚ)) / speed)
        ≤ (duration + postroll + preroll) * rate / speed * (b * b * b * b * b) := u5
      _ = (duration + postroll + preroll) * rate / speed * b ^ 5 := by ring

/-- C5, as stated, fails: `float` sums are rounded. For a scene of 16777216 s with a postroll
of 1 s, at 1 frame per second and speed 1, the sum `16777217` is not a `float` and rounds to
`16777216`: the code counts 16777216 frames, the formula 16777217. -/
theorem prepare_framesCount_rounded :
    (({ Recorder.blank with postroll := 1, exportFramerate := 1 } : Recorder).prepare
      0 16777216 1).framesCount = 16777216 ∧
    ⌈((16777216 : ℚ) + 1 + 0) * ((1 : ℤ) : ℚ) / 1⌉ = 16777217 := by
  decide!

/-- C5, amended. For non-negative preroll, duration and postroll, a positive frame rate (an
`int`) and a positive speed, as long as the exact product of the total time and the frame
rate is at most `2 ^ 120` and the `float` value `F` of the expression, each operation
rounded to binary32, is at most `2 ^ 31 - 1`: no operation overflows and `prepare` sets
`framesCount` to `⌈F⌉`. When moreover the duration is at least `2 ^ (-100)` and the speed at
most `2 ^ 20`, so that no intermediate result is subnormal, `F` is within the factors
`(1 ± 2 ^ (-24)) ^ 5` of the exact value `x = (duration + postroll + preroll) * frameRate /
speed`, and `framesCount` lies between the ceilings of `x (1 - 2 ^ (-24)) ^ 5` and of
`x (1 + 2 ^ (-24)) ^ 5`. When the five operations are exact, `framesCount = ⌈x⌉`. -/
theorem prepare_framesCount (r : Recorder) (preroll duration speed : ℚ)
    (hpre : 0 ≤ preroll) (hdur : 0 ≤ duration) (hpost : 0 ≤ r.postroll)
    (hrate : 0 < r.exportFramerate) (hrate' : r.exportFramerate < 2 ^ 31) (hspeed : 0 < speed)
    (hprod : (duration + r.postroll + preroll) * r.exportFramerate ≤ 2 ^ 120)
    (hint : f32div (f32mul (f32add (f32add duration r.postroll) preroll)
      (f32ofInt r.exportFramerate)) speed ≤ 2 ^ 31 - 1) :
    ((r.prepare preroll duration speed).framesCount : ℤ)
      = ⌈f32div (f32mul (f32add (f32add duration r.postroll) preroll)
          (f32ofInt r.exportFramerate)) speed⌉ ∧
    (1 / 2 ^ 100 ≤ duration → speed ≤ 2 ^ 20 →
      (duration + r.postroll + preroll) * r.exportFramerate / speed * (1 - 1 / 2 ^ 24) ^ 5
        ≤ f32div (f32mul (f32add (f32add duration r.postroll) preroll)
          (f32ofInt r.exportFramerate)) speed ∧
      f32div (f32mul (f32add (f32add duration r.postroll) preroll)
          (f32ofInt r.exportFramerate)) speed
        ≤ (duration + r.postroll + preroll) * r.exportFramerate / speed
          * (1 + 1 / 2 ^ 24) ^ 5 ∧
      ⌈(duration + r.postroll + preroll) * r.exportFramerate / speed * (1 - 1 / 2 ^ 24) ^ 5⌉
        ≤ ((r.prepare preroll duration speed).framesCount : ℤ) ∧
      ((r.prepare preroll duration speed).framesCount : ℤ)
        ≤ ⌈(duration + r.postroll + preroll) * r.exportFramerate / speed
          * (1 + 1 / 2 ^ 24) ^ 5⌉) ∧
    (fl (duration + r.postroll) = duration + r.postroll →
      fl (duration + r.postroll + preroll) = duration + r.postroll + preroll →
      fl (r.exportFramerate : ℚ) = r.exportFramerate →
      fl ((duration + r.postroll + preroll) * r.exportFramerate)
        = (duration + r.postroll + preroll) * r.exportFramerate →
      fl ((duration + r.postroll + preroll) * r.exportFramerate / speed)
        = (duration + r.postroll + preroll) * r.exportFramerate / speed →
      ((r.prepare preroll duration speed).framesCount : ℤ)
        = ⌈(duration + r.postroll + preroll) * r.exportFramerate / speed⌉) := by
  have hmax : (2 : ℚ) ^ 31 - 1 ≤ FLT_MAX :=
    le_trans (by norm_num) two_pow_125_le_FLT_MAX
  obtain ⟨heval, h0⟩ := prepare_eval r.postroll preroll duration speed r.exportFramerate
    hpre hdur hpost hrate hrate' hspeed hprod (le_trans hint hmax)
  have hcount : ((r.prepare preroll duration speed).framesCount : ℤ)
      = ⌈f32div (f32mul (f32add (f32add duration r.postroll) preroll)
          (f32ofInt r.exportFramerate)) speed⌉ := by
    show (toSizeT (F32.toInt (F32.ceil (F32.div
        (F32.mul (F32.add (F32.add (F32.finite duration) (F32.finite r.postroll))
          (F32.finite preroll)) (F32.ofInt r.exportFramerate)) (F32.finite speed)))) : ℤ) = _
    rw [heval]
    exact toSizeT_toInt_ceil _ h0 hint
  refine ⟨hcount, fun hlow hfast => ?_, fun hsum1 hsum2 hconv hmul hdiv => ?_⟩
  · obtain ⟨lo, hi⟩ := prepare_bracket r.postroll preroll duration speed r.exportFramerate
      hpre hpost hrate hspeed hlow hfast
    refine ⟨lo, hi, ?_, ?_⟩
    · rw [hcount]
      exact Int.ceil_le_ceil lo
    · rw [hcount]
      exact Int.ceil_le_ceil hi
  · rw [hcount]
    simp only [f32div, f32mul, f32add, f32ofInt, hsum1, hsum2, hconv, hmul, hdiv]

/-- C5, amended, at preroll 1 s, duration 10 s, postroll 2 s, 60 frames per second and
speed 1: 780 frames, the exact value; and at a duration of `0.1f` s alone, 30 frames per
second and speed 1, where the product is rounded: 3 frames. -/
theorem prepare_framesCount_witness :
    (({ Recorder.blank with postroll := 2, exportFramerate := 60 } : Recorder).prepare
      1 10 1).framesCount = 780 ∧
    (({ Recorder.blank with postroll := 2, exportFramerate := 60 } : Recorder).prepare
      1 10 1).isRecording = false ∧
    ((({ Recorder.blank with postroll := 2, exportFramerate := 60 } : Recorder).prepare
      1 10 1).framesCount : ℤ) = ⌈((10 : ℚ) + 2 + 1) * ((60 : ℤ) : ℚ) / 1⌉ ∧
    (({ Recorder.blank with postroll := 0, exportFramerate := 30 } : Recorder).prepare
      0 (13421773 / 134217728) 1).framesCount = 3 ∧
    ((({ Recorder.blank with postroll := 0, exportFramerate := 30 } : Recorder).prepare
      0 (13421773 / 134217728) 1).framesCount : ℤ)
      = ⌈f32div (f32mul (f32add (f32add (13421773 / 134217728) 0) 0) (f32ofInt 30)) 1⌉ :=
  ⟨by decide!, by decide!,
    (prepare_framesCount { Recorder.blank with postroll := 2, exportFramerate := 60 } 1 10 1
      (by decide!) (by decide!) (by decide!) (by decide!) (by decide!) (by decide!)
      (by decide!) (by decide!)).2.2 (by decide!) (by decide!) (by decide!) (by decide!)
      (by decide!),
    by decide!,
    (prepare_framesCount { Recorder.blank with postroll := 0, exportFramerate := 30 } 0
      (13421773 / 134217728) 1
      (by decide!) (by decide!) (by decide!) (by decide!) (by decide!) (by decide!)
      (by decide!) (by decide!)).1⟩

/-- Outside these bounds the conversion to `int` is out of range and the count is
`size_t(INT_MIN) = 2 ^ 64 - 2 ^ 31`: when the ceiling is `2 ^ 31` or more (6000000000 s at 1
frame per second), when the product overflows to an infinity (`2 ^ 127` s at 4 frames per
second, whatever the speed), and for a speed of zero. A negative ceiling wraps around:
`-5` gives `2 ^ 64 - 5`. -/
theorem prepare_out_of_range :
    (({ Recorder.blank with postroll := 0, exportFramerate := 1 } : Recorder).prepare
      0 6000000000 1).framesCount = 2 ^ 64 - 2 ^ 31 ∧
    (({ Recorder.blank with postroll := 0, exportFramerate := 4 } : Recorder).prepare
      0 (2 ^ 127) (2 ^ 100)).framesCount = 2 ^ 64 - 2 ^ 31 ∧
    (({ Recorder.blank with postroll := 0, exportFramerate := 1 } : Recorder).prepare
      0 1 0).framesCount = 2 ^ 64 - 2 ^ 31 ∧
    (({ Recorder.blank with postroll := 0, exportFramerate := 1 } : Recorder).prepare
      0 (-5) 1).framesCount = 2 ^ 64 - 5 := by
  decide!

/-! ## The arithmetic of `int` -/

theorem tmod_two (w : ℤ) : w.tmod 2 = if 0 ≤ w then w % 2 else -((-w) % 2) := by
  cases w with
  | ofNat m =>
    have h : (0 : ℤ) ≤ Int.ofNat m := Int.ofNat_nonneg m
    rw [if_pos h]
    exact Int.tmod_eq_emod h (by norm_num)
  | negSucc m =>
    have h : ¬ (0 : ℤ) ≤ Int.negSucc m := by
      have := Int.negSucc_lt_zero m
      omega
    rw [if_neg h]
    show -(((m + 1) % 2 : ℕ) : ℤ) = _
    have e : -Int.negSucc m = ((m + 1 : ℕ) : ℤ) := rfl
    rw [e]
    norm_cast

/-- The component `w + w % 2` that `setSize` stores, for an `int` other than `INT_MAX`. -/
theorem wrapInt_add_tmod (w : ℤ) (hlo : -2 ^ 31 ≤ w) (hhi : w < 2 ^ 31 - 1) :
    wrapInt (w + w.tmod 2)
      = if w % 2 = 0 then w else if 0 < w then w + 1 else w - 1 := by
  rw [tmod_two]
  unfold wrapInt
  split_ifs <;> omega

/-! ## C6: the export size is made even -/

/-- C6, as stated, fails for a negative odd component: `-3 % 2` is `-1` in C++, so `-3` is
stored as `-4`, not as `-3 + 1`. -/
theorem setSize_negative_odd :
    (Recorder.blank.setSize (-3, 601)).size = (-4, 602) ∧ (-4 : ℤ) ≠ -3 + 1 := by
  decide

/-- C6, amended. For every requested size of `int` components other than `INT_MAX`, the
stored components are both even; an even component is kept, an odd positive one is rounded
up by adding 1, an odd negative one is moved away from zero by subtracting 1; and `setSize`
is idempotent. -/
theorem setSize_even (r : Recorder) (w h : ℤ) (hw : -2 ^ 31 ≤ w ∧ w < 2 ^ 31 - 1)
    (hh : -2 ^ 31 ≤ h ∧ h < 2 ^ 31 - 1) :
    (r.setSize (w, h)).size.1 % 2 = 0 ∧ (r.setSize (w, h)).size.2 % 2 = 0 ∧
    (r.setSize (w, h)).size.1 = (if w % 2 = 0 then w else if 0 < w then w + 1 else w - 1) ∧
    (r.setSize (w, h)).size.2 = (if h % 2 = 0 then h else if 0 < h then h + 1 else h - 1) ∧
    (r.setSize (w, h)).setSize (r.setSize (w, h)).size = r.setSize (w, h) := by
  have e1 := wrapInt_add_tmod w hw.1 hw.2
  have e2 := wrapInt_add_tmod h hh.1 hh.2
  have s1 : (r.setSize (w, h)).size.1 = wrapInt (w + w.tmod 2) := rfl
  have s2 : (r.setSize (w, h)).size.2 = wrapInt (h + h.tmod 2) := rfl
  have p1 : (r.setSize (w, h)).size.1 % 2 = 0 := by
    rw [s1, e1]; split_ifs <;> omega
  have p2 : (r.setSize (w, h)).size.2 % 2 = 0 := by
    rw [s2, e2]; split_ifs <;> omega
  refine ⟨p1, p2, by rw [s1, e1], by rw [s2, e2], ?_⟩
  have b1 : -2 ^ 31 ≤ (r.setSize (w, h)).size.1 ∧ (r.setSize (w, h)).size.1 < 2 ^ 31 - 1 := by
    rw [s1, e1]; split_ifs <;> omega
  have b2 : -2 ^ 31 ≤ (r.setSize (w, h)).size.2 ∧ (r.setSize (w, h)).size.2 < 2 ^ 31 - 1 := by
    rw [s2, e2]; split_ifs <;> omega
  have i1 := wrapInt_add_tmod _ b1.1 b1.2
  have i2 := wrapInt_add_tmod _ b2.1 b2.2
  rw [if_pos p1] at i1
  rw [if_pos p2] at i2
  show ({ r.setSize (w, h) with
    size := (wrapInt ((r.setSize (w, h)).size.1 + (r.setSize (w, h)).size.1.tmod 2),
      wrapInt ((r.setSize (w, h)).size.2 + (r.setSize (w, h)).size.2.tmod 2)) } : Recorder)
      = r.setSize (w, h)
  rw [i1, i2]

/-- C6, amended, at the requested size 801 x 601, stored as 802 x 602. -/
theorem setSize_even_witness :
    ((-2 ^ 31 : ℤ) ≤ 801 ∧ (801 : ℤ) < 2 ^ 31 - 1) ∧
    ((-2 ^ 31 : ℤ) ≤ 601 ∧ (601 : ℤ) < 2 ^ 31 - 1) ∧
    (Recorder.blank.setSize (801, 601)).size = (802, 602) ∧
    (Recorder.blank.setSize (801, 601)).size.1 % 2 = 0 :=
  ⟨by decide, by decide, by decide,
    (setSize_even Recorder.blank 801 601 (by decide) (by decide)).1⟩

/-! ## Decimal strings -/

theorem log10Aux_le (fuel : Nat) : ∀ n, 0 < n → 10 ^ log10Aux fuel n ≤ n := by
  induction fuel with
  | zero => intro n hn; simpa [log10Aux] using hn
  | succ fuel ih =>
    intro n hn
    unfold log10Aux
    split_ifs with h
    · have := ih (n / 10) (by omega)
      rw [pow_succ]
      omega
    · simpa using hn

theorem lt_log10Aux (fuel : Nat) : ∀ n, n ≤ fuel → n < 10 ^ (log10Aux fuel n + 1) := by
  induction fuel with
  | zero => intro n hn; simp [log10Aux]; omega
  | succ fuel ih =>
    intro n hn
    unfold log10Aux
    split_ifs with h
    · have := ih (n / 10) (by omega)
      rw [pow_succ]
      omega
    · simp; omega

/-- The width computed for a `float` that is a natural number. -/
theorem ceilLog10f_natCast (N : ℕ) :
    ceilLog10f (N : ℚ) =
      if N ≤ 10 ^ nlog10 N then nlog10 N
      else if nlog10 N = 0 then 1
      else if (N : ℚ) ^ 2 ^ (24 - nlog2 (nlog10 N))
          < 10 ^ (nlog10 N * 2 ^ (24 - nlog2 (nlog10 N)) + 1) then nlog10 N
      else nlog10 N + 1 := by
  have hf : ⌊(N : ℚ)⌋.toNat = N := by rw [Int.floor_natCast, Int.toNat_natCast]
  have hc : ((N : ℚ) ≤ 10 ^ nlog10 N) ↔ N ≤ 10 ^ nlog10 N := by exact_mod_cast Iff.rfl
  unfold ceilLog10f
  rw [hf]
  simp only [hc]

/-- The test of `ceilLog10f` in terms of the logarithm: `x ^ (2 ^ m) < 10 ^ (k * 2 ^ m + 1)`
says that `log₁₀ x` is below `k + 2 ^ (-m)`. -/
theorem pow_lt_iff_logb_lt (x : ℚ) (hx : 0 < x) (k m : ℕ) :
    x ^ 2 ^ m < 10 ^ (k * 2 ^ m + 1) ↔ Real.logb 10 (x : ℝ) < k + 1 / 2 ^ m := by
  have hx' : (0 : ℝ) < (x : ℝ) := by exact_mod_cast hx
  have h1 : (x ^ 2 ^ m < 10 ^ (k * 2 ^ m + 1)) ↔
      ((x : ℝ) ^ 2 ^ m < (10 : ℝ) ^ (k * 2 ^ m + 1)) := by
    constructor
    · intro h; exact_mod_cast h
    · intro h; exact_mod_cast h
  have h2 : Real.logb 10 ((x : ℝ) ^ 2 ^ m) = (2 : ℝ) ^ m * Real.logb 10 (x : ℝ) := by
    rw [← Real.rpow_natCast, Real.logb_rpow_eq_mul_logb_of_pos hx']
    push_cast
    ring
  have h3 : Real.logb 10 ((10 : ℝ) ^ (k * 2 ^ m + 1)) = (k : ℝ) * 2 ^ m + 1 := by
    rw [← Real.rpow_natCast, Real.logb_rpow (by norm_num) (by norm_num)]
    push_cast
    ring
  have hp : (0 : ℝ) < 2 ^ m := by positivity
  have key := Real.logb_lt_logb_iff (show (1 : ℝ) < 10 by norm_num)
    (show (0 : ℝ) < (x : ℝ) ^ 2 ^ m by positivity)
    (show (0 : ℝ) < (10 : ℝ) ^ (k * 2 ^ m + 1) by positivity)
  rw [h1, ← key, h2, h3]
  constructor
  · intro h
    have : Real.logb 10 (x : ℝ) * 2 ^ m < ((k : ℝ) + 1 / 2 ^ m) * 2 ^ m := by
      have e : ((k : ℝ) + 1 / 2 ^ m) * 2 ^ m = (k : ℝ) * 2 ^ m + 1 := by
        field_simp
      rw [e]
      linarith
    exact lt_of_mul_lt_mul_right this hp.le
  · intro h
    have e : ((k : ℝ) + 1 / 2 ^ m) * 2 ^ m = (k : ℝ) * 2 ^ m + 1 := by
      field_simp
    have := mul_lt_mul_of_pos_right h hp
    rw [e] at this
    linarith

/-- The width `ceilLog10f` in terms of the logarithm, for a natural number `N ≥ 10`: with
`k = ⌊log₁₀ N⌋` (at least 1) and `e = ⌊log₂ k⌋`, so that the `float` after `k` is
`k + 2 ^ (e - 23)`, the width is `k` when `log₁₀ N` is below the midpoint `k + 2 ^ (e - 24)`
of the two and `k + 1` otherwise. -/
theorem ceilLog10f_logb (N : ℕ) (hN : 10 ≤ N) :
    (nlog10 N : ℝ) ≤ Real.logb 10 N ∧ Real.logb 10 N < nlog10 N + 1 ∧
    1 ≤ nlog10 N ∧ 2 ^ nlog2 (nlog10 N) ≤ nlog10 N ∧ nlog10 N < 2 ^ (nlog2 (nlog10 N) + 1) ∧
    ceilLog10f (N : ℚ) =
      if Real.logb 10 N < nlog10 N + 1 / 2 ^ (24 - nlog2 (nlog10 N)) then nlog10 N
      else nlog10 N + 1 := by
  have hpos : 0 < N := by omega
  have hN' : (0 : ℝ) < N := by exact_mod_cast hpos
  have hlo : 10 ^ nlog10 N ≤ N := log10Aux_le N N hpos
  have hhi : N < 10 ^ (nlog10 N + 1) := lt_log10Aux N N (le_refl _)
  have hk1 : 1 ≤ nlog10 N := by
    by_contra hc
    have h0 : nlog10 N = 0 := by omega
    rw [h0] at hhi
    omega
  have e1 : Real.logb 10 ((10 : ℝ) ^ nlog10 N) = nlog10 N := by
    rw [← Real.rpow_natCast, Real.logb_rpow (by norm_num) (by norm_num)]
  have e2 : Real.logb 10 ((10 : ℝ) ^ (nlog10 N + 1)) = nlog10 N + 1 := by
    rw [← Real.rpow_natCast, Real.logb_rpow (by norm_num) (by norm_num)]
    push_cast
    ring
  have l1 : (nlog10 N : ℝ) ≤ Real.logb 10 N := by
    rw [← e1]
    exact Real.logb_le_logb_of_le (by norm_num) (by positivity) (by exact_mod_cast hlo)
  have l2 : Real.logb 10 N < nlog10 N + 1 := by
    rw [← e2]
    exact Real.logb_lt_logb (by norm_num) hN' (by exact_mod_cast hhi)
  refine ⟨l1, l2, hk1, log2Aux_le _ _ hk1, lt_log2Aux _ _ (le_refl _), ?_⟩
  have hiff := pow_lt_iff_logb_lt (N : ℚ) (by exact_mod_cast hpos) (nlog10 N)
    (24 - nlog2 (nlog10 N))
  rw [show ((N : ℚ) : ℝ) = (N : ℝ) by norm_cast] at hiff
  have hk0 : ¬ nlog10 N = 0 := by omega
  rw [ceilLog10f_natCast]
  by_cases h1 : N ≤ 10 ^ nlog10 N
  · have hNeq : N = 10 ^ nlog10 N := le_antisymm h1 hlo
    have hlog : Real.logb 10 N = nlog10 N := by
      conv_lhs => rw [hNeq]
      push_cast
      exact e1
    rw [if_pos h1, if_pos]
    rw [hlog]
    have : (0 : ℝ) < 1 / 2 ^ (24 - nlog2 (nlog10 N)) := by positivity
    linarith
  · rw [if_neg h1, if_neg hk0]
    by_cases h2 : (N : ℚ) ^ 2 ^ (24 - nlog2 (nlog10 N))
        < 10 ^ (nlog10 N * 2 ^ (24 - nlog2 (nlog10 N)) + 1)
    · rw [if_pos h2, if_pos (hiff.mp h2)]
    · rw [if_neg h2, if_neg (fun h => h2 (hiff.mpr h))]

/-- C8. When the width or the height of the frame differs from the export size, `record`
returns with `currentFrame` set to `framesCount` and nothing else changed: no worker is
joined or started, no event is added to the trace, the playback time is not advanced; hence
`isRecording` is false afterwards, whatever the frame index was. -/
theorem record_size_mismatch (build : Build) (r : Recorder) (frame : Framebuffer)
    (hsize : frame.width ≠ r.size.1 ∨ frame.height ≠ r.size.2) :
    r.record build frame = some { r with currentFrame := r.framesCount } ∧
    ∀ r', r.record build frame = some r' →
      r'.currentFrame = r.framesCount ∧ r'.isRecording = false ∧ r'.trace = r.trace ∧
      r'.savingThreads = r.savingThreads ∧ r'.savingBuffers = r.savingBuffers ∧
      r'.video = r.video ∧ r'.currentTime = r.currentTime ∧ r'.framesCount = r.framesCount := by
  have h : r.record build frame = some { r with currentFrame := r.framesCount } := by
    unfold Recorder.record
    rw [if_pos hsize]
  refine ⟨h, fun r' hr' => ?_⟩
  rw [h] at hr'
  cases hr'
  simp [Recorder.isRecording]

/-- C8 at frame 5 of 100: an 800 x 600 frame for a 1280 x 720 export. -/
theorem record_size_mismatch_witness :
    ((800 : Int) ≠ 1280 ∨ (600 : Int) ≠ 720) ∧
    ({ Recorder.blank with size := (1280, 720), currentFrame := 5, framesCount := 100 }
      : Recorder).isRecording = true ∧
    (({ Recorder.blank with size := (1280, 720), currentFrame := 5, framesCount := 100 }
      : Recorder).record Build.video { width := 800, height := 600, pixels := [] }).map
        Recorder.isRecording = some false :=
  ⟨by decide, by decide, by
    rw [(record_size_mismatch Build.video
      { Recorder.blank with size := (1280, 720), currentFrame := 5, framesCount := 100 }
      { width := 800, height := 600, pixels := [] } (by decide)).1]
    decide⟩

/-! ## C9: an unsupported format is rejected -/

theorem format_toInt_range (format : Format) : 0 ≤ format.toInt ∧ format.toInt ≤ 3 := by
  cases format <;> decide

theorem toSizeT_format (format : Format) : (toSizeT format.toInt : ℤ) = format.toInt := by
  cases format <;> decide

/-- C9. When `int(format)` is not below the number of available formats, `setParameters`
returns `false` and the recorder is unchanged (path, format, frame rate, bit rate, postroll
and both flags included); otherwise it returns `true`. A recorder constructed in a build
without video support offers the PNG format alone, so every video format is rejected. -/
theorem setParameters_unsupported (r : Recorder) (path : CppString) (format : Format)
    (framerate bitrate : Int) (postroll : ℚ) (skipBackground fixPremultiply : Bool) :
    ((r.formats.length : ℤ) ≤ format.toInt →
      r.setParameters path format framerate bitrate postroll skipBackground fixPremultiply
        = (r, false)) ∧
    (format.toInt < (r.formats.length : ℤ) →
      (r.setParameters path format framerate bitrate postroll skipBackground
        fixPremultiply).2 = true) ∧
    (∀ (numThreads : Int) (threaded : Bool), format ≠ Format.PNG →
      (Recorder.construct { supportVideo := false, ffmpegUseThreads := threaded } numThreads
          r).setParameters path format framerate bitrate postroll skipBackground fixPremultiply
        = (Recorder.construct { supportVideo := false, ffmpegUseThreads := threaded } numThreads
          r, false)) := by
  have hrej : ∀ q : Recorder, (q.formats.length : ℤ) ≤ format.toInt →
      q.setParameters path format framerate bitrate postroll skipBackground fixPremultiply
        = (q, false) := by
    intro q h
    have h2 : toSizeT format.toInt ≥ q.formats.length := by
      have := toSizeT_format format
      omega
    unfold Recorder.setParameters
    rw [if_pos h2]
  refine ⟨hrej r, fun h => ?_, fun numThreads threaded hne => ?_⟩
  · have h2 : ¬ toSizeT format.toInt ≥ r.formats.length := by
      have := toSizeT_format format
      omega
    unfold Recorder.setParameters
    rw [if_neg h2]
    simp only
    split_ifs <;> rfl
  · apply hrej
    have : (Recorder.construct { supportVideo := false, ffmpegUseThreads := threaded }
        numThreads r).formats.length = 1 := by
      simp [Recorder.construct]
    rw [this]
    cases format
    · exact absurd rfl hne
    all_goals decide

/-- C9 for the MPEG4 format on a recorder that offers PNG alone. -/
theorem setParameters_unsupported_witness :
    (((Recorder.construct Build.stills 4 Recorder.blank).formats.length : ℤ)
      ≤ Format.MPEG4.toInt) ∧
    (Recorder.construct Build.stills 4 Recorder.blank).setParameters "out.mp4".toList
        Format.MPEG4 30 20 1 true true
      = (Recorder.construct Build.stills 4 Recorder.blank, false) :=
  ⟨by decide,
    (setParameters_unsupported (Recorder.construct Build.stills 4 Recorder.blank)
      "out.mp4".toList Format.MPEG4 30 20 1 true true).1 (by decide)⟩

/-! ## C10: a failed video setup -/

/-- C10, what the code does: `start` does not look at the flag `initVideo` returns. For a
video format, when no worker is joinable and there is at least one frame to export, `start`
returns normally with `currentFrame = 0`, so `isRecording` is true, also when `initVideo`
has failed. -/
theorem start_ignores_initVideo (build : Build) (av : AVCalls) (r : Recorder)
    (hformat : r.outFormat ≠ Format.PNG)
    (hfail : (Recorder.initVideo build av { r with currentFrame := 0 } r.outFormat).2 = false)
    (hthreads : ∀ t ∈ r.savingThreads, t = none) (hframes : 0 < r.framesCount) :
    ∃ r', r.start build av = some r' ∧ r'.isRecording = true ∧
      r'.trace = r.trace ++ [Event.initVideo false] := by
  have hall : (Recorder.initVideo build av { r with currentFrame := 0 }
      r.outFormat).1.savingThreads.all (fun t => t.isNone) = true := by
    rw [List.all_eq_true]
    intro t ht
    rw [hthreads t ht]
    rfl
  refine ⟨{ (Recorder.initVideo build av { r with currentFrame := 0 } r.outFormat).1 with
      savingThreads := (Recorder.initVideo build av { r with currentFrame := 0 }
        r.outFormat).1.savingThreads.map (fun _ => none) }, ?_, ?_, ?_⟩
  · unfold Recorder.start
    dsimp only
    rw [if_pos hformat, if_pos hall]
  · simp only [Recorder.isRecording, Recorder.initVideo, decide_eq_true_eq]
    exact hframes
  · have hinit : (r.video.init build av r.outFormat).2 = false := hfail
    show r.trace ++ [Event.initVideo (r.video.init build av r.outFormat).2] = _
    rw [hinit]

/-- C10 at a 780 frame MPEG4 export for which no encoder is found: the recorder is still
recording after `start`, and the next `record` dereferences a null scratch frame. -/
theorem start_ignores_initVideo_witness :
    (∃ r', ({ Recorder.construct Build.video 4 Recorder.blank with
          outFormat := Format.MPEG4, framesCount := 780, currentFrame := 780 }
        : Recorder).start Build.video (AVCalls.sample false) = some r' ∧
      r'.isRecording = true ∧ r'.trace = [] ++ [Event.initVideo false]) ∧
    (({ Recorder.construct Build.video 4 Recorder.blank with
          outFormat := Format.MPEG4, framesCount := 780, currentFrame := 780 }
        : Recorder).start Build.video (AVCalls.sample false)).bind
      (fun r' => (r'.record Build.video { width := 0, height := 0, pixels := [] }).map
        Recorder.isRecording) = none :=
  ⟨start_ignores_initVideo Build.video (AVCalls.sample false)
    { Recorder.construct Build.video 4 Recorder.blank with
        outFormat := Format.MPEG4, framesCount := 780, currentFrame := 780 }
    (by decide) (by decide) (by decide) (by decide), by decide⟩

/-! ## The recorder: the steps of `record` -/

theorem record_eq (build : Build) (r : Recorder) (frame : Framebuffer) :
    r.record build frame
      = if frame.width ≠ r.size.1 ∨ frame.height ≠ r.size.2 then
          some { r with currentFrame := r.framesCount }
        else
          ((((r.joinSlot build (r.currentFrame % r.savingThreads.length)).readback
            (r.currentFrame % r.savingThreads.length) frame).dispatch build
            (r.currentFrame % r.savingThreads.length)).map (Recorder.finish build)) := by
  unfold Recorder.record
  by_cases h : frame.width ≠ r.size.1 ∨ frame.height ≠ r.size.2
  · rw [if_pos h, if_pos h]
  · rw [if_neg h, if_neg h]
    cases hd : ((r.joinSlot build (r.currentFrame % r.savingThreads.length)).readback
        (r.currentFrame % r.savingThreads.length) frame).dispatch build
        (r.currentFrame % r.savingThreads.length) with
    | none =>
      have hd' := hd
      unfold Recorder.dispatch Recorder.readback at hd'
      dsimp only at hd' ⊢
      rw [hd']
      rfl
    | some r4 =>
      have hd' := hd
      unfold Recorder.dispatch Recorder.readback at hd'
      dsimp only at hd' ⊢
      rw [hd']
      rfl
theorem set_none_of_getD_none (threads : List (Option Task)) (slot : Nat)
    (h : threads.getD slot none = none) : threads.set slot none = threads := by
  apply List.ext_getElem? 
  intro n
  rw [List.getElem?_set]
  by_cases hn : slot = n
  · subst hn
    rw [if_pos rfl]
    by_cases hl : slot < threads.length
    · rw [if_pos hl]
      rw [List.getD_eq_getElem?_getD, List.getElem?_eq_getElem hl] at h
      rw [List.getElem?_eq_getElem hl]
      simpa using h.symm
    · rw [if_neg hl, List.getElem?_eq_none (by omega)]
  · rw [if_neg hn]

theorem getD_set_threads (threads : List (Option Task)) (slot j : Nat) (t : Option Task) :
    (threads.set slot t).getD j none
      = if slot = j ∧ slot < threads.length then t else threads.getD j none := by
  simp only [List.getD_eq_getElem?_getD, List.getElem?_set]
  by_cases h : slot = j
  · subst h
    by_cases h2 : slot < threads.length
    · simp [h2]
    · simp [h2, List.getElem?_eq_none (Nat.le_of_not_lt h2)]
  · simp [h]

/-- What joining the worker of a slot changes: the thread of the slot, its buffer, and the
trace, which gets the event `join` when the thread was joinable. -/
theorem joinSlot_spec (build : Build) (r : Recorder) (slot : Nat) :
    (r.joinSlot build slot).video = r.video ∧
    (r.joinSlot build slot).outFormat = r.outFormat ∧
    (r.joinSlot build slot).size = r.size ∧
    (r.joinSlot build slot).currentFrame = r.currentFrame ∧
    (r.joinSlot build slot).framesCount = r.framesCount ∧
    (r.joinSlot build slot).savingThreads = r.savingThreads.set slot none ∧
    (r.joinSlot build slot).trace
      = r.trace ++ (if (r.savingThreads.getD slot none).isSome then [Event.join slot] else []) := by
  unfold Recorder.joinSlot
  cases h : r.savingThreads.getD slot none with
  | none =>
    refine ⟨rfl, rfl, rfl, rfl, rfl, ?_, ?_⟩
    · exact (set_none_of_getD_none _ _ h).symm
    · simp
  | some t =>
    cases t <;> exact ⟨rfl, rfl, rfl, rfl, rfl, rfl, by simp⟩

theorem finish_of_ne (build : Build) (r : Recorder) (hne : r.currentFrame + 1 ≠ r.framesCount) :
    r.finish build
      = { r with
          currentTime :=
            F32.add r.currentTime (F32.div (F32.finite 1) (F32.ofInt r.exportFramerate))
          currentFrame := r.currentFrame + 1 } := by
  unfold Recorder.finish
  simp only [if_neg hne]

/-- What handing a buffer over changes: the thread of the slot or nothing among the threads,
the scratch frame of the slot for a video format, and the trace, which gets one event. -/
theorem dispatch_spec (build : Build) (r q : Recorder) (slot : Nat)
    (h : r.dispatch build slot = some q) :
    q.currentFrame = r.currentFrame ∧ q.framesCount = r.framesCount ∧
    q.outFormat = r.outFormat ∧ q.size = r.size ∧
    q.video.formatCtx = r.video.formatCtx ∧ q.video.codec = r.video.codec ∧
    q.video.codecCtx = r.video.codecCtx ∧ q.video.stream = r.video.stream ∧
    q.video.swsContexts = r.video.swsContexts ∧
    ((∃ task, q.trace = r.trace ++ [Event.spawn slot task] ∧
        q.savingThreads = r.savingThreads.set slot (some task)) ∨
      (∃ task, q.trace = r.trace ++ [Event.inline task] ∧
        q.savingThreads = r.savingThreads)) := by
  unfold Recorder.dispatch at h
  by_cases hf : r.outFormat = Format.PNG
  · rw [if_pos hf] at h
    cases h
    exact ⟨rfl, rfl, rfl, rfl, rfl, rfl, rfl, rfl, rfl, Or.inl ⟨_, rfl, rfl⟩⟩
  · rw [if_neg hf] at h
    cases hg : r.video.frames.getD slot none with
    | none => rw [hg] at h; cases h
    | some f =>
      rw [hg] at h
      dsimp only at h
      by_cases ht : build.ffmpegUseThreads = true
      · rw [if_pos ht] at h
        cases h
        exact ⟨rfl, rfl, rfl, rfl, rfl, rfl, rfl, rfl, rfl, Or.inl ⟨_, rfl, rfl⟩⟩
      · rw [if_neg ht] at h
        cases h
        exact ⟨rfl, rfl, rfl, rfl, rfl, rfl, rfl, rfl, rfl, Or.inr ⟨_, rfl, rfl⟩⟩

/-- A call of `record` on a recorder whose frame counter has reached the frame count: the
counter stays there, the video handles are kept and no `endVideo` is traced. -/
theorem record_after_end (build : Build) (r r' : Recorder) (frame : Framebuffer)
    (hdone : r.framesCount ≤ r.currentFrame) (h : r.record build frame = some r') :
    r'.framesCount = r.framesCount ∧ r'.framesCount ≤ r'.currentFrame ∧
    r'.video.formatCtx = r.video.formatCtx ∧ r'.video.codec = r.video.codec ∧
    r'.video.codecCtx = r.video.codecCtx ∧ r'.video.stream = r.video.stream ∧
    r'.video.swsContexts = r.video.swsContexts ∧
    ∃ events, r'.trace = r.trace ++ events ∧ Event.endVideo ∉ events := by
  rw [record_eq] at h
  by_cases hm : frame.width ≠ r.size.1 ∨ frame.height ≠ r.size.2
  · rw [if_pos hm] at h
    cases h
    exact ⟨rfl, le_refl _, rfl, rfl, rfl, rfl, rfl, [], by simp, by simp⟩
  · rw [if_neg hm, Option.map_eq_some'] at h
    obtain ⟨q, hq, hfin⟩ := h
    obtain ⟨jv, _, _, jc, jf, _, jt⟩ :=
      joinSlot_spec build r (r.currentFrame % r.savingThreads.length)
    obtain ⟨dc, df, _, _, d1, d2, d3, d4, d5, dt⟩ := dispatch_spec build _ q _ hq
    have hqc : q.currentFrame = r.currentFrame := by rw [dc]; exact jc
    have hqf : q.framesCount = r.framesCount := by rw [df]; exact jf
    rw [finish_of_ne build q (by omega)] at hfin
    subst hfin
    have hv : ((r.joinSlot build (r.currentFrame % r.savingThreads.length)).readback
        (r.currentFrame % r.savingThreads.length) frame).video = r.video := jv
    refine ⟨hqf, ?_, ?_, ?_, ?_, ?_, ?_, ?_⟩
    · show q.framesCount ≤ q.currentFrame + 1
      omega
    · show q.video.formatCtx = _
      rw [d1, hv]
    · show q.video.codec = _
      rw [d2, hv]
    · show q.video.codecCtx = _
      rw [d3, hv]
    · show q.video.stream = _
      rw [d4, hv]
    · show q.video.swsContexts = _
      rw [d5, hv]
    · have hrt : ((r.joinSlot build (r.currentFrame % r.savingThreads.length)).readback
          (r.currentFrame % r.savingThreads.length) frame).trace
          = r.trace ++ ((if (r.savingThreads.getD (r.currentFrame % r.savingThreads.length)
              none).isSome then [Event.join (r.currentFrame % r.savingThreads.length)] else [])
            ++ [Event.readPixels (r.currentFrame % r.savingThreads.length)]) := by
        show (r.joinSlot build _).trace ++ _ = _
        rw [jt, List.append_assoc]
      rcases dt with ⟨task, ht, _⟩ | ⟨task, ht, _⟩
      · refine ⟨((if (r.savingThreads.getD (r.currentFrame % r.savingThreads.length)
              none).isSome then [Event.join (r.currentFrame % r.savingThreads.length)] else [])
            ++ [Event.readPixels (r.currentFrame % r.savingThreads.length)])
            ++ [Event.spawn (r.currentFrame % r.savingThreads.length) task], ?_, ?_⟩
        · show q.trace = _
          rw [ht, hrt, List.append_assoc]
        · split_ifs <;> simp
      · refine ⟨((if (r.savingThreads.getD (r.currentFrame % r.savingThreads.length)
              none).isSome then [Event.join (r.currentFrame % r.savingThreads.length)] else [])
            ++ [Event.readPixels (r.currentFrame % r.savingThreads.length)])
            ++ [Event.inline task], ?_, ?_⟩
        · show q.trace = _
          rw [ht, hrt, List.append_assoc]
        · split_ifs <;> simp

/-- Joining the workers of a list of slots keeps everything but threads and buffers, and adds
`join` events alone to the trace. -/
theorem joinAll_spec (build : Build) (slots : List Nat) : ∀ r : Recorder,
    (slots.foldl (Recorder.joinSlot build) r).video = r.video ∧
    (slots.foldl (Recorder.joinSlot build) r).outFormat = r.outFormat ∧
    (slots.foldl (Recorder.joinSlot build) r).size = r.size ∧
    (slots.foldl (Recorder.joinSlot build) r).currentFrame = r.currentFrame ∧
    (slots.foldl (Recorder.joinSlot build) r).framesCount = r.framesCount ∧
    (slots.foldl (Recorder.joinSlot build) r).savingThreads.length = r.savingThreads.length ∧
    ∃ events, (slots.foldl (Recorder.joinSlot build) r).trace = r.trace ++ events ∧
      ∀ e ∈ events, ∃ slot, e = Event.join slot := by
  induction slots with
  | nil => intro r; exact ⟨rfl, rfl, rfl, rfl, rfl, rfl, [], by simp, by simp⟩
  | cons s slots ih =>
    intro r
    obtain ⟨a1, a2, a3, a4, a5, a6, ev, a7, a8⟩ := ih (r.joinSlot build s)
    obtain ⟨b1, b2, b3, b4, b5, b6, b7⟩ := joinSlot_spec build r s
    rw [List.foldl_cons]
    refine ⟨a1.trans b1, a2.trans b2, a3.trans b3, a4.trans b4, a5.trans b5, ?_,
      (if (r.savingThreads.getD s none).isSome then [Event.join s] else []) ++ ev, ?_, ?_⟩
    · rw [a6, b6, List.length_set]
    · rw [a7, b7, List.append_assoc]
    · intro e he
      rcases List.mem_append.mp he with h | h
      · split_ifs at h
        · exact ⟨s, by simpa using h⟩
        · simp at h
      · exact a8 e h

/-- The end of `record`: the frame counter advances, and the trace gets `join` events and
`endVideo` at most. -/
theorem finish_spec (build : Build) (r : Recorder) :
    (r.finish build).currentFrame = r.currentFrame + 1 ∧
    (r.finish build).framesCount = r.framesCount ∧
    (r.finish build).outFormat = r.outFormat ∧
    (r.finish build).size = r.size ∧
    (r.finish build).savingThreads.length = r.savingThreads.length ∧
    ∃ events, (r.finish build).trace = r.trace ++ events ∧
      ∀ e ∈ events, (∃ slot, e = Event.join slot) ∨ e = Event.endVideo := by
  obtain ⟨a1, a2, a3, a4, a5, a6, ev, a7, a8⟩ :=
    joinAll_spec build (List.range r.savingThreads.length) r
  by_cases hlast : r.currentFrame + 1 = r.framesCount
  · by_cases hf : ((List.range r.savingThreads.length).foldl (Recorder.joinSlot build)
        r).outFormat ≠ Format.PNG
    · have e : r.finish build
          = { ((List.range r.savingThreads.length).foldl (Recorder.joinSlot build) r).endVideo
              build with
              currentTime := (r.finish build).currentTime
              currentFrame := (((List.range r.savingThreads.length).foldl
                (Recorder.joinSlot build) r).endVideo build).currentFrame + 1 } := by
        unfold Recorder.finish
        simp only [if_pos hlast, if_pos hf]
      have hev : ∀ q : Recorder, (q.endVideo build).currentFrame = q.currentFrame ∧
          (q.endVideo build).framesCount = q.framesCount ∧
          (q.endVideo build).outFormat = q.outFormat ∧
          (q.endVideo build).size = q.size ∧
          (q.endVideo build).savingThreads = q.savingThreads ∧
          (q.endVideo build).trace = q.trace ++ [Event.endVideo] := by
        intro q
        unfold Recorder.endVideo
        split_ifs <;> exact ⟨rfl, rfl, rfl, rfl, rfl, rfl⟩
      obtain ⟨c1, c2, c3, c4, c5, c6⟩ := hev
        ((List.range r.savingThreads.length).foldl (Recorder.joinSlot build) r)
      rw [e]
      refine ⟨?_, ?_, ?_, ?_, ?_, ev ++ [Event.endVideo], ?_, ?_⟩
      · show (Recorder.endVideo build _).currentFrame + 1 = _
        rw [c1, a4]
      · show (Recorder.endVideo build _).framesCount = _
        rw [c2, a5]
      · show (Recorder.endVideo build _).outFormat = _
        rw [c3, a2]
      · show (Recorder.endVideo build _).size = _
        rw [c4, a3]
      · show (Recorder.endVideo build _).savingThreads.length = _
        rw [c5, a6]
      · show (Recorder.endVideo build _).trace = _
        rw [c6, a7, List.append_assoc]
      · intro e he
        rcases List.mem_append.mp he with h | h
        · exact Or.inl (a8 e h)
        · exact Or.inr (by simpa using h)
    · have e : r.finish build
          = { (List.range r.savingThreads.length).foldl (Recorder.joinSlot build) r with
              currentTime := (r.finish build).currentTime
              currentFrame := ((List.range r.savingThreads.length).foldl
                (Recorder.joinSlot build) r).currentFrame + 1 } := by
        unfold Recorder.finish
        simp only [if_pos hlast, if_neg hf]
      rw [e]
      refine ⟨?_, a5, a2, a3, a6, ev, a7, fun e he => Or.inl (a8 e he)⟩
      show ((List.range r.savingThreads.length).foldl (Recorder.joinSlot build)
        r).currentFrame + 1 = _
      rw [a4]
  · rw [finish_of_ne build r hlast]
    exact ⟨rfl, rfl, rfl, rfl, rfl, [], by simp, by simp⟩

/-! ## The recorder: the scratch frames after `initVideo` -/

theorem getD_set_frames (frames : List (Option AVFrame)) (slot j : Nat) (f : Option AVFrame) :
    (frames.set slot f).getD j none
      = if slot = j ∧ slot < frames.length then f else frames.getD j none := by
  simp only [List.getD_eq_getElem?_getD, List.getElem?_set]
  by_cases h : slot = j
  · subst h
    by_cases h2 : slot < frames.length
    · simp [h2]
    · simp [h2, List.getElem?_eq_none (Nat.le_of_not_lt h2)]
  · simp [h]

/-- When the allocation loop runs to its end, the scratch frames it went over are not null. -/
theorem allocFrames_ok (av : AVCalls) : ∀ (n i : Nat) (frames : List (Option AVFrame)),
    (allocFrames av n i frames).2 = true → i + n ≤ frames.length →
    (allocFrames av n i frames).1.length = frames.length ∧
    (∀ j, j < i → (allocFrames av n i frames).1.getD j none = frames.getD j none) ∧
    (∀ j, i ≤ j → j < i + n → ((allocFrames av n i frames).1.getD j none).isSome = true) := by
  intro n
  induction n with
  | zero =>
    intro i frames _ _
    exact ⟨rfl, fun _ _ => rfl, fun j h1 h2 => by omega⟩
  | succ n ih =>
    intro i frames hok hlen
    unfold allocFrames at hok ⊢
    by_cases h1 : (!av.frameAlloc i) = true
    · rw [if_pos h1] at hok; cases hok
    · rw [if_neg h1] at hok ⊢
      by_cases h2 : (!av.frameGetBuffer i) = true
      · rw [if_pos h2] at hok; cases hok
      · rw [if_neg h2] at hok ⊢
        obtain ⟨l, keep, fresh⟩ := ih (i + 1) (frames.set i (some { pts := 0 })) hok
          (by rw [List.length_set]; omega)
        refine ⟨by rw [l, List.length_set], fun j hj => ?_, fun j hj1 hj2 => ?_⟩
        · rw [keep j (by omega), getD_set_frames, if_neg (by omega)]
        · by_cases hji : j = i
          · subst hji
            rw [keep j (by omega), getD_set_frames, if_pos ⟨rfl, by omega⟩]
            rfl
          · exact fresh j (by omega) (by omega)

/-- When `initVideo` succeeds the scratch frames are those of the allocation loop run to its
end. -/
theorem init_ok_frames (build : Build) (av : AVCalls) (v : VideoState) (format : Format)
    (hok : (v.init build av format).2 = true) :
    (v.init build av format).1.frames = (allocFrames av v.frames.length 0 v.frames).1 ∧
    (allocFrames av v.frames.length 0 v.frames).2 = true := by
  unfold VideoState.init at hok ⊢
  dsimp only at hok ⊢
  by_cases c0 : (!build.supportVideo) = true
  · rw [if_pos c0] at hok
    exact absurd hok (by simp)
  rw [if_neg c0] at hok ⊢
  by_cases c1 : format = Format.PNG
  · rw [if_pos c1] at hok
    exact absurd hok (by simp)
  rw [if_neg c1] at hok ⊢
  by_cases c2 : (!av.allocOutputContext) = true
  · rw [if_pos c2] at hok
    exact absurd hok (by simp)
  rw [if_neg c2] at hok ⊢
  by_cases c3 : av.noFile = true
  · rw [if_pos c3] at hok
    exact absurd hok (by simp)
  rw [if_neg c3] at hok ⊢
  by_cases c4 : (!av.findEncoder) = true
  · rw [if_pos c4] at hok
    exact absurd hok (by simp)
  rw [if_neg c4] at hok ⊢
  by_cases c5 : (!av.allocContext) = true
  · rw [if_pos c5] at hok
    exact absurd hok (by simp)
  rw [if_neg c5] at hok ⊢
  by_cases c6 : (!av.open2) = true
  · rw [if_pos c6] at hok
    exact absurd hok (by simp)
  rw [if_neg c6] at hok ⊢
  by_cases c7 : (!av.newStream) = true
  · rw [if_pos c7] at hok
    exact absurd hok (by simp)
  rw [if_neg c7] at hok ⊢
  by_cases c8 : (!av.parametersFromContext) = true
  · rw [if_pos c8] at hok
    exact absurd hok (by simp)
  rw [if_neg c8] at hok ⊢
  by_cases c9 : (!(allocFrames av v.frames.length 0 v.frames).2) = true
  · rw [if_pos c9] at hok
    exact absurd hok (by simp)
  rw [if_neg c9] at hok ⊢
  by_cases c10 : (!av.avioOpen) = true
  · rw [if_pos c10] at hok
    exact absurd hok (by simp)
  rw [if_neg c10] at hok ⊢
  by_cases c11 : (!av.writeHeader) = true
  · rw [if_pos c11] at hok
    exact absurd hok (by simp)
  rw [if_neg c11] at hok ⊢
  have hall : (allocFrames av v.frames.length 0 v.frames).2 = true := by
    simpa using c9
  refine ⟨?_, hall⟩
  split_ifs <;> rfl

/-! ## The recorder: a video export, call by call -/

/-- Handing a buffer over in a video export whose scratch frame is not null: the frame is
stamped with the frame index, and the one event added carries the slot and that stamp. -/
theorem dispatch_video (build : Build) (r : Recorder) (slot : Nat)
    (hformat : r.outFormat ≠ Format.PNG)
    (hsome : (r.video.frames.getD slot none).isSome = true) :
    ∃ q, r.dispatch build slot = some q ∧
      q.video.frames = r.video.frames.set slot (some { pts := r.currentFrame }) ∧
      q.savingThreads.length = r.savingThreads.length ∧
      ∃ e, q.trace = r.trace ++ [e] ∧ e.submitted = some (slot, r.currentFrame) ∧
        (build.ffmpegUseThreads = false → e.isSpawn = false) := by
  obtain ⟨f, hf⟩ := Option.isSome_iff_exists.mp hsome
  unfold Recorder.dispatch
  rw [if_neg hformat, hf]
  dsimp only
  by_cases ht : build.ffmpegUseThreads = true
  · rw [if_pos ht]
    exact ⟨_, rfl, rfl, by simp, _, rfl, rfl,
      fun h => by rw [ht] at h; exact absurd h (by simp)⟩
  · rw [if_neg ht]
    exact ⟨_, rfl, rfl, rfl, _, rfl, rfl, fun _ => rfl⟩

theorem filterMap_submitted_nil (events : List Event)
    (h : ∀ e ∈ events, (∃ slot, e = Event.join slot) ∨ e = Event.endVideo) :
    events.filterMap Event.submitted = [] := by
  rw [List.filterMap_eq_nil_iff]
  intro e he
  rcases h e he with ⟨s, rfl⟩ | rfl <;> rfl

/-- One call of `record` in a video export: it returns, the frame counter advances, and the
one buffer handed to `writeFrameToVideo` is that of slot `currentFrame % poolSize`, its
scratch frame stamped with `currentFrame`. -/
theorem record_video_step (build : Build) (r : Recorder) (frame : Framebuffer)
    (hformat : r.outFormat ≠ Format.PNG)
    (hsize : frame.width = r.size.1 ∧ frame.height = r.size.2)
    (hpool : 0 < r.savingThreads.length)
    (hsome : ∀ j, j < r.savingThreads.length → (r.video.frames.getD j none).isSome = true) :
    ∃ r', r.record build frame = some r' ∧
      r'.currentFrame = r.currentFrame + 1 ∧ r'.framesCount = r.framesCount ∧
      r'.outFormat = r.outFormat ∧ r'.size = r.size ∧
      r'.savingThreads.length = r.savingThreads.length ∧
      (∃ events, r'.trace = r.trace ++ events ∧
        events.filterMap Event.submitted
          = [(r.currentFrame % r.savingThreads.length, r.currentFrame)] ∧
        (build.ffmpegUseThreads = false → ∀ e ∈ events, e.isSpawn = false)) ∧
      (r.currentFrame + 1 ≠ r.framesCount →
        r'.video.frames = r.video.frames.set (r.currentFrame % r.savingThreads.length)
          (some { pts := r.currentFrame })) := by
  have hslot : r.currentFrame % r.savingThreads.length < r.savingThreads.length :=
    Nat.mod_lt _ hpool
  obtain ⟨jv, jo, js, jc, jf, jth, jt⟩ :=
    joinSlot_spec build r (r.currentFrame % r.savingThreads.length)
  obtain ⟨q, hq, qframes, qlen, e, qt, qe, qs⟩ := dispatch_video build
    ((r.joinSlot build (r.currentFrame % r.savingThreads.length)).readback
      (r.currentFrame % r.savingThreads.length) frame)
    (r.currentFrame % r.savingThreads.length)
    (by show (r.joinSlot build _).outFormat ≠ _; rw [jo]; exact hformat)
    (by
      show ((r.joinSlot build _).video.frames.getD _ none).isSome = true
      rw [jv]
      exact hsome _ hslot)
  obtain ⟨dc, df, dof, ds, _, _, _, _, _, _⟩ := dispatch_spec build _ q _ hq
  obtain ⟨f1, f2, f3, f4, f5, fev, f6, f7⟩ := finish_spec build q
  have hqc : q.currentFrame = r.currentFrame := dc.trans jc
  have hqf : q.framesCount = r.framesCount := df.trans jf
  refine ⟨q.finish build, ?_, ?_, ?_, ?_, ?_, ?_, ?_, ?_⟩
  · rw [record_eq, if_neg (by rw [hsize.1, hsize.2]; simp), hq]
    rfl
  · rw [f1, hqc]
  · rw [f2, hqf]
  · rw [f3, dof]; exact jo
  · rw [f4, ds]; exact js
  · rw [f5, qlen]
    show (r.joinSlot build _).savingThreads.length = _
    rw [jth, List.length_set]
  · refine ⟨((if (r.savingThreads.getD (r.currentFrame % r.savingThreads.length) none).isSome
        then [Event.join (r.currentFrame % r.savingThreads.length)] else [])
        ++ [Event.readPixels (r.currentFrame % r.savingThreads.length)]) ++ [e] ++ fev, ?_, ?_,
        ?_⟩
    · rw [f6, qt]
      show ((r.joinSlot build _).trace ++ _) ++ _ ++ _ = _
      rw [jt]
      simp only [List.append_assoc]
    · rw [List.filterMap_append, List.filterMap_append, List.filterMap_append,
        filterMap_submitted_nil fev f7]
      have hc : (r.joinSlot build (r.currentFrame % r.savingThreads.length)).currentFrame
          = r.currentFrame := jc
      have qe' : e.submitted
          = some (r.currentFrame % r.savingThreads.length, r.currentFrame) := by
        rw [qe]
        show some (_, (r.joinSlot build _).currentFrame) = _
        rw [hc]
      have hj : (Event.join (r.currentFrame % r.savingThreads.length)).submitted = none := rfl
      have hr : (Event.readPixels (r.currentFrame % r.savingThreads.length)).submitted
          = none := rfl
      split_ifs <;> simp [List.filterMap_cons, hj, hr, qe']
    · intro ht e' he'
      rcases List.mem_append.mp he' with h | h
      · rcases List.mem_append.mp h with h | h
        · rcases List.mem_append.mp h with h | h
          · split_ifs at h
            · rw [List.mem_singleton.mp h]; rfl
            · exact absurd h (List.not_mem_nil _)
          · rw [List.mem_singleton.mp h]; rfl
        · rw [List.mem_singleton.mp h]; exact qs ht
      · rcases f7 e' h with ⟨s, rfl⟩ | rfl <;> rfl
  · intro hne
    rw [finish_of_ne build q (by rw [hqc, hqf]; exact hne)]
    show q.video.frames = _
    rw [qframes]
    show (r.joinSlot build _).video.frames.set _ (some { pts := (r.joinSlot build _).currentFrame })
      = _
    rw [jv, jc]

/-- A video export, frame after frame: every call of `record` returns, and the buffers handed
to `writeFrameToVideo` are, in this order, those of the slots `k % poolSize` with the stamps
`k`, for `k` from the first frame index on. -/
theorem recordAll_video (build : Build) : ∀ (frames : List Framebuffer) (r : Recorder),
    r.outFormat ≠ Format.PNG →
    (∀ f ∈ frames, f.width = r.size.1 ∧ f.height = r.size.2) →
    0 < r.savingThreads.length →
    r.video.frames.length = r.savingThreads.length →
    (∀ j, j < r.savingThreads.length → (r.video.frames.getD j none).isSome = true) →
    r.currentFrame + frames.length ≤ r.framesCount →
    ∃ r', r.recordAll build frames = some r' ∧
      r'.currentFrame = r.currentFrame + frames.length ∧
      (∃ events, r'.trace = r.trace ++ events ∧
        events.filterMap Event.submitted
          = (List.range frames.length).map
              (fun k => ((r.currentFrame + k) % r.savingThreads.length, r.currentFrame + k)) ∧
        (build.ffmpegUseThreads = false → ∀ e ∈ events, e.isSpawn = false)) ∧
      (frames ≠ [] → r.currentFrame + frames.length < r.framesCount →
        r'.video.frames.getD ((r.currentFrame + frames.length - 1) % r.savingThreads.length) none
          = some { pts := r.currentFrame + frames.length - 1 }) := by
  intro frames
  induction frames with
  | nil =>
    intro r _ _ _ _ _ _
    exact ⟨r, rfl, rfl, ⟨[], by simp, by simp, fun _ e he => absurd he (List.not_mem_nil _)⟩,
      fun h => absurd rfl h⟩
  | cons frame frames ih =>
    intro r hformat hsize hpool hlen hsome hcount
    rw [List.length_cons] at hcount
    obtain ⟨r1, h1, c1, f1, o1, s1, l1, ⟨ev1, t1, e1, n1⟩, v1⟩ :=
      record_video_step build r frame hformat (hsize frame (List.mem_cons_self _ _)) hpool hsome
    have hslot : r.currentFrame % r.savingThreads.length < r.video.frames.length := by
      rw [hlen]; exact Nat.mod_lt _ hpool
    by_cases hnil : frames = []
    · -- the last frame of the list
      subst hnil
      refine ⟨r1, ?_, ?_, ⟨ev1, t1, ?_, n1⟩, fun _ hlt => ?_⟩
      · simp only [Recorder.recordAll, h1, Option.some_bind]
      · rw [c1]; rfl
      · rw [e1]; rfl
      · have hne : r.currentFrame + 1 ≠ r.framesCount := by
          simp only [List.length_cons, List.length_nil] at hlt
          omega
        simp only [List.length_cons, List.length_nil, Nat.zero_add, Nat.add_sub_cancel]
        rw [v1 hne, getD_set_frames, if_pos ⟨rfl, hslot⟩]
    · have hpos : 0 < frames.length := List.length_pos.mpr hnil
      have hne : r.currentFrame + 1 ≠ r.framesCount := by omega
      have hv := v1 hne
      obtain ⟨r', h2, c2, ⟨ev2, t2, e2, n2⟩, v2⟩ := ih r1 (by rw [o1]; exact hformat)
        (fun f hf => by rw [s1]; exact hsize f (List.mem_cons_of_mem _ hf))
        (by rw [l1]; exact hpool)
        (by rw [hv, List.length_set, l1]; exact hlen)
        (fun j hj => by
          rw [hv, getD_set_frames]
          split_ifs
          · rfl
          · exact hsome j (by rw [l1] at hj; exact hj))
        (by rw [c1, f1]; omega)
      refine ⟨r', ?_, ?_, ⟨ev1 ++ ev2, ?_, ?_, fun ht e he =>
        (List.mem_append.mp he).elim (n1 ht e) (n2 ht e)⟩, fun _ hlt => ?_⟩
      · simp only [Recorder.recordAll, h1, Option.some_bind]
        exact h2
      · rw [c2, c1, List.length_cons]; omega
      · rw [t2, t1, List.append_assoc]
      · rw [List.filterMap_append, e1, e2, l1, c1, List.length_cons,
          List.range_succ_eq_map frames.length, List.map_cons, List.map_map]
        simp only [List.singleton_append, Nat.add_zero, List.cons.injEq, true_and]
        apply List.map_congr_left
        intro k _
        simp only [Function.comp, Nat.succ_eq_add_one]
        have : r.currentFrame + 1 + k = r.currentFrame + (k + 1) := by omega
        rw [this]
      · rw [List.length_cons] at hlt ⊢
        have := v2 hnil (by rw [c1, f1]; omega)
        rw [l1, c1] at this
        have e : r.currentFrame + 1 + frames.length - 1
            = r.currentFrame + (frames.length + 1) - 1 := by omega
        rw [e] at this
        exact this

/-- The recorder `start` returns when no worker is joinable: the frame counter is reset, the
video session has been set up for a video format, nothing else has changed. -/
theorem start_video_spec (build : Build) (av : AVCalls) (r : Recorder)
    (hformat : r.outFormat ≠ Format.PNG) (hthreads : ∀ t ∈ r.savingThreads, t = none) :
    ∃ r0, r.start build av = some r0 ∧ r0.currentFrame = 0 ∧
      r0.framesCount = r.framesCount ∧ r0.outFormat = r.outFormat ∧ r0.size = r.size ∧
      r0.savingThreads.length = r.savingThreads.length ∧
      (∀ t ∈ r0.savingThreads, t = none) ∧
      r0.video = (r.video.init build av r.outFormat).1 := by
  have hall : (Recorder.initVideo build av { r with currentFrame := 0 }
      r.outFormat).1.savingThreads.all (fun t => t.isNone) = true := by
    rw [List.all_eq_true]
    intro t ht
    rw [hthreads t ht]
    rfl
  refine ⟨{ (Recorder.initVideo build av { r with currentFrame := 0 } r.outFormat).1 with
      savingThreads := (Recorder.initVideo build av { r with currentFrame := 0 }
        r.outFormat).1.savingThreads.map (fun _ => none) }, ?_, rfl, rfl, rfl, rfl, ?_, ?_, rfl⟩
  · unfold Recorder.start
    dsimp only
    rw [if_pos hformat, if_pos hall]
  · show (List.map _ _).length = _
    rw [List.length_map]
    rfl
  · intro t ht
    obtain ⟨_, _, h⟩ := List.mem_map.mp ht
    exact h.symm

/-! ## The recorder: the order in which the encoder receives the frames -/

theorem eq_some_getD {α : Type} (o : Option α) (d : α) (h : o.isSome = true) :
    o = some (o.getD d) := by
  cases o with
  | none => simp at h
  | some a => rfl

theorem filterMap_cons_toList {α β : Type} (f : α → Option β) (a : α) (l : List α) :
    (a :: l).filterMap f = (f a).toList ++ l.filterMap f := by
  cases h : f a <;> simp [List.filterMap_cons, h]

/-- Whatever the workers do, the encoder receives each frame handed over once. -/
theorem Submissions.perm (events : List Event) (running order : List (Nat × Nat))
    (h : Submissions events running order) :
    order.Perm (running ++ events.filterMap Event.submitted) := by
  induction h with
  | done => exact List.Perm.refl _
  | worker events before after order t _ ih =>
    have h1 : (t :: order).Perm (t :: (before ++ after ++ events.filterMap Event.submitted)) :=
      List.Perm.cons t ih
    refine h1.trans ?_
    rw [List.append_assoc, List.append_assoc]
    exact List.perm_middle.symm
  | join slot events running order _ _ ih =>
    rw [filterMap_cons_toList]
    exact ih
  | spawn slot task events running order _ ih =>
    rw [filterMap_cons_toList, ← List.append_assoc]
    exact ih
  | inline task events running order _ ih =>
    rw [filterMap_cons_toList]
    have h1 : ((Event.inline task).submitted.toList ++ order).Perm
        ((Event.inline task).submitted.toList
          ++ (running ++ events.filterMap Event.submitted)) :=
      List.Perm.append_left _ ih
    refine h1.trans ?_
    rw [← List.append_assoc, ← List.append_assoc]
    exact List.Perm.append_right _ List.perm_append_comm
  | readPixels slot events running order _ ih =>
    rw [filterMap_cons_toList]
    exact ih
  | initVideo ok events running order _ ih =>
    rw [filterMap_cons_toList]
    exact ih
  | endVideo events running order _ ih =>
    rw [filterMap_cons_toList]
    exact ih

/-- When no worker is ever started the encoder receives the frames in the order of the
trace. -/
theorem Submissions.eq_of_no_spawn (events : List Event) (running order : List (Nat × Nat))
    (h : Submissions events running order) :
    running = [] → (∀ e ∈ events, e.isSpawn = false) →
    order = events.filterMap Event.submitted := by
  induction h with
  | done => intro _ _; rfl
  | worker events before after order t _ _ =>
    intro hr _
    exact absurd hr (by simp)
  | join slot events running order _ _ ih =>
    intro hr hn
    rw [filterMap_cons_toList]
    exact ih hr (fun e he => hn e (List.mem_cons_of_mem _ he))
  | spawn slot task events running order _ _ =>
    intro _ hn
    have := hn (Event.spawn slot task) (List.mem_cons_self _ _)
    exact absurd this (by simp [Event.isSpawn])
  | inline task events running order _ ih =>
    intro hr hn
    rw [filterMap_cons_toList, ih hr (fun e he => hn e (List.mem_cons_of_mem _ he))]
  | readPixels slot events running order _ ih =>
    intro hr hn
    rw [filterMap_cons_toList]
    exact ih hr (fun e he => hn e (List.mem_cons_of_mem _ he))
  | initVideo ok events running order _ ih =>
    intro hr hn
    rw [filterMap_cons_toList]
    exact ih hr (fun e he => hn e (List.mem_cons_of_mem _ he))
  | endVideo events running order _ ih =>
    intro hr hn
    rw [filterMap_cons_toList]
    exact ih hr (fun e he => hn e (List.mem_cons_of_mem _ he))

/-- The order of the trace is one the encoder can see: every worker submits its frame as
soon as it is started. -/
theorem Submissions.in_order : ∀ events : List Event,
    Submissions events [] (events.filterMap Event.submitted) := by
  intro events
  induction events with
  | nil => exact Submissions.done
  | cons e events ih =>
    rw [filterMap_cons_toList]
    cases e with
    | join slot =>
      exact Submissions.join slot _ _ _ (fun t ht => absurd ht (List.not_mem_nil _)) ih
    | readPixels slot => exact Submissions.readPixels slot _ _ _ ih
    | spawn slot task =>
      apply Submissions.spawn
      cases h : (Event.spawn slot task).submitted with
      | none => exact ih
      | some t => exact Submissions.worker _ [] [] _ t ih
    | inline task => exact Submissions.inline task _ _ _ ih
    | initVideo ok => exact Submissions.initVideo ok _ _ _ ih
    | endVideo => exact Submissions.endVideo _ _ _ ih

/-! ## C11: presentation timestamps -/

/-- C11, as stated, fails in a build with `FFMPEG_USE_THREADS`. In a 3-frame MPEG4 export on
a pool of 3 slots the three calls of `record` stamp the frames `0, 1, 2` and start one worker
each without waiting for the one before; the workers of the slots 0 and 1 run at the same
time, and the encoder can receive the stamps in the order `1, 0, 2`. -/
theorem record_timestamps_reordered :
    ∃ r0 r' events,
      ({ Recorder.sample Format.MPEG4 with framesCount := 3, currentFrame := 3 }
        : Recorder).start Build.videoThreads (AVCalls.sample true) = some r0 ∧
      r0.recordAll Build.videoThreads (List.replicate 3 (Framebuffer.sample 2)) = some r' ∧
      r'.trace = r0.trace ++ events ∧
      events.filterMap Event.submitted = [(0, 0), (1, 1), (2, 2)] ∧
      Submissions events [] [(1, 1), (0, 0), (2, 2)] := by
  refine ⟨(({ Recorder.sample Format.MPEG4 with framesCount := 3, currentFrame := 3 }
        : Recorder).start Build.videoThreads (AVCalls.sample true)).getD Recorder.blank,
    (((({ Recorder.sample Format.MPEG4 with framesCount := 3, currentFrame := 3 }
        : Recorder).start Build.videoThreads (AVCalls.sample true)).getD
      Recorder.blank).recordAll Build.videoThreads
        (List.replicate 3 (Framebuffer.sample 2))).getD Recorder.blank,
    [Event.readPixels 0, Event.spawn 0 (Task.writeFrameToVideo 0 (2, 2) false false 0),
      Event.readPixels 1, Event.spawn 1 (Task.writeFrameToVideo 1 (2, 2) false false 1),
      Event.readPixels 2, Event.spawn 2 (Task.writeFrameToVideo 2 (2, 2) false false 2),
      Event.join 0, Event.join 1, Event.join 2, Event.endVideo],
    eq_some_getD _ _ (by decide!), eq_some_getD _ _ (by decide!), by decide!, by decide!, ?_⟩
  apply Submissions.readPixels
  apply Submissions.spawn
  show Submissions _ [(0, 0)] _
  apply Submissions.readPixels
  apply Submissions.spawn
  show Submissions _ ([(0, 0)] ++ (1, 1) :: []) _
  apply Submissions.worker
  show Submissions _ ([] ++ (0, 0) :: []) _
  apply Submissions.worker
  show Submissions _ [] _
  apply Submissions.readPixels
  apply Submissions.spawn
  show Submissions _ ([] ++ (2, 2) :: []) _
  apply Submissions.worker
  show Submissions _ [] _
  apply Submissions.join
  · intro t ht; exact absurd ht (List.not_mem_nil _)
  apply Submissions.join
  · intro t ht; exact absurd ht (List.not_mem_nil _)
  apply Submissions.join
  · intro t ht; exact absurd ht (List.not_mem_nil _)
  apply Submissions.endVideo
  exact Submissions.done

/-- C11, amended. In a video export started by `start` (no worker joinable, `initVideo`
successful, one scratch frame per slot, at least one slot) and fed frames of the export
size, no more than `framesCount` of them, every call of `record` returns, and call `k` hands
the buffer of slot `k % poolSize` to `writeFrameToVideo` with the scratch frame of that slot
stamped `pts = k`: the stamps of the frames handed over are `0, 1, ..., n-1` in this order,
whatever the pool size. The encoder can receive them in this order, and in every order it
can receive them each stamp occurs once. In a build without `FFMPEG_USE_THREADS` this is the
only order. After a call that is not the last one of the export the scratch frame of its
slot still holds its stamp. -/
theorem record_timestamps (build : Build) (av : AVCalls) (r : Recorder)
    (frames : List Framebuffer)
    (hformat : r.outFormat ≠ Format.PNG)
    (hinit : (Recorder.initVideo build av { r with currentFrame := 0 } r.outFormat).2 = true)
    (hthreads : ∀ t ∈ r.savingThreads, t = none)
    (hpool : 0 < r.savingThreads.length)
    (hslots : r.video.frames.length = r.savingThreads.length)
    (hcount : frames.length ≤ r.framesCount)
    (hsize : ∀ f ∈ frames, f.width = r.size.1 ∧ f.height = r.size.2) :
    ∃ r0 r', r.start build av = some r0 ∧ r0.recordAll build frames = some r' ∧
      r'.currentFrame = frames.length ∧
      (∃ events, r'.trace = r0.trace ++ events ∧
        events.filterMap Event.submitted
          = (List.range frames.length).map (fun k => (k % r.savingThreads.length, k)) ∧
        Submissions events []
          ((List.range frames.length).map (fun k => (k % r.savingThreads.length, k))) ∧
        (∀ order, Submissions events [] order →
          order.Perm
            ((List.range frames.length).map (fun k => (k % r.savingThreads.length, k)))) ∧
        (build.ffmpegUseThreads = false → ∀ order, Submissions events [] order →
          order = (List.range frames.length).map (fun k => (k % r.savingThreads.length, k)))) ∧
      (frames ≠ [] → frames.length < r.framesCount →
        r'.video.frames.getD ((frames.length - 1) % r.savingThreads.length) none
          = some { pts := frames.length - 1 }) := by
  obtain ⟨r0, hstart, c0, f0, o0, s0, l0, _, v0⟩ :=
    start_video_spec build av r hformat hthreads
  have hok : (r.video.init build av r.outFormat).2 = true := hinit
  obtain ⟨hfr, hall⟩ := init_ok_frames build av r.video r.outFormat hok
  obtain ⟨al, _, asome⟩ := allocFrames_ok av r.video.frames.length 0 r.video.frames hall
    (by omega)
  have hframes : r0.video.frames = (allocFrames av r.video.frames.length 0 r.video.frames).1 := by
    rw [v0, hfr]
  obtain ⟨r', hrun, c', ⟨events, t', e', n'⟩, v'⟩ := recordAll_video build frames r0
    (by rw [o0]; exact hformat) (fun f hf => by rw [s0]; exact hsize f hf)
    (by rw [l0]; exact hpool) (by rw [hframes, al, l0]; exact hslots)
    (fun j hj => by
      rw [hframes]
      exact asome j (Nat.zero_le _) (by rw [l0, ← hslots] at hj; omega))
    (by rw [c0, f0]; omega)
  rw [c0, l0] at e' v'
  simp only [Nat.zero_add] at c' e' v'
  rw [c0] at c'
  simp only [Nat.zero_add] at c'
  refine ⟨r0, r', hstart, hrun, c',
    ⟨events, t', e', ?_, fun order h => ?_, fun ht order h => ?_⟩,
    fun h1 h2 => v' h1 (by rw [f0]; exact h2)⟩
  · rw [← e']
    exact Submissions.in_order events
  · rw [← e']
    exact Submissions.perm events [] order h
  · rw [← e']
    exact Submissions.eq_of_no_spawn events [] order h rfl (n' ht)

/-- C11, amended, at a 3-frame MPEG4 export with a pool of 3 slots in a build without
`FFMPEG_USE_THREADS`: the stamps handed over are `0, 1, 2`, and the encoder receives them in
this order and in no other. -/
theorem record_timestamps_witness :
    ∃ r0 r', ({ Recorder.construct Build.video 4 Recorder.blank with
          outFormat := Format.MPEG4, framesCount := 3, currentFrame := 3, size := (2, 2) }
        : Recorder).start Build.video (AVCalls.sample true) = some r0 ∧
      r0.recordAll Build.video
        [{ width := 2, height := 2, pixels := [] }, { width := 2, height := 2, pixels := [] },
          { width := 2, height := 2, pixels := [] }] = some r' ∧
      r'.currentFrame = 3 ∧
      ∃ events, r'.trace = r0.trace ++ events ∧
        events.filterMap Event.submitted = [(0, 0), (1, 1), (2, 2)] ∧
        Submissions events [] [(0, 0), (1, 1), (2, 2)] ∧
        ∀ order, Submissions events [] order → order = [(0, 0), (1, 1), (2, 2)] := by
  obtain ⟨r0, r', h1, h2, h3, ⟨events, h4, h5, h6, _, h7⟩, _⟩ :=
    record_timestamps Build.video (AVCalls.sample true)
      { Recorder.construct Build.video 4 Recorder.blank with
          outFormat := Format.MPEG4, framesCount := 3, currentFrame := 3, size := (2, 2) }
      [{ width := 2, height := 2, pixels := [] }, { width := 2, height := 2, pixels := [] },
        { width := 2, height := 2, pixels := [] }]
      (by decide) (by decide) (by decide) (by decide) (by decide) (by decide) (by decide)
  exact ⟨r0, r', h1, h2, h3, events, h4, h5, h6, h7 rfl⟩

/-! ## The recorder: slots and workers -/

theorem length_le_of_nodup_lt (l : List Nat) (n : Nat) (hnd : l.Nodup)
    (hlt : ∀ j ∈ l, j < n) : l.length ≤ n := by
  have hsub : l ⊆ List.range n := fun j hj => List.mem_range.mpr (hlt j hj)
  have := (List.subperm_of_subset hnd hsub).length_le
  rwa [List.length_range] at this

theorem isSome_getD_lt (threads : List (Option Task)) (j : Nat)
    (h : (threads.getD j none).isSome = true) : j < threads.length := by
  by_contra hc
  rw [List.getD_eq_getElem?_getD, List.getElem?_eq_none (by omega)] at h
  simp at h

/-- Joining the worker of a slot keeps the link between trace and workers, and leaves the
slot free. -/
theorem joinSlot_slotInv (build : Build) (r : Recorder) (slot poolSize : Nat)
    (state : List Nat × Bool) (hinv : SlotInv r state) :
    SlotInv (r.joinSlot build slot)
      ((if (r.savingThreads.getD slot none).isSome then [Event.join slot] else []).foldl
        (slotStep poolSize) state) ∧
    slot ∉ ((if (r.savingThreads.getD slot none).isSome then [Event.join slot] else []).foldl
        (slotStep poolSize) state).1 := by
  obtain ⟨hok, hnd, hlink⟩ := hinv
  obtain ⟨_, _, _, _, _, jth, _⟩ := joinSlot_spec build r slot
  by_cases hs : (r.savingThreads.getD slot none).isSome = true
  · rw [if_pos hs]
    simp only [List.foldl_cons, List.foldl_nil, slotStep]
    refine ⟨⟨hok, hnd.filter _, fun j => ?_⟩, ?_⟩
    · rw [jth, getD_set_threads, List.mem_filter, hlink j]
      by_cases hj : slot = j
      · subst hj
        simp [isSome_getD_lt _ _ hs]
      · have hj' : ¬ j = slot := fun h => hj h.symm
        simp [hj, hj']
    · simp [List.mem_filter]
  · rw [if_neg hs]
    simp only [List.foldl_nil]
    refine ⟨⟨hok, hnd, fun j => ?_⟩, ?_⟩
    · rw [jth, getD_set_threads, hlink j]
      by_cases hj : slot = j
      · subst hj
        have hn : r.savingThreads.getD slot none = none := by
          cases h : r.savingThreads.getD slot none with
          | none => rfl
          | some t => rw [h] at hs; simp at hs
        rw [hn]
        simp
      · simp [hj]
    · rw [hlink slot]
      exact hs

theorem Extends.refl (poolSize : Nat) (r : Recorder) : Extends poolSize r r [] :=
  ⟨by simp, rfl, fun _ h => h⟩

theorem Extends.trans {poolSize : Nat} {r q s : Recorder} {e1 e2 : List Event}
    (h1 : Extends poolSize r q e1) (h2 : Extends poolSize q s e2) :
    Extends poolSize r s (e1 ++ e2) := by
  obtain ⟨t1, l1, i1⟩ := h1
  obtain ⟨t2, l2, i2⟩ := h2
  refine ⟨by rw [t2, t1, List.append_assoc], l2.trans l1, fun state h => ?_⟩
  rw [List.foldl_append]
  exact i2 _ (i1 state h)

theorem joinSlot_extends (build : Build) (r : Recorder) (slot poolSize : Nat) :
    Extends poolSize r (r.joinSlot build slot)
      (if (r.savingThreads.getD slot none).isSome then [Event.join slot] else []) := by
  obtain ⟨_, _, _, _, _, jth, jt⟩ := joinSlot_spec build r slot
  exact ⟨jt, by rw [jth, List.length_set],
    fun state h => (joinSlot_slotInv build r slot poolSize state h).1⟩

theorem joinAll_extends (build : Build) (poolSize : Nat) (slots : List Nat) :
    ∀ r : Recorder, ∃ events,
      Extends poolSize r (slots.foldl (Recorder.joinSlot build) r) events := by
  induction slots with
  | nil => intro r; exact ⟨[], Extends.refl poolSize r⟩
  | cons s slots ih =>
    intro r
    obtain ⟨ev, h⟩ := ih (r.joinSlot build s)
    exact ⟨_, (joinSlot_extends build r s poolSize).trans h⟩

theorem endVideo_extends (build : Build) (poolSize : Nat) (r : Recorder) :
    Extends poolSize r (r.endVideo build) [Event.endVideo] := by
  unfold Recorder.endVideo
  split_ifs <;> exact ⟨rfl, rfl, fun _ h => h⟩

theorem finish_extends (build : Build) (poolSize : Nat) (r : Recorder) :
    ∃ events, Extends poolSize r (r.finish build) events := by
  have hadv : ∀ (q : Recorder) (time : F32) (n : Nat),
      Extends poolSize q { q with currentTime := time, currentFrame := n } [] :=
    fun q _ _ => ⟨by simp, rfl, fun _ h => h⟩
  obtain ⟨ev, hj⟩ := joinAll_extends build poolSize (List.range r.savingThreads.length) r
  by_cases hlast : r.currentFrame + 1 = r.framesCount
  · by_cases hf : ((List.range r.savingThreads.length).foldl (Recorder.joinSlot build)
        r).outFormat ≠ Format.PNG
    · have e : r.finish build
          = { ((List.range r.savingThreads.length).foldl (Recorder.joinSlot build) r).endVideo
              build with
              currentTime := (r.finish build).currentTime
              currentFrame := (r.finish build).currentFrame } := by
        unfold Recorder.finish
        simp only [if_pos hlast, if_pos hf]
      rw [e]
      exact ⟨_, (hj.trans (endVideo_extends build poolSize _)).trans (hadv _ _ _)⟩
    · have e : r.finish build
          = { (List.range r.savingThreads.length).foldl (Recorder.joinSlot build) r with
              currentTime := (r.finish build).currentTime
              currentFrame := (r.finish build).currentFrame } := by
        unfold Recorder.finish
        simp only [if_pos hlast, if_neg hf]
      rw [e]
      exact ⟨_, hj.trans (hadv _ _ _)⟩
  · rw [finish_of_ne build r hlast]
    exact ⟨_, hadv _ _ _⟩

/-- The first part of `record`: the worker of the slot is joined, so the slot is free when
the frame is read back into its buffer and when the buffer is handed over. -/
theorem dispatch_extends (build : Build) (r q : Recorder) (frame : Framebuffer)
    (hpool : 0 < r.savingThreads.length)
    (hq : ((r.joinSlot build (r.currentFrame % r.savingThreads.length)).readback
      (r.currentFrame % r.savingThreads.length) frame).dispatch build
      (r.currentFrame % r.savingThreads.length) = some q) :
    ∃ events, Extends r.savingThreads.length r q events := by
  have hslot : r.currentFrame % r.savingThreads.length < r.savingThreads.length :=
    Nat.mod_lt _ hpool
  obtain ⟨_, _, _, _, _, jth, jt⟩ :=
    joinSlot_spec build r (r.currentFrame % r.savingThreads.length)
  obtain ⟨_, _, _, _, _, _, _, _, _, dt⟩ := dispatch_spec build _ q _ hq
  have hrt : ((r.joinSlot build (r.currentFrame % r.savingThreads.length)).readback
      (r.currentFrame % r.savingThreads.length) frame).trace
      = r.trace ++ ((if (r.savingThreads.getD (r.currentFrame % r.savingThreads.length)
          none).isSome then [Event.join (r.currentFrame % r.savingThreads.length)] else [])
        ++ [Event.readPixels (r.currentFrame % r.savingThreads.length)]) := by
    show (r.joinSlot build _).trace ++ _ = _
    rw [jt, List.append_assoc]
  have hrth : ((r.joinSlot build (r.currentFrame % r.savingThreads.length)).readback
      (r.currentFrame % r.savingThreads.length) frame).savingThreads
      = r.savingThreads.set (r.currentFrame % r.savingThreads.length) none := jth
  rcases dt with ⟨task, ht, hth⟩ | ⟨task, ht, hth⟩
  · refine ⟨((if (r.savingThreads.getD (r.currentFrame % r.savingThreads.length)
          none).isSome then [Event.join (r.currentFrame % r.savingThreads.length)] else [])
        ++ [Event.readPixels (r.currentFrame % r.savingThreads.length)])
        ++ [Event.spawn (r.currentFrame % r.savingThreads.length) task], ?_, ?_, ?_⟩
    · rw [ht, hrt, List.append_assoc]
    · rw [hth, hrth, List.length_set, List.length_set]
    · intro state hinv
      obtain ⟨⟨jok, jnd, jlink⟩, jfree⟩ := joinSlot_slotInv build r
        (r.currentFrame % r.savingThreads.length) r.savingThreads.length state hinv
      rw [jth] at jlink
      have hc : List.contains (List.foldl (slotStep r.savingThreads.length) state
          (if (r.savingThreads.getD (r.currentFrame % r.savingThreads.length) none).isSome
            then [Event.join (r.currentFrame % r.savingThreads.length)] else [])).1
          (r.currentFrame % r.savingThreads.length) = false := by
        simpa using jfree
      have hbound : ∀ j ∈ (List.foldl (slotStep r.savingThreads.length) state
          (if (r.savingThreads.getD (r.currentFrame % r.savingThreads.length) none).isSome
            then [Event.join (r.currentFrame % r.savingThreads.length)] else [])).1,
          j < r.savingThreads.length := by
        intro j hj
        have := isSome_getD_lt _ _ ((jlink j).mp hj)
        rwa [List.length_set] at this
      have hlen := length_le_of_nodup_lt _ r.savingThreads.length
        (List.nodup_cons.mpr ⟨jfree, jnd⟩)
        (fun j hj => by
          rcases List.mem_cons.mp hj with h | h
          · rw [h]; exact hslot
          · exact hbound j h)
      rw [List.foldl_append, List.foldl_append]
      simp only [List.foldl_cons, List.foldl_nil, slotStep, hc, jok, Bool.not_false,
        Bool.and_true, Bool.true_and, decide_eq_true hlen]
      refine ⟨rfl, List.nodup_cons.mpr ⟨jfree, jnd⟩, fun j => ?_⟩
      rw [hth, hrth, getD_set_threads, List.mem_cons, jlink j, List.length_set]
      by_cases hj : r.currentFrame % r.savingThreads.length = j
      · subst hj
        simp [hslot]
      · have hj' : ¬ j = r.currentFrame % r.savingThreads.length := fun h => hj h.symm
        simp [hj, hj']
  · refine ⟨((if (r.savingThreads.getD (r.currentFrame % r.savingThreads.length)
          none).isSome then [Event.join (r.currentFrame % r.savingThreads.length)] else [])
        ++ [Event.readPixels (r.currentFrame % r.savingThreads.length)])
        ++ [Event.inline task], ?_, ?_, ?_⟩
    · rw [ht, hrt, List.append_assoc]
    · rw [hth, hrth, List.length_set]
    · intro state hinv
      obtain ⟨⟨jok, jnd, jlink⟩, jfree⟩ := joinSlot_slotInv build r
        (r.currentFrame % r.savingThreads.length) r.savingThreads.length state hinv
      rw [jth] at jlink
      have hc : List.contains (List.foldl (slotStep r.savingThreads.length) state
          (if (r.savingThreads.getD (r.currentFrame % r.savingThreads.length) none).isSome
            then [Event.join (r.currentFrame % r.savingThreads.length)] else [])).1
          (r.currentFrame % r.savingThreads.length) = false := by
        simpa using jfree
      rw [List.foldl_append, List.foldl_append]
      simp only [List.foldl_cons, List.foldl_nil, slotStep, hc, jok, Bool.not_false,
        Bool.and_true]
      refine ⟨rfl, jnd, fun j => ?_⟩
      rw [hth, hrth]
      exact jlink j

/-- One call of `record` keeps the link between trace and workers. -/
theorem record_extends (build : Build) (r r' : Recorder) (frame : Framebuffer)
    (hpool : 0 < r.savingThreads.length) (h : r.record build frame = some r') :
    ∃ events, Extends r.savingThreads.length r r' events := by
  rw [record_eq] at h
  by_cases hm : frame.width ≠ r.size.1 ∨ frame.height ≠ r.size.2
  · rw [if_pos hm] at h
    cases h
    exact ⟨[], by simp, rfl, fun _ hinv => hinv⟩
  · rw [if_neg hm, Option.map_eq_some'] at h
    obtain ⟨q, hq, hfin⟩ := h
    obtain ⟨e1, h1⟩ := dispatch_extends build r q frame hpool hq
    obtain ⟨e2, h2⟩ := finish_extends build r.savingThreads.length q
    subst hfin
    exact ⟨_, h1.trans h2⟩

/-- A run of `record` calls keeps the link between trace and workers. -/
theorem recordAll_extends (build : Build) : ∀ (frames : List Framebuffer) (r r' : Recorder),
    0 < r.savingThreads.length → r.recordAll build frames = some r' →
    ∃ events, Extends r.savingThreads.length r r' events := by
  intro frames
  induction frames with
  | nil =>
    intro r r' _ h
    cases h
    exact ⟨[], Extends.refl _ r⟩
  | cons frame frames ih =>
    intro r r' hpool h
    simp only [Recorder.recordAll, Option.bind_eq_some] at h
    obtain ⟨r1, h1, h2⟩ := h
    obtain ⟨e1, x1⟩ := record_extends build r r1 frame hpool h1
    obtain ⟨e2, x2⟩ := ih r1 r' (by rw [x1.2.1]; exact hpool) h2
    rw [x1.2.1] at x2
    exact ⟨_, x1.trans x2⟩

/-- After `start` no worker is joinable; the threads are as many as before and the format is
kept. -/
theorem start_spec (build : Build) (av : AVCalls) (r r0 : Recorder)
    (h : r.start build av = some r0) :
    r0.savingThreads.length = r.savingThreads.length ∧ r0.outFormat = r.outFormat ∧
    ∀ t ∈ r0.savingThreads, t = none := by
  unfold Recorder.start at h
  dsimp only at h
  split_ifs at h with h1 h2 h3
  · cases h
    refine ⟨?_, rfl, fun t ht => ?_⟩
    · show (List.map _ _).length = _
      rw [List.length_map]; rfl
    · obtain ⟨_, _, e⟩ := List.mem_map.mp ht
      exact e.symm
  · cases h
    refine ⟨?_, rfl, fun t ht => ?_⟩
    · show (List.map _ _).length = _
      rw [List.length_map]
    · obtain ⟨_, _, e⟩ := List.mem_map.mp ht
      exact e.symm

theorem slotInv_of_all_none (r : Recorder) (h : ∀ t ∈ r.savingThreads, t = none) :
    SlotInv r ([], true) := by
  refine ⟨rfl, List.nodup_nil, fun j => ?_⟩
  simp only [List.not_mem_nil, false_iff, Bool.not_eq_true, Option.not_isSome,
    Option.isNone_iff_eq_none]
  rw [List.getD_eq_getElem?_getD]
  by_cases hj : j < r.savingThreads.length
  · rw [List.getElem?_eq_getElem hj]
    exact h _ (List.getElem_mem _)
  · rw [List.getElem?_eq_none (by omega)]
    rfl

/-- A call of `record` in a PNG export always returns. -/
theorem record_png (build : Build) (r : Recorder) (frame : Framebuffer)
    (hformat : r.outFormat = Format.PNG) :
    ∃ r', r.record build frame = some r' ∧ r'.outFormat = Format.PNG := by
  rw [record_eq]
  by_cases hm : frame.width ≠ r.size.1 ∨ frame.height ≠ r.size.2
  · rw [if_pos hm]
    exact ⟨_, rfl, hformat⟩
  · rw [if_neg hm]
    obtain ⟨_, jo, _, _, _, _, _⟩ :=
      joinSlot_spec build r (r.currentFrame % r.savingThreads.length)
    have ho : ((r.joinSlot build (r.currentFrame % r.savingThreads.length)).readback
        (r.currentFrame % r.savingThreads.length) frame).outFormat = Format.PNG :=
      jo.trans hformat
    have hd : ∃ q, ((r.joinSlot build (r.currentFrame % r.savingThreads.length)).readback
        (r.currentFrame % r.savingThreads.length) frame).dispatch build
        (r.currentFrame % r.savingThreads.length) = some q := by
      unfold Recorder.dispatch
      rw [if_pos ho]
      exact ⟨_, rfl⟩
    obtain ⟨q, hq⟩ := hd
    obtain ⟨_, _, dof, _, _, _, _, _, _, _⟩ := dispatch_spec build _ q _ hq
    obtain ⟨_, _, fo, _, _, _⟩ := finish_spec build q
    rw [hq]
    exact ⟨q.finish build, rfl, by rw [fo, dof]; exact ho⟩

theorem recordAll_png (build : Build) : ∀ (frames : List Framebuffer) (r : Recorder),
    r.outFormat = Format.PNG → ∃ r', r.recordAll build frames = some r' := by
  intro frames
  induction frames with
  | nil => intro r _; exact ⟨r, rfl⟩
  | cons frame frames ih =>
    intro r hformat
    obtain ⟨r1, h1, o1⟩ := record_png build r frame hformat
    obtain ⟨r', h2⟩ := ih r1 o1
    exact ⟨r', by simp only [Recorder.recordAll, h1, Option.some_bind]; exact h2⟩

/-! ## C12: a slot is reused only after its worker has been joined -/

/-- C12. In every sequence of `record` calls after `start`, on a pool of at least one slot,
the events of the calls pass the check `reuseSafe`: a frame is read back into the buffer of a
slot, and a worker is started on a slot, only when every worker started on that slot before
has been joined, so no slot has two tasks in flight, and the slots with a task in flight are
never more than `poolSize`. In a PNG export every call returns. -/
theorem record_slot_reuse (build : Build) (av : AVCalls) (r r0 : Recorder)
    (frames : List Framebuffer) (hstart : r.start build av = some r0)
    (hpool : 0 < r.savingThreads.length) :
    (r.outFormat = Format.PNG → ∃ r', r0.recordAll build frames = some r') ∧
    ∀ r', r0.recordAll build frames = some r' →
      ∃ events, r'.trace = r0.trace ++ events ∧
        reuseSafe r.savingThreads.length events = true := by
  obtain ⟨l0, o0, n0⟩ := start_spec build av r r0 hstart
  refine ⟨fun hformat => recordAll_png build frames r0 (o0.trans hformat), fun r' hrun => ?_⟩
  obtain ⟨events, ht, _, hinv⟩ := recordAll_extends build frames r0 r' (by rw [l0]; exact hpool)
    hrun
  rw [l0] at hinv
  exact ⟨events, ht, (hinv _ (slotInv_of_all_none r0 n0)).1⟩

/-- C12 at a PNG export on a pool of 3 slots fed 4 frames back to back: the trace passes the
check, and slot 0 is joined between its two readbacks. -/
theorem record_slot_reuse_witness :
    ∃ r0 r', (Recorder.sample Format.PNG).start Build.video (AVCalls.sample true) = some r0 ∧
      r0.recordAll Build.video (List.replicate 4 (Framebuffer.sample 2)) = some r' ∧
      (∃ events, r'.trace = r0.trace ++ events ∧ reuseSafe 3 events = true) ∧
      r'.trace.filter
          (fun e => decide (e = Event.join 0) || decide (e = Event.readPixels 0))
        = [Event.readPixels 0, Event.join 0, Event.readPixels 0] :=
  ⟨((Recorder.sample Format.PNG).start Build.video (AVCalls.sample true)).getD Recorder.blank,
    ((((Recorder.sample Format.PNG).start Build.video (AVCalls.sample true)).getD
      Recorder.blank).recordAll Build.video
        (List.replicate 4 (Framebuffer.sample 2))).getD Recorder.blank,
    eq_some_getD _ _ (by decide!), eq_some_getD _ _ (by decide!),
    (record_slot_reuse Build.video (AVCalls.sample true) (Recorder.sample Format.PNG)
      (((Recorder.sample Format.PNG).start Build.video (AVCalls.sample true)).getD
        Recorder.blank)
      (List.replicate 4 (Framebuffer.sample 2)) (eq_some_getD _ _ (by decide!))
      (by decide)).2 _ (eq_some_getD _ _ (by decide!)),
    by decide!⟩

/-! ## C13: no finalisation after a size mismatch -/

theorem recordAll_after_end (build : Build) : ∀ (frames : List Framebuffer) (r r' : Recorder),
    r.framesCount ≤ r.currentFrame → r.recordAll build frames = some r' →
    r'.framesCount = r.framesCount ∧ r'.framesCount ≤ r'.currentFrame ∧
    r'.video.formatCtx = r.video.formatCtx ∧ r'.video.codec = r.video.codec ∧
    r'.video.codecCtx = r.video.codecCtx ∧ r'.video.stream = r.video.stream ∧
    r'.video.swsContexts = r.video.swsContexts ∧
    ∃ events, r'.trace = r.trace ++ events ∧ Event.endVideo ∉ events := by
  intro frames
  induction frames with
  | nil =>
    intro r r' hdone h
    cases h
    exact ⟨rfl, hdone, rfl, rfl, rfl, rfl, rfl, [], by simp, by simp⟩
  | cons frame frames ih =>
    intro r r' hdone h
    simp only [Recorder.recordAll, Option.bind_eq_some] at h
    obtain ⟨r1, h1, h2⟩ := h
    obtain ⟨a1, a2, a3, a4, a5, a6, a7, e1, a8, a9⟩ := record_after_end build r r1 frame hdone h1
    obtain ⟨b1, b2, b3, b4, b5, b6, b7, e2, b8, b9⟩ := ih r1 r' a2 h2
    refine ⟨b1.trans a1, b2, b3.trans a3, b4.trans a4, b5.trans a5, b6.trans a6,
      b7.trans a7, e1 ++ e2, by rw [b8, a8, List.append_assoc], ?_⟩
    intro hmem
    rcases List.mem_append.mp hmem with h | h
    · exact a9 h
    · exact b9 h

/-- C13, what the code does. A call of `record` with a frame of the wrong size returns with
the frame counter set to `framesCount` and nothing else changed; from then on the test
`currentFrame + 1 == framesCount` of the finalize path fails in every call of `record`:
whatever frames follow, the recorder is not recording, no `endVideo` is traced and the
handles of the video session are those it had before the mismatch. The session opened by
`start` is not torn down. -/
theorem record_after_mismatch (build : Build) (r : Recorder) (frame : Framebuffer)
    (frames : List Framebuffer)
    (hsize : frame.width ≠ r.size.1 ∨ frame.height ≠ r.size.2) :
    r.record build frame = some { r with currentFrame := r.framesCount } ∧
    (r.outFormat = Format.PNG → ∃ r', r.recordAll build (frame :: frames) = some r') ∧
    ∀ r', r.recordAll build (frame :: frames) = some r' →
      r'.isRecording = false ∧
      r'.video.formatCtx = r.video.formatCtx ∧ r'.video.codec = r.video.codec ∧
      r'.video.codecCtx = r.video.codecCtx ∧ r'.video.stream = r.video.stream ∧
      r'.video.swsContexts = r.video.swsContexts ∧
      ∃ events, r'.trace = r.trace ++ events ∧ Event.endVideo ∉ events := by
  have h1 : r.record build frame = some { r with currentFrame := r.framesCount } := by
    rw [record_eq, if_pos hsize]
  refine ⟨h1, fun hformat => recordAll_png build (frame :: frames) r hformat, ?_⟩
  intro r' h
  simp only [Recorder.recordAll, h1, Option.some_bind] at h
  obtain ⟨_, b2, b3, b4, b5, b6, b7, b8⟩ :=
    recordAll_after_end build frames { r with currentFrame := r.framesCount } r' (le_refl _) h
  refine ⟨?_, b3, b4, b5, b6, b7, b8⟩
  simp only [Recorder.isRecording, decide_eq_false_iff_not, not_lt]
  exact b2

/-- C13 at a 100-frame MPEG4 export: 5 frames, then a frame 3 pixels wide instead of 2, then
2 more frames. The recorder is not recording, the container handle is still held and no
`endVideo` has been traced. In the same PNG export the workers of the slots are still
joinable after the mismatch, and the next `start` ends the program. -/
theorem record_after_mismatch_witness :
    (∃ r5 r', ((Recorder.sample Format.MPEG4).start Build.video (AVCalls.sample true)).bind
          (fun r0 => r0.recordAll Build.video (List.replicate 5 (Framebuffer.sample 2)))
        = some r5 ∧
      r5.currentFrame = 5 ∧ r5.video.formatCtx = true ∧
      r5.recordAll Build.video
        (Framebuffer.sample 3 :: List.replicate 2 (Framebuffer.sample 2)) = some r' ∧
      r'.isRecording = false ∧ r'.video.formatCtx = r5.video.formatCtx ∧
      ∃ events, r'.trace = r5.trace ++ events ∧ Event.endVideo ∉ events) ∧
    (((Recorder.sample Format.PNG).start Build.video (AVCalls.sample true)).bind
        (fun r0 => r0.recordAll Build.video
          (List.replicate 5 (Framebuffer.sample 2) ++ [Framebuffer.sample 3]))).isSome
      = true ∧
    ((((Recorder.sample Format.PNG).start Build.video (AVCalls.sample true)).bind
        (fun r0 => r0.recordAll Build.video
          (List.replicate 5 (Framebuffer.sample 2) ++ [Framebuffer.sample 3]))).bind
      (fun r => r.start Build.video (AVCalls.sample true))).isNone = true :=
  ⟨⟨(((Recorder.sample Format.MPEG4).start Build.video (AVCalls.sample true)).bind
        (fun r0 => r0.recordAll Build.video
          (List.replicate 5 (Framebuffer.sample 2)))).getD Recorder.blank,
      (((((Recorder.sample Format.MPEG4).start Build.video (AVCalls.sample true)).bind
        (fun r0 => r0.recordAll Build.video
          (List.replicate 5 (Framebuffer.sample 2)))).getD Recorder.blank).recordAll
        Build.video
        (Framebuffer.sample 3 :: List.replicate 2 (Framebuffer.sample 2))).getD Recorder.blank,
      eq_some_getD _ _ (by decide!), by decide!, by decide!, eq_some_getD _ _ (by decide!),
      (record_after_mismatch Build.video
        ((((Recorder.sample Format.MPEG4).start Build.video (AVCalls.sample true)).bind
          (fun r0 => r0.recordAll Build.video
            (List.replicate 5 (Framebuffer.sample 2)))).getD Recorder.blank)
        (Framebuffer.sample 3) (List.replicate 2 (Framebuffer.sample 2)) (by decide!)).2.2 _
        (eq_some_getD _ _ (by decide!)) |>.1,
      (record_after_mismatch Build.video
        ((((Recorder.sample Format.MPEG4).start Build.video (AVCalls.sample true)).bind
          (fun r0 => r0.recordAll Build.video
            (List.replicate 5 (Framebuffer.sample 2)))).getD Recorder.blank)
        (Framebuffer.sample 3) (List.replicate 2 (Framebuffer.sample 2)) (by decide!)).2.2 _
        (eq_some_getD _ _ (by decide!)) |>.2.1,
      (record_after_mismatch Build.video
        ((((Recorder.sample Format.MPEG4).start Build.video (AVCalls.sample true)).bind
          (fun r0 => r0.recordAll Build.video
            (List.replicate 5 (Framebuffer.sample 2)))).getD Recorder.blank)
        (Framebuffer.sample 3) (List.replicate 2 (Framebuffer.sample 2)) (by decide!)).2.2 _
        (eq_some_getD _ _ (by decide!)) |>.2.2.2.2.2.2⟩,
    by decide!, by decide!⟩

end MIDIVisualizer
